import Mathlib

/-!
# infinite-live: packet transport, pacers, broadcaster and store-and-forward driver

A shallow embedding of

* `internal/pkg/protocol/packet.go`      (`WritePacket`, `ReadPacket`),
* `internal/domain/domain.go`            (`AvatarState`, `MediaFrame`, the source interface),
* `internal/adapter/file/source.go`      (`LoopReader`),
* `internal/adapter/file/ogg_reader.go`  (`OggLoopReader`),
* `internal/usecase/interactor.go`       (`runVideoLoop`, `runAudioLoop`, `routeTalkingData`),
* `internal/infrastructure/broadcast.go` (`UDSBroadcaster`, a session of `Start`),
* `internal/adapter/uds/channel.go`      (`ChannelSource`),
* `cmd/doubao_worker/worker.go`          (`generateAndStream`, buffering to playback),

followed by the properties proved about them.

Conventions of the embedding

* a byte is a `Fin 256`; a Go `[]byte` is a `List Byte`, and a slice that may be `nil`
  is an `Option (List Byte)`;
* a Go `error` result is an `Option Err` (`none` is `nil`);
* an `io.Reader` is the list of bytes it still has to deliver together with the error it
  reports once they are used up; an `io.Writer` is the list of bytes it has accepted
  together with the outcomes of its coming `Write` calls;
* a call that may panic at run time returns a `Go` value;
* a buffered channel is a `Chan`: the values queued, the capacity and whether it is closed;
* clock readings and durations are integers counting nanoseconds, as `time.Duration` does.
-/

namespace InfiniteLive

/-! ## Bytes, errors, readers and writers -/

abbrev Byte := Fin 256

/-- Go conversion `byte(n)`: truncation to the low eight bits. -/
def byte (n : Nat) : Byte := ⟨n % 256, Nat.mod_lt n (by decide)⟩

/-- Error values that occur in the modelled code. -/
inductive Err where
  /-- `io.EOF` -/
  | EOF
  /-- `io.ErrUnexpectedEOF` -/
  | ErrUnexpectedEOF
  /-- `fmt.Errorf("packet too large: %d", length)` -/
  | PacketTooLarge (length : Nat)
  /-- `os.ErrClosed`: an operation on a file that has been closed -/
  | ErrClosed
  /-- `errors.New("reader closed")` -/
  | ReaderClosed
  /-- `io.ErrClosedPipe` -/
  | ErrClosedPipe
  /-- `fmt.Errorf("received 0 video frames")` -/
  | NoVideoFrames
  /-- any other error of the transport or of the file system -/
  | Other (code : Nat)
  deriving DecidableEq, Repr

/-- Outcome of a Go call that may panic at run time. -/
inductive Go (α : Type) where
  | ret (a : α)
  | panic
  deriving DecidableEq, Repr

/-- An `io.Reader`: `buf` are the bytes still to be delivered, `fin` is the error every
read reports once `buf` is used up (`io.EOF` when the peer closed the stream). -/
structure Reader where
  buf : List Byte
  fin : Err
  deriving DecidableEq, Repr

/-- The library function `io.ReadFull(r, buf)` with `len(buf) = n`: exactly `n` bytes are
returned, or an error; the error is `io.EOF` only if no byte was read, and an `io.EOF`
after some but not all bytes is turned into `io.ErrUnexpectedEOF`. The bytes of a short
read are consumed. -/
def ReadFull (r : Reader) (n : Nat) : Except Err (List Byte) × Reader :=
  if n ≤ r.buf.length then
    (.ok (r.buf.take n), { r with buf := r.buf.drop n })
  else if r.buf.length = 0 then
    (.error r.fin, r)
  else
    (.error (if r.fin = Err.EOF then Err.ErrUnexpectedEOF else r.fin), { r with buf := [] })

/-- An `io.Writer`: `out` are the bytes accepted so far, `fails` are the outcomes of the
coming `Write` calls in order (`some e`: the call fails with `e` and accepts nothing;
`none`, or a used-up list: the call succeeds). -/
structure Writer where
  out : List Byte
  fails : List (Option Err)
  deriving DecidableEq, Repr

/-- One call `w.Write(p)`. -/
def Writer.Write (w : Writer) (p : List Byte) : Option Err × Writer :=
  match w.fails with
  | [] => (none, { w with out := w.out ++ p })
  | none :: rest => (none, { out := w.out ++ p, fails := rest })
  | some e :: rest => (some e, { w with fails := rest })

/-- The library function `binary.BigEndian.PutUint32` as the four bytes it stores:
`byte(v >> 24), byte(v >> 16), byte(v >> 8), byte(v)`. -/
def PutUint32 (v : Nat) : List Byte :=
  [byte (v / 16777216), byte (v / 65536), byte (v / 256), byte v]

/-- The library function `binary.BigEndian.Uint32` on a slice of four bytes. -/
def Uint32 (b : List Byte) : Nat :=
  (b.getD 0 0).val * 16777216 + (b.getD 1 0).val * 65536 + (b.getD 2 0).val * 256
    + (b.getD 3 0).val

/-! ## `internal/pkg/protocol/packet.go` -/

namespace protocol

def PacketTypeVideo : Byte := 0x01
def PacketTypeAudio : Byte := 0x02
def PacketTypeText : Byte := 0x03
def PacketTypeUserAudio : Byte := 0x04

/-- `WritePacket(w, packetType, data)`: header `[type][length, 4 bytes big endian]`, then
the payload; `length` is `uint32(len(data))`. Returns the error and the writer afterwards. -/
def WritePacket (w : Writer) (packetType : Byte) (data : List Byte) : Option Err × Writer :=
  let length := data.length % 4294967296
  let header := packetType :: PutUint32 length
  match w.Write header with
  | (some err, w1) => (some err, w1)
  | (none, w1) =>
    match w1.Write data with
    | (some err, w2) => (some err, w2)
    | (none, w2) => (none, w2)

/-- `ReadPacket(r)`: the returned `(type, payload, error)` and the reader afterwards. -/
def ReadPacket (r : Reader) : (Byte × Option (List Byte) × Option Err) × Reader :=
  match ReadFull r 5 with
  | (.error err, r1) => ((0, none, some err), r1)
  | (.ok header, r1) =>
    let packetType := header.getD 0 0
    let length := Uint32 (header.drop 1)
    if length = 0 then
      ((packetType, none, some Err.EOF), r1)
    else if length > 10000000 then
      ((0, none, some (Err.PacketTooLarge length)), r1)
    else
      match ReadFull r1 length with
      | (.error err, r2) => ((0, none, some err), r2)
      | (.ok data, r2) => ((packetType, some data, none), r2)

end protocol

/-! ## `internal/domain/domain.go` -/

namespace domain

/-- `AvatarState`, an `iota` enumeration. -/
inductive AvatarState where
  | StateIdle
  | StateListening
  | StateThinking
  | StateTalking
  deriving DecidableEq, Repr

/-- `MediaFrame`: one frame of video or audio data (`Typ` is the field `Type`). -/
structure MediaFrame where
  Data : List Byte
  Duration : Int
  IsKey : Bool
  Typ : Byte
  deriving DecidableEq, Repr

/-- The two methods of the interface `ResettableFrameSource` that the video loop calls,
over the state `σ` of the implementing object. `NextFrame` returns the frame pointer
(`none` is `nil`) and the error; `Reset` returns the error. -/
structure ResettableFrameSource (σ : Type) where
  NextFrame : σ → Go ((Option MediaFrame × Option Err) × σ)
  Reset : σ → Go (Option Err × σ)

end domain

open domain

/-! ## `internal/adapter/file/source.go` -/

namespace file

/-- `LoopReader`, the reader of an IVF container. `frames` are the frame payloads stored
in the file, in file order; `ivf` is the frame cursor of the field `r.ivf` (index of the
next frame to parse; `none` is a `nil` reader); `loop` is the field of that name;
`fileOpen` tells that `r.file` has not been closed. The file is taken to hold a well-formed
container that does not change, so that on an open file `ivfreader.NewWith` succeeds and
parsing fails only behind the last frame. -/
structure LoopReader where
  frames : List (List Byte)
  ivf : Option Nat
  loop : Bool
  fileOpen : Bool
  deriving DecidableEq, Repr

/-- The library call `r.file.Seek(0, 0)`: fails on a closed file. -/
def seekStart (r : LoopReader) : Option Err :=
  if r.fileOpen then none else some Err.ErrClosed

/-- The library call `r.ivf.ParseNextFrame()` with the cursor at `pos`: the next payload
and the advanced cursor, `io.EOF` behind the last frame, an error on a closed file. -/
def ParseNextFrame (r : LoopReader) (pos : Nat) : Except Err (List Byte × Nat) :=
  if r.fileOpen then
    match r.frames[pos]? with
    | some payload => .ok (payload, pos + 1)
    | none => .error Err.EOF
  else .error Err.ErrClosed

/-- The frame `NextFrame` builds from a payload whose first byte is `first`: a key frame
when the least significant bit of that byte is 0. -/
def frameOf (payload : List Byte) (first : Byte) : MediaFrame :=
  { Typ := protocol.PacketTypeVideo, Data := payload, Duration := 40,
    IsKey := decide (first.val &&& 0x01 = 0) }

/-- The tail of `NextFrame`: keyframe detection on the payload and construction of the
frame. `payload[0]` panics on an empty payload. -/
def mkFrame (payload : List Byte) : Go (Option MediaFrame × Option Err) :=
  match payload with
  | [] => .panic
  | b :: _ => .ret (some (frameOf payload b), none)

/-- `(*LoopReader).NextFrame`. -/
def LoopReader.NextFrame (r : LoopReader) : Go ((Option MediaFrame × Option Err) × LoopReader) :=
  match r.ivf with
  | none => .ret ((none, some Err.ReaderClosed), r)
  | some pos =>
    match ParseNextFrame r pos with
    | .ok (payload, pos1) =>
      match mkFrame payload with
      | .ret res => .ret (res, { r with ivf := some pos1 })
      | .panic => .panic
    | .error err =>
      if err = Err.EOF then
        if !r.loop then .ret ((none, some Err.EOF), r)
        else
          match seekStart r with
          | some seekErr => .ret ((none, some seekErr), r)
          | none =>
            -- `ivfreader.NewWith(r.file)` on the rewound file: a fresh cursor
            let r1 := { r with ivf := some 0 }
            match ParseNextFrame r1 0 with
            | .error err1 => .ret ((none, some err1), r1)
            | .ok (payload, pos1) =>
              match mkFrame payload with
              | .ret res => .ret (res, { r1 with ivf := some pos1 })
              | .panic => .panic
      else .ret ((none, some err), r)

/-- `(*LoopReader).Reset`: seek to the start and re-create the IVF reader. -/
def LoopReader.Reset (r : LoopReader) : Option Err × LoopReader :=
  match seekStart r with
  | some err => (some err, r)
  | none => (none, { r with ivf := some 0 })

/-- `LoopReader` as an implementation of `domain.ResettableFrameSource`. -/
def loopReaderSource : ResettableFrameSource LoopReader where
  NextFrame := LoopReader.NextFrame
  Reset := fun r => .ret (LoopReader.Reset r)

/-- `newReader` on a file that opens and holds a valid container. -/
def newReader (frames : List (List Byte)) (loop : Bool) : LoopReader :=
  { frames := frames, ivf := some 0, loop := loop, fileOpen := true }

/-- The frame for the payload at index `k` of a container, counted cyclically: what a
source playing the container in a loop has to deliver as its frame number `k`. -/
def frameAt (frames : List (List Byte)) (k : Nat) : MediaFrame :=
  frameOf (frames.getD (k % frames.length) [])
    ((frames.getD (k % frames.length) []).headD 0)

end file

/-! ## `internal/usecase/interactor.go`: the video loop -/

namespace usecase

/-- `time.Millisecond` and `time.Hour` in nanoseconds. -/
def Millisecond : Int := 1000000
def Hour : Int := 3600000000000

/-- The variables of `runVideoLoop` (`waitingForKeyframe`, `lastState`, `lastTalkTime`)
with the fields of the interactor the loop touches (`currentState`, `idleVideoSource`). -/
structure VideoLoop (σ : Type) where
  waitingForKeyframe : Bool
  lastState : AvatarState
  lastTalkTime : Int
  currentState : AvatarState
  idleVideoSource : σ
  deriving DecidableEq, Repr

/-- State at the entry of the loop, for the clock reading `start` taken there:
`NewLiveInteractor` sets `currentState` to `StateIdle`, the loop sets its three variables. -/
def VideoLoop.init {σ : Type} (start : Int) (idle : σ) : VideoLoop σ :=
  { waitingForKeyframe := true
    lastState := AvatarState.StateIdle
    lastTalkTime := start - 10 * Hour
    currentState := AvatarState.StateIdle
    idleVideoSource := idle }

/-- What one firing of the ticker finds: the outcome of the non-blocking receive on
`talkingVideoCh` (`none`: the `default` branch) and the clock reading of the tick. -/
structure Tick where
  talk : Option MediaFrame
  now : Int
  deriving DecidableEq, Repr

/-- The calls a tick makes on the collaborators of the loop. -/
inductive Event where
  /-- `l.publisher.Publish(talkFrame)` in the talking branch -/
  | PublishTalking (f : MediaFrame)
  /-- `l.publisher.Publish(frame)` with a frame of the idle video source -/
  | PublishIdle (f : MediaFrame)
  /-- `l.idleVideoSource.Reset()` with the error it returned -/
  | Reset (err : Option Err)
  deriving DecidableEq, Repr

/-- The last statements of the loop body: `NextFrame` on the idle source, published when
`err == nil && frame != nil`. -/
def publishIdle {σ : Type} (src : ResettableFrameSource σ) (s : VideoLoop σ) :
    List Event × Go (VideoLoop σ) :=
  match src.NextFrame s.idleVideoSource with
  | .panic => ([], .panic)
  | .ret ((frame, err), idle1) =>
    let s1 := { s with idleVideoSource := idle1 }
    match err, frame with
    | none, some f => ([Event.PublishIdle f], .ret s1)
    | _, _ => ([], .ret s1)

/-- The body of `runVideoLoop` for one firing of the ticker: the calls made, in order,
and the state afterwards (`panic` if a call on the idle source panicked). -/
def videoTick {σ : Type} (src : ResettableFrameSource σ) (s : VideoLoop σ) (t : Tick) :
    List Event × Go (VideoLoop σ) :=
  match t.talk with
  | some talkFrame =>
    let s1 := { s with lastTalkTime := t.now }
    let s2 := if s1.lastState = AvatarState.StateIdle then
                { s1 with waitingForKeyframe := true } else s1
    let s3 := { s2 with lastState := AvatarState.StateTalking,
                        currentState := AvatarState.StateTalking }
    if s3.waitingForKeyframe then
      if !talkFrame.IsKey then ([], .ret s3)
      else ([Event.PublishTalking talkFrame], .ret { s3 with waitingForKeyframe := false })
    else ([Event.PublishTalking talkFrame], .ret s3)
  | none =>
    if t.now - s.lastTalkTime < 80 * Millisecond then ([], .ret s)
    else if s.lastState = AvatarState.StateTalking then
      let s1 := { s with lastState := AvatarState.StateIdle,
                         currentState := AvatarState.StateIdle,
                         waitingForKeyframe := true }
      match src.Reset s1.idleVideoSource with
      | .panic => ([], .panic)
      | .ret (err, idle1) =>
        let out := publishIdle src { s1 with idleVideoSource := idle1 }
        (Event.Reset err :: out.1, out.2)
    else publishIdle src s

/-- The loop over a finite sequence of ticks: the calls made on each tick and the state
after the last one. A panic ends the run. -/
def runVideoLoop {σ : Type} (src : ResettableFrameSource σ) (s : VideoLoop σ) :
    List Tick → List (List Event) × Go (VideoLoop σ)
  | [] => ([], .ret s)
  | t :: ts =>
    match videoTick src s t with
    | (ev, .panic) => ([ev], .panic)
    | (ev, .ret s1) =>
      let out := runVideoLoop src s1 ts
      (ev :: out.1, out.2)

/-- Clock reading of the last tick of a run that obtained a talking frame, if any. -/
def lastTalkObtained : List Tick → Option Int
  | [] => none
  | t :: ts =>
    match lastTalkObtained ts with
    | some T => some T
    | none => if t.talk.isSome then some t.now else none

def Event.isPublishTalking : Event → Bool
  | Event.PublishTalking _ => true
  | _ => false

/-- Clock reading of the last tick of a run on which a talking frame was published, if
any, from the ticks and the calls made on each of them. -/
def lastTalkPublished : List Tick → List (List Event) → Option Int
  | t :: ts, ev :: evs =>
    match lastTalkPublished ts evs with
    | some T => some T
    | none => if ev.any Event.isPublishTalking then some t.now else none
  | _, _ => none

/-- Reading of a sequence of calls: whether, after it, the next talking frame published
has to be a keyframe, given whether that was so before it (`b`). A published idle frame
calls for a keyframe, a published talking frame lifts the demand. -/
def needKey : Bool → List Event → Bool
  | b, [] => b
  | _, Event.PublishTalking _ :: es => needKey false es
  | _, Event.PublishIdle _ :: es => needKey true es
  | b, Event.Reset _ :: es => needKey b es

/-- Reading of a sequence of calls: every talking frame published while a keyframe is
called for is a keyframe. -/
def gateOK : Bool → List Event → Bool
  | _, [] => true
  | b, Event.PublishTalking f :: es => (!b || f.IsKey) && gateOK false es
  | _, Event.PublishIdle _ :: es => gateOK true es
  | b, Event.Reset _ :: es => gateOK b es

/-- The gate of the loop is closed: the next talking frame is published only if it is a
keyframe. -/
def VideoLoop.armed {σ : Type} (s : VideoLoop σ) : Prop :=
  s.waitingForKeyframe = true ∨ s.lastState = AvatarState.StateIdle

end usecase

/-! ## `internal/adapter/file/ogg_reader.go` -/

namespace file

/-- `OggLoopReader`, the reader of an Ogg container. `pages` are the page payloads that
`ParseNextPage` delivers behind the header page, in file order; `ogg` is the page cursor
of the field `r.ogg` (`none` is a `nil` reader); `fileOpen` tells that `r.file` has not
been closed. The file is taken to hold a well-formed container that does not change. -/
structure OggLoopReader where
  pages : List (List Byte)
  ogg : Option Nat
  fileOpen : Bool
  deriving DecidableEq, Repr

/-- The library call `r.ogg.ParseNextPage()` with the cursor at `pos`. -/
def ParseNextPage (r : OggLoopReader) (pos : Nat) : Except Err (List Byte × Nat) :=
  if r.fileOpen then
    match r.pages[pos]? with
    | some data => .ok (data, pos + 1)
    | none => .error Err.EOF
  else .error Err.ErrClosed

/-- The frame `NextFrame` builds from a page. -/
def audioFrame (data : List Byte) : MediaFrame :=
  { Typ := protocol.PacketTypeAudio, Data := data, Duration := 20, IsKey := true }

/-- `(*OggLoopReader).NextFrame`. -/
def OggLoopReader.NextFrame (r : OggLoopReader) :
    (Option MediaFrame × Option Err) × OggLoopReader :=
  match r.ogg with
  | none => ((none, some Err.ReaderClosed), r)
  | some pos =>
    match ParseNextPage r pos with
    | .ok (data, pos1) => ((some (audioFrame data), none), { r with ogg := some pos1 })
    | .error err =>
      if err = Err.EOF then
        if r.fileOpen then
          -- `r.file.Seek(0, 0)` and `oggreader.NewWith(r.file)` succeed: a fresh cursor
          let r1 := { r with ogg := some 0 }
          match ParseNextPage r1 0 with
          | .error err1 => ((none, some err1), r1)
          | .ok (data, pos1) => ((some (audioFrame data), none), { r1 with ogg := some pos1 })
        else ((none, some Err.ErrClosed), r)
      else ((none, some err), r)

/-- `(*OggLoopReader).Reset`. -/
def OggLoopReader.Reset (r : OggLoopReader) : Option Err × OggLoopReader :=
  if r.fileOpen then (none, { r with ogg := some 0 }) else (some Err.ErrClosed, r)

/-- `OggLoopReader` as an implementation of `domain.ResettableFrameSource`. -/
def oggLoopReaderSource : ResettableFrameSource OggLoopReader where
  NextFrame := fun r => .ret (OggLoopReader.NextFrame r)
  Reset := fun r => .ret (OggLoopReader.Reset r)

/-- `NewOggLoopReader` on a file that opens and holds a valid container. -/
def NewOggLoopReader (pages : List (List Byte)) : OggLoopReader :=
  { pages := pages, ogg := some 0, fileOpen := true }

end file

/-! ## Go channels -/

/-- A buffered Go channel: the values queued (oldest first), the capacity given to `make`,
and whether `close` has been called on it. -/
structure Chan (α : Type) where
  buf : List α
  cap : Nat
  closed : Bool
  deriving DecidableEq, Repr

/-- The non-blocking send `select { case ch <- x: default: }`: a send on a closed channel
panics; otherwise the value is queued if there is room and dropped if there is none. -/
def Chan.trySend {α : Type} (c : Chan α) (x : α) : Go (Chan α) :=
  if c.closed then .panic
  else if c.buf.length < c.cap then .ret { c with buf := c.buf ++ [x] }
  else .ret c

/-- `close(ch)`: closing a closed channel panics. -/
def Chan.close {α : Type} (c : Chan α) : Go (Chan α) :=
  if c.closed then .panic else .ret { c with closed := true }

/-- What a receive `x, ok := <-ch` finds. -/
inductive Recv (α : Type) where
  /-- a queued value, `ok == true` -/
  | value (x : α)
  /-- the channel is closed and drained: the zero value, `ok == false` -/
  | closed
  /-- the channel is open and empty: the receive is not ready -/
  | empty
  deriving DecidableEq, Repr

/-- One receive attempt and the channel afterwards. -/
def Chan.recv {α : Type} (c : Chan α) : Recv α × Chan α :=
  match c.buf with
  | x :: rest => (.value x, { c with buf := rest })
  | [] => (if c.closed then .closed else .empty, c)

/-! ## `internal/usecase/interactor.go`: the audio loop, and ticks on the talking buffers -/

namespace usecase

def Event.isPublish : Event → Bool
  | Event.PublishTalking _ => true
  | Event.PublishIdle _ => true
  | Event.Reset _ => false

/-- The body of `runVideoLoop` for one firing of the ticker, with the talking-video
buffer: `talkingVideoCh` are the frames queued in the channel (which is never closed),
oldest first. Returns the outcome of `videoTick` and the frames left in the channel. -/
def videoTickCh {σ : Type} (src : ResettableFrameSource σ) (s : VideoLoop σ)
    (talkingVideoCh : List MediaFrame) (now : Int) :
    (List Event × Go (VideoLoop σ)) × List MediaFrame :=
  match talkingVideoCh with
  | talkFrame :: rest => (videoTick src s ⟨some talkFrame, now⟩, rest)
  | [] => (videoTick src s ⟨none, now⟩, [])

/-- The body of `runAudioLoop` for one firing of the ticker. `idleAudioSource` is `none`
for a `nil` source; `talkingAudioCh` are the frames queued in the channel, oldest first.
Returns the arguments of the calls of `Publish` in order (`none` is a `nil` frame), the
idle source afterwards (`panic` if `NextFrame` panicked) and the frames left in the
channel. -/
def audioTick {σ : Type} (src : ResettableFrameSource σ) (idleAudioSource : Option σ)
    (talkingAudioCh : List MediaFrame) :
    (List (Option MediaFrame) × Go (Option σ)) × List MediaFrame :=
  match talkingAudioCh with
  | talkFrame :: rest => (([some talkFrame], .ret idleAudioSource), rest)
  | [] =>
    match idleAudioSource with
    | none => (([], .ret none), [])
    | some idle =>
      match src.NextFrame idle with
      | .panic => (([], .panic), [])
      | .ret ((frame, err), idle1) =>
        match err with
        | none => (([frame], .ret (some idle1)), [])
        | some _ => (([], .ret (some idle1)), [])

end usecase

/-! ## `internal/infrastructure/broadcast.go` -/

namespace infrastructure

/-- `Packet`: type byte and payload. -/
structure Packet where
  Typ : Byte
  Payload : List Byte
  deriving DecidableEq, Repr

/-- A `net.Conn`: an identity, the stream read from the peer and the stream written to it. -/
structure Conn where
  id : Nat
  rd : Reader
  wr : Writer
  deriving DecidableEq, Repr

/-- `UDSBroadcaster`. Channels are heap objects shared with the subscribers: `chans` holds
every channel created so far, a channel is named by its index there, and `listeners` are
the keys of the map of that name. An index outside `chans` stands for a `nil` channel. -/
structure UDSBroadcaster where
  chans : List (Chan Packet)
  listeners : List Nat
  activeConn : Option Conn
  deriving DecidableEq, Repr

/-- `NewUDSBroadcaster`. -/
def NewUDSBroadcaster : UDSBroadcaster :=
  { chans := [], listeners := [], activeConn := none }

/-- The fan-out loop of `Start` over the keys `ids` of the map, for one packet: a
non-blocking send on each channel. A send on a `nil` channel is never ready. -/
def fanOutLoop (pkt : Packet) : List Nat → List (Chan Packet) → Go (List (Chan Packet))
  | [], chans => .ret chans
  | id :: ids, chans =>
    match chans[id]? with
    | none => fanOutLoop pkt ids chans
    | some ch =>
      match ch.trySend pkt with
      | .panic => .panic
      | .ret ch1 => fanOutLoop pkt ids (chans.set id ch1)

/-- The fan-out step of `Start` for one packet read from the connection. -/
def fanOut (b : UDSBroadcaster) (pkt : Packet) : Go UDSBroadcaster :=
  match fanOutLoop pkt b.listeners b.chans with
  | .panic => .panic
  | .ret chans1 => .ret { b with chans := chans1 }

/-- `SendToWorker`: the returned error and the broadcaster afterwards. -/
def SendToWorker (b : UDSBroadcaster) (pktType : Byte) (payload : List Byte) :
    Option Err × UDSBroadcaster :=
  match b.activeConn with
  | none => (some Err.ErrClosedPipe, b)
  | some conn =>
    let res := protocol.WritePacket conn.wr pktType payload
    (res.1, { b with activeConn := some { conn with wr := res.2 } })

/-- `Subscribe`: the channel returned and the broadcaster afterwards. -/
def Subscribe (b : UDSBroadcaster) : Nat × UDSBroadcaster :=
  let ch := b.chans.length
  (ch, { b with chans := b.chans ++ [{ buf := [], cap := 100, closed := false }],
                listeners := b.listeners.insert ch })

/-- `Unsubscribe(ch)`: `delete` on the map, then `close(ch)`, which panics on a `nil` and
on a closed channel. -/
def Unsubscribe (b : UDSBroadcaster) (ch : Nat) : Go UDSBroadcaster :=
  let listeners1 := b.listeners.erase ch
  match b.chans[ch]? with
  | none => .panic
  | some c =>
    match c.close with
    | .panic => .panic
    | .ret c1 => .ret { b with listeners := listeners1, chans := b.chans.set ch c1 }

/-- The operations on a broadcaster that touch its subscriber set and queues. -/
inductive Op where
  | subscribe
  | unsubscribe (ch : Nat)
  | fanOut (pkt : Packet)
  deriving DecidableEq, Repr

def step (b : UDSBroadcaster) : Op → Go UDSBroadcaster
  | Op.subscribe => .ret (Subscribe b).2
  | Op.unsubscribe ch => Unsubscribe b ch
  | Op.fanOut pkt => fanOut b pkt

/-- A sequence of operations, one after the other; a panic ends it. -/
def runOps (b : UDSBroadcaster) : List Op → Go UDSBroadcaster
  | [] => .ret b
  | op :: ops =>
    match step b op with
    | .panic => .panic
    | .ret b1 => runOps b1 ops

/-- Every `Unsubscribe` of the sequence is called with a channel that is registered at
that moment. -/
def opsRegistered (b : UDSBroadcaster) : List Op → Bool
  | [] => true
  | op :: ops =>
    (match op with
      | Op.unsubscribe ch => decide (ch ∈ b.listeners)
      | _ => true) &&
    (match step b op with
      | .panic => true
      | .ret b1 => opsRegistered b1 ops)

/-- State invariant of the broadcaster: the registered channels are distinct, exist, are
open, have capacity 100 and hold no more than that. -/
def UDSBroadcaster.WF (b : UDSBroadcaster) : Prop :=
  b.listeners.Nodup ∧
  ∀ ch ∈ b.listeners, ∃ c, b.chans[ch]? = some c ∧ c.closed = false ∧ c.cap = 100 ∧
    c.buf.length ≤ 100

end infrastructure

/-! ## `internal/adapter/uds/channel.go` -/

namespace uds

open infrastructure

/-- `ChannelSource`, with the channel it reads as the source sees it. -/
structure ChannelSource where
  ch : Chan Packet
  waitingForKeyframe : Bool
  deriving DecidableEq, Repr

/-- `NewChannelSource`. -/
def NewChannelSource (ch : Chan Packet) : ChannelSource :=
  { ch := ch, waitingForKeyframe := true }

/-- `processPacket`: frame, `hasData` and error. -/
def processPacket (pkt : Packet) : Option MediaFrame × Bool × Option Err :=
  let duration : Int := if pkt.Typ = protocol.PacketTypeAudio then 20 else 40
  let isKey : Bool :=
    if pkt.Typ = protocol.PacketTypeAudio then true
    else if pkt.Typ = protocol.PacketTypeVideo ∧ pkt.Payload.length > 0 then
      decide ((pkt.Payload.headD 0).val &&& 0x01 = 0)
    else false
  (some { Data := pkt.Payload, Duration := duration, IsKey := isKey, Typ := pkt.Typ },
    true, none)

/-- `(*ChannelSource).TryNextFrame`: a non-blocking receive. -/
def ChannelSource.TryNextFrame (s : ChannelSource) :
    (Option MediaFrame × Bool × Option Err) × ChannelSource :=
  match s.ch.recv with
  | (Recv.value pkt, ch1) => (processPacket pkt, { s with ch := ch1 })
  | (Recv.closed, ch1) => ((none, false, none), { s with ch := ch1 })
  | (Recv.empty, ch1) => ((none, false, none), { s with ch := ch1 })

/-- The loop of `NextFrame` over the packets queued in the channel: `none` when the
receive blocks on an open, empty channel. -/
def nextFrameLoop (closed : Bool) :
    List Packet → Option ((Option MediaFrame × Option Err) × List Packet)
  | [] => if closed then some ((none, none), []) else none
  | pkt :: rest =>
    match processPacket pkt with
    | (_, _, some err) => some ((none, some err), rest)
    | (frame, true, none) => some ((frame, none), rest)
    | (_, false, none) => nextFrameLoop closed rest

/-- `(*ChannelSource).NextFrame`: `none` when the call blocks. -/
def ChannelSource.NextFrame (s : ChannelSource) :
    Option ((Option MediaFrame × Option Err) × ChannelSource) :=
  match nextFrameLoop s.ch.closed s.ch.buf with
  | none => none
  | some (res, rest) => some (res, { s with ch := { s.ch with buf := rest } })

/-- The results of `n` calls of `TryNextFrame` in a row. -/
def tryNextFrames : Nat → ChannelSource → List (Option MediaFrame × Bool × Option Err)
  | 0, _ => []
  | n + 1, s => (s.TryNextFrame).1 :: tryNextFrames n (s.TryNextFrame).2

/-- The results of `n` calls of `NextFrame` in a row; `none` if one of them blocks. -/
def nextFrames : Nat → ChannelSource → Option (List (Option MediaFrame × Option Err))
  | 0, _ => some []
  | n + 1, s =>
    match s.NextFrame with
    | none => none
    | some (res, s1) =>
      match nextFrames n s1 with
      | none => none
      | some rs => some (res :: rs)

end uds

/-! ## `cmd/doubao_worker/worker.go`: `generateAndStream` from the buffering phase on -/

namespace worker

/-- Phase 1, the buffering loop: `stream` are the frames the job still delivers and `fin`
the error `ParseNextFrame` returns behind them. Every frame is appended to `videoBuffer`;
the loop is left at the first error, whether it is `io.EOF` ("Buffering Complete") or
not ("Video stream interrupted"). Returns the buffer and whether the stream was
interrupted. -/
def bufferLoop (fin : Err) : List (List Byte) → List (List Byte) → List (List Byte) × Bool
  | [], videoBuffer => if fin = Err.EOF then (videoBuffer, false) else (videoBuffer, true)
  | payload :: stream, videoBuffer => bufferLoop fin stream (videoBuffer ++ [payload])

/-- The scan for the first keyframe, at index `i` of the buffer: `startIndex`, which stays
`-1` when no frame is a keyframe. `frame[0]` panics on an empty frame. -/
def findKeyframe : List (List Byte) → Nat → Go Int
  | [], _ => .ret (-1)
  | frame :: rest, i =>
    match frame with
    | [] => .panic
    | b :: _ => if b.val &&& 0x01 = 0 then .ret (i : Int) else findKeyframe rest (i + 1)

/-- Keyframe alignment: the start index used (0 when no keyframe was found), which is
the number of leading frames dropped, and the playback buffer `videoBuffer[startIndex:]`. -/
def alignKeyframe (videoBuffer : List (List Byte)) : Go (Nat × List (List Byte)) :=
  match findKeyframe videoBuffer 0 with
  | .panic => .panic
  | .ret startIndex =>
    let startIndex1 : Int := if startIndex = -1 then 0 else startIndex
    .ret (startIndex1.toNat, videoBuffer.drop startIndex1.toNat)

/-- The variables of the playback loop: `pages` are the pages the Ogg reader still
delivers (behind them `ParseNextPage` returns an error), `sent` are the calls of
`writePacket` made so far, as type and payload. -/
structure Playback where
  pages : List (List Byte)
  audioDone : Bool
  videoIdx : Nat
  tickCount : Nat
  sent : List (Byte × List Byte)
  deriving DecidableEq, Repr

/-- One pass through the body of the playback loop behind the exit test: one tick. -/
def playbackTick (videoBuffer : List (List Byte)) (p : Playback) : Playback :=
  let p1 : Playback :=
    if !p.audioDone then
      match p.pages with
      | [] => { p with audioDone := true }
      | page :: rest =>
        { p with pages := rest, sent := p.sent ++ [(protocol.PacketTypeAudio, page)] }
    else p
  let p2 : Playback :=
    if p1.tickCount % 2 = 0 then
      match videoBuffer[p1.videoIdx]? with
      | some frame =>
        { p1 with sent := p1.sent ++ [(protocol.PacketTypeVideo, frame)],
                  videoIdx := p1.videoIdx + 1 }
      | none => p1
    else p1
  { p2 with tickCount := p2.tickCount + 1 }

/-- Phase 2, the playback loop, run for at most `fuel` passes: the variables when the
loop is left, `none` if it is not left within `fuel` passes. -/
def playbackLoop (videoBuffer : List (List Byte)) : Nat → Playback → Option Playback
  | 0, _ => none
  | fuel + 1, p =>
    if p.audioDone && decide (p.videoIdx ≥ videoBuffer.length) then some p
    else playbackLoop videoBuffer fuel (playbackTick videoBuffer p)

/-- A bound on the number of ticks the playback loop still makes, for a playback buffer of
`V` frames: the ticks the audio still needs plus the ticks the video still needs. -/
def ticksLeft (V : Nat) (p : Playback) : Nat :=
  (if p.audioDone then 0 else p.pages.length + 1) +
  (if V ≤ p.videoIdx then 0 else 2 * (V - p.videoIdx) - 1 + p.tickCount % 2)

/-- `generateAndStream` from the point where the job has connected and both readers are
set up: `video` and `vfin` are the frames the job streams and the error behind them,
`audio` the pages of the audio file. Returns the error of the function and the packets
handed to `writePacket`, `panic` if the keyframe scan panics, `none` if the playback loop
does not end within `fuel` passes. -/
def generateAndStream (fuel : Nat) (video : List (List Byte)) (vfin : Err)
    (audio : List (List Byte)) : Option (Go (Option Err × List (Byte × List Byte))) :=
  let videoBuffer := (bufferLoop vfin video []).1
  if videoBuffer.length = 0 then some (.ret (some Err.NoVideoFrames, []))
  else
    match alignKeyframe videoBuffer with
    | .panic => some .panic
    | .ret (_, videoBuffer1) =>
      match playbackLoop videoBuffer1 fuel
          { pages := audio, audioDone := false, videoIdx := 0, tickCount := 0, sent := [] } with
      | none => none
      | some p => some (.ret (none, p.sent))

end worker

/-! ## The playback schedule of `generateAndStream` -/

namespace worker

/-- The variables of the playback loop at its entry, for the audio pages `audio`. -/
def playbackStart (audio : List (List Byte)) : Playback :=
  { pages := audio, audioDone := false, videoIdx := 0, tickCount := 0, sent := [] }

/-- The schedule in the words of the specification: the packets of tick `t` (counted from
0) are audio page `t`, if there is one, followed on an even tick by video frame `t / 2`,
if there is one. -/
def tickPackets (audio videoBuffer : List (List Byte)) (t : Nat) : List (Byte × List Byte) :=
  (match audio[t]? with
    | some page => [(protocol.PacketTypeAudio, page)]
    | none => []) ++
  (if t % 2 = 0 then
    match videoBuffer[t / 2]? with
    | some frame => [(protocol.PacketTypeVideo, frame)]
    | none => []
  else [])

end worker

/-! ## `TryNextFrame` and `Close` of the file sources and of the queue-backed source -/

namespace file

/-- `(*LoopReader).TryNextFrame`: frame, `hasData` and error. -/
def LoopReader.TryNextFrame (r : LoopReader) :
    Go ((Option MediaFrame × Bool × Option Err) × LoopReader) :=
  match r.NextFrame with
  | .panic => .panic
  | .ret ((frame, err), r1) => .ret ((frame, true, err), r1)

/-- `(*LoopReader).Close`. The guard `r.file != nil` always holds: the constructors set
`r.file` and nothing, `Close` included, sets it to `nil`. So every call closes the file,
and the library call `(*os.File).Close` fails on a file that is closed already. -/
def LoopReader.Close (r : LoopReader) : Option Err × LoopReader :=
  if r.fileOpen then (none, { r with fileOpen := false }) else (some Err.ErrClosed, r)

/-- `(*OggLoopReader).TryNextFrame`. -/
def OggLoopReader.TryNextFrame (r : OggLoopReader) :
    (Option MediaFrame × Bool × Option Err) × OggLoopReader :=
  match r.NextFrame with
  | ((_, some err), r1) => ((none, false, some err), r1)
  | ((frame, none), r1) => ((frame, true, none), r1)

/-- `(*OggLoopReader).Close`: as for the video reader, the guard `r.file != nil` always
holds and every call closes the file. -/
def OggLoopReader.Close (r : OggLoopReader) : Option Err × OggLoopReader :=
  if r.fileOpen then (none, { r with fileOpen := false }) else (some Err.ErrClosed, r)

/-- The results of `n` calls of `NextFrame` on a video reader, in a row. -/
def LoopReader.nextFrames : Nat → LoopReader → Go (List (Option MediaFrame × Option Err))
  | 0, _ => .ret []
  | n + 1, r =>
    match r.NextFrame with
    | .panic => .panic
    | .ret (res, r1) =>
      match LoopReader.nextFrames n r1 with
      | .panic => .panic
      | .ret rs => .ret (res :: rs)

/-- The results of `n` calls of `NextFrame` on an audio reader, in a row. -/
def OggLoopReader.nextFrames : Nat → OggLoopReader → List (Option MediaFrame × Option Err)
  | 0, _ => []
  | n + 1, r => (r.NextFrame).1 :: OggLoopReader.nextFrames n (r.NextFrame).2

/-- `n` calls of `Reset` on a video reader, in a row: the errors and the reader after them. -/
def LoopReader.resets : Nat → LoopReader → List (Option Err) × LoopReader
  | 0, r => ([], r)
  | n + 1, r =>
    let out := LoopReader.resets n (r.Reset).2
    ((r.Reset).1 :: out.1, out.2)

/-- `n` calls of `Reset` on an audio reader, in a row. -/
def OggLoopReader.resets : Nat → OggLoopReader → List (Option Err) × OggLoopReader
  | 0, r => ([], r)
  | n + 1, r =>
    let out := OggLoopReader.resets n (r.Reset).2
    ((r.Reset).1 :: out.1, out.2)

end file

namespace uds

/-- `(*ChannelSource).Close`: nothing is released. -/
def ChannelSource.Close (s : ChannelSource) : Option Err × ChannelSource := (none, s)

end uds

/-! ## `internal/usecase/interactor.go`: the router -/

namespace usecase

/-- Capacity of `talkingVideoCh` and of `talkingAudioCh`, given in `NewLiveInteractor`. -/
def talkingChCap : Nat := 1000

/-- What a blocking `select` of the router finds at one moment of its wait: the two talking
buffers as their consumers have left them, whether the stop channel is closed, and which
case the `select` takes when both are ready (Go picks one at random). -/
structure Moment where
  talkingVideoCh : List MediaFrame
  talkingAudioCh : List MediaFrame
  stopClosed : Bool
  pickStop : Bool
  deriving DecidableEq, Repr

/-- How one pass of the loop of `routeTalkingData` ends. -/
inductive RouteOutcome where
  /-- the stop case of a `select` ran and the router returned; `inHand` is the frame it had
  obtained and not sent, if it had one -/
  | returned (inHand : Option MediaFrame)
  /-- no source is attached, or it gave nothing: the router sleeps and tries again -/
  | sleep
  /-- the send case ran: the two buffers right after it -/
  | sent (talkingVideoCh talkingAudioCh : List MediaFrame)
  /-- the frame is neither Video nor Audio: it is sent nowhere -/
  | ignored (frame : MediaFrame)
  /-- the `select` is still waiting, with the frame in hand, when the moments are used up -/
  | blocked (frame : MediaFrame)
  deriving DecidableEq, Repr

/-- The statement `select { case l.talkingVideoCh <- frame: case <-l.stopChan: return }`
over the moments of its wait: the send is ready when the buffer has room, the stop case
when the stop channel is closed. -/
def sendVideo (frame : MediaFrame) : List Moment → RouteOutcome
  | [] => .blocked frame
  | m :: later =>
    if m.talkingVideoCh.length < talkingChCap then
      if m.stopClosed && m.pickStop then .returned (some frame)
      else .sent (m.talkingVideoCh ++ [frame]) m.talkingAudioCh
    else if m.stopClosed then .returned (some frame)
    else sendVideo frame later

/-- The statement `select { case l.talkingAudioCh <- frame: case <-l.stopChan: return }`
over the moments of its wait. -/
def sendAudio (frame : MediaFrame) : List Moment → RouteOutcome
  | [] => .blocked frame
  | m :: later =>
    if m.talkingAudioCh.length < talkingChCap then
      if m.stopClosed && m.pickStop then .returned (some frame)
      else .sent m.talkingVideoCh (m.talkingAudioCh ++ [frame])
    else if m.stopClosed then .returned (some frame)
    else sendAudio frame later

/-- One pass of the loop of `routeTalkingData`. `stopped` tells whether the stop channel is
closed when the pass begins; `talkingSource` is `none` for a `nil` source and otherwise
what its `TryNextFrame` returns on this pass; `wait` are the moments the blocking `select`
of this pass goes through. -/
def routeStep (stopped : Bool)
    (talkingSource : Option (Option MediaFrame × Bool × Option Err))
    (wait : List Moment) : RouteOutcome :=
  if stopped then .returned none
  else
    match talkingSource with
    | none => .sleep
    | some (_, _, some _) => .sleep
    | some (_, false, none) => .sleep
    | some (none, true, none) => .sleep
    | some (some frame, true, none) =>
      if frame.Typ = protocol.PacketTypeVideo then sendVideo frame wait
      else if frame.Typ = protocol.PacketTypeAudio then sendAudio frame wait
      else .ignored frame

end usecase

/-! ## `internal/infrastructure/broadcast.go`: one subscriber, and the read loop of `Start` -/

namespace infrastructure

/-- What happens to the queue of one subscriber: a packet is fanned out by the
broadcaster, or the subscriber makes a non-blocking receive (that of `TryNextFrame`). -/
inductive SubOp where
  | fanOut (pkt : Packet)
  | dequeue
  deriving DecidableEq, Repr

/-- The non-blocking receive of a subscriber on its channel `ch`: the packet received, if
one was queued, and the heap afterwards. -/
def dequeue (b : UDSBroadcaster) (ch : Nat) : Option Packet × UDSBroadcaster :=
  match b.chans[ch]? with
  | none => (none, b)
  | some c =>
    match c.recv with
    | (Recv.value pkt, c1) => (some pkt, { b with chans := b.chans.set ch c1 })
    | (Recv.closed, _) => (none, b)
    | (Recv.empty, _) => (none, b)

/-- Fan-outs of the broadcaster interleaved with the receives of the subscriber on `ch`:
the packets the subscriber received, in order, and the broadcaster afterwards. -/
def subscriberRun (ch : Nat) : UDSBroadcaster → List SubOp → Go (List Packet × UDSBroadcaster)
  | b, [] => .ret ([], b)
  | b, SubOp.fanOut pkt :: ops =>
    match fanOut b pkt with
    | .panic => .panic
    | .ret b1 => subscriberRun ch b1 ops
  | b, SubOp.dequeue :: ops =>
    match subscriberRun ch (dequeue b ch).2 ops with
    | .panic => .panic
    | .ret (got, b2) => .ret ((dequeue b ch).1.toList ++ got, b2)

/-- The packets fanned out in a sequence of operations, in order. -/
def fannedOut : List SubOp → List Packet
  | [] => []
  | SubOp.fanOut pkt :: ops => pkt :: fannedOut ops
  | SubOp.dequeue :: ops => fannedOut ops

/-- The bytes `WritePacket` writes for a packet, and for a sequence of packets. -/
def encodePacket (pkt : Packet) : List Byte :=
  (protocol.WritePacket ⟨[], []⟩ pkt.Typ pkt.Payload).2.out

def encodePackets (pkts : List Packet) : List Byte :=
  pkts.flatMap encodePacket

/-- How the broadcast loop of `Start` is left: the broadcaster, the read stream of the
connection, the error that ended the loop, the packets fanned out, in order, and whether
"Broadcaster Read Error" was logged. -/
structure LoopEnd where
  b : UDSBroadcaster
  rd : Reader
  err : Err
  fanned : List Packet
  logged : Bool
  deriving DecidableEq, Repr

/-- The broadcast loop of `Start` on the read stream `rd`, for at most `fuel` reads: `none`
if the loop is not left within `fuel` reads. -/
def broadcastLoop : Nat → Reader → UDSBroadcaster → Option (Go LoopEnd)
  | 0, _, _ => none
  | fuel + 1, rd, b =>
    match protocol.ReadPacket rd with
    | ((_, _, some err), rd1) =>
      some (.ret { b := b, rd := rd1, err := err, fanned := [],
                   logged := decide (err ≠ Err.EOF) })
    | ((pktType, payload, none), rd1) =>
      let pkt : Packet := { Typ := pktType, Payload := payload.getD [] }
      match fanOut b pkt with
      | .panic => some .panic
      | .ret b1 =>
        match broadcastLoop fuel rd1 b1 with
        | none => none
        | some .panic => some .panic
        | some (.ret e) => some (.ret { e with fanned := pkt :: e.fanned })

/-- How a session of `Start` ends: the broadcaster, the packets fanned out, the error that
ended the reading, the identity of the connection that was closed, and its read stream. -/
structure SessionEnd where
  b : UDSBroadcaster
  fanned : List Packet
  err : Err
  closedConn : Nat
  rd : Reader
  deriving DecidableEq, Repr

/-- One pass of the outer loop of `Start` from the point where `Accept` has returned
`conn`: the connection becomes the active one, the broadcast loop runs, the active
connection is cleared if it is still `conn`, and `conn` is closed. -/
def session (fuel : Nat) (b : UDSBroadcaster) (conn : Conn) : Option (Go SessionEnd) :=
  match broadcastLoop fuel conn.rd { b with activeConn := some conn } with
  | none => none
  | some .panic => some .panic
  | some (.ret e) =>
    let b2 : UDSBroadcaster :=
      if e.b.activeConn.map (fun c => c.id) = some conn.id then
        { e.b with activeConn := none }
      else e.b
    some (.ret { b := b2, fanned := e.fanned, err := e.err, closedConn := conn.id,
                 rd := e.rd })

end infrastructure

/-! ## Lemmas on the byte order helpers and on `ReadFull` -/

theorem Uint32_PutUint32 (n : Nat) (h : n < 4294967296) : Uint32 (PutUint32 n) = n := by
  simp only [Uint32, PutUint32, byte, List.getD_cons_zero, List.getD_cons_succ]
  omega

theorem PutUint32_length (n : Nat) : (PutUint32 n).length = 4 := rfl

theorem ReadFull_append (xs rest : List Byte) (fin : Err) :
    ReadFull ⟨xs ++ rest, fin⟩ xs.length = (.ok xs, ⟨rest, fin⟩) := by
  simp [ReadFull]

/-- Reading the five header bytes off a stream that has them. -/
theorem ReadFull_header (t b1 b2 b3 b4 : Byte) (rest : List Byte) (fin : Err) :
    ReadFull ⟨t :: b1 :: b2 :: b3 :: b4 :: rest, fin⟩ 5
      = (.ok [t, b1, b2, b3, b4], ⟨rest, fin⟩) := by
  simp [ReadFull]

theorem ReadFull_short (r : Reader) (n : Nat) (h : r.buf.length < n) :
    ∃ e r1, ReadFull r n = (.error e, r1) := by
  unfold ReadFull
  rw [if_neg (by omega)]
  split <;> exact ⟨_, _, rfl⟩

/-! ## Packet transport: `WritePacket` and `ReadPacket` -/

section Packet

open protocol

/-- What `WritePacket` appends to a writer that does not fail. -/
theorem WritePacket_ok (out0 : List Byte) (t : Byte) (p : List Byte) :
    WritePacket ⟨out0, []⟩ t p
      = (none, ⟨out0 ++ t :: PutUint32 (p.length % 4294967296) ++ p, []⟩) := by
  simp [WritePacket, Writer.Write, List.append_assoc]

/-- `ReadPacket` on a stream that starts with a full header. -/
theorem ReadPacket_header (t b1 b2 b3 b4 : Byte) (rest : List Byte) (fin : Err) :
    ReadPacket ⟨t :: b1 :: b2 :: b3 :: b4 :: rest, fin⟩ =
      (if Uint32 [b1, b2, b3, b4] = 0 then
        ((t, none, some Err.EOF), ⟨rest, fin⟩)
      else if Uint32 [b1, b2, b3, b4] > 10000000 then
        ((0, none, some (Err.PacketTooLarge (Uint32 [b1, b2, b3, b4]))), ⟨rest, fin⟩)
      else
        match ReadFull ⟨rest, fin⟩ (Uint32 [b1, b2, b3, b4]) with
        | (.error err, r2) => ((0, none, some err), r2)
        | (.ok data, r2) => ((t, some data, none), r2)) := by
  simp only [ReadPacket, ReadFull_header, List.getD_cons_zero, List.drop_succ_cons, List.drop_zero]

/-- `ReadPacket` on the encoding of `(t, p)` followed by `rest`, in terms of the length
the header declares. -/
theorem ReadPacket_encoded (t : Byte) (n : Nat) (hn : n < 4294967296) (tail : List Byte)
    (fin : Err) :
    ReadPacket ⟨t :: PutUint32 n ++ tail, fin⟩ =
      (if n = 0 then ((t, none, some Err.EOF), ⟨tail, fin⟩)
      else if n > 10000000 then ((0, none, some (Err.PacketTooLarge n)), ⟨tail, fin⟩)
      else
        match ReadFull ⟨tail, fin⟩ n with
        | (.error err, r2) => ((0, none, some err), r2)
        | (.ok data, r2) => ((t, some data, none), r2)) := by
  have h := ReadPacket_header t (byte (n / 16777216)) (byte (n / 65536)) (byte (n / 256))
    (byte n) tail fin
  have hu : Uint32 [byte (n / 16777216), byte (n / 65536), byte (n / 256), byte n] = n :=
    Uint32_PutUint32 n hn
  rw [hu] at h
  simpa [PutUint32] using h

/-- C1. Round trip: for every type byte `t` and every payload `p` with
`1 ≤ len(p) ≤ 10,000,000`, `WritePacket(t, p)` succeeds and writes `5 + len(p)` bytes, and
`ReadPacket` on a stream that delivers these bytes (whatever follows them) returns type
`t`, payload `p` and no error, leaving exactly what follows them unread. -/
theorem ReadPacket_WritePacket_roundtrip (t : Byte) (p rest : List Byte) (fin : Err)
    (h1 : 1 ≤ p.length) (h2 : p.length ≤ 10000000) :
    (WritePacket ⟨[], []⟩ t p).1 = none ∧
    (WritePacket ⟨[], []⟩ t p).2.out.length = 5 + p.length ∧
    ReadPacket ⟨(WritePacket ⟨[], []⟩ t p).2.out ++ rest, fin⟩
      = ((t, some p, none), ⟨rest, fin⟩) := by
  rw [WritePacket_ok]
  have hmod : p.length % 4294967296 = p.length := Nat.mod_eq_of_lt (by omega)
  refine ⟨rfl, ?_, ?_⟩
  · simp [PutUint32_length]; omega
  · simp only [List.nil_append, hmod, List.append_assoc, List.cons_append]
    rw [← List.cons_append, ReadPacket_encoded t p.length (by omega) (p ++ rest) fin]
    rw [if_neg (by omega), if_neg (by omega), ReadFull_append]

theorem ReadPacket_WritePacket_roundtrip_witness :
    (WritePacket ⟨[], []⟩ 1 [7, 8]).1 = none ∧
    (WritePacket ⟨[], []⟩ 1 [7, 8]).2.out.length = 5 + ([7, 8] : List Byte).length ∧
    ReadPacket ⟨(WritePacket ⟨[], []⟩ 1 [7, 8]).2.out ++ [9], Err.EOF⟩
      = ((1, some [7, 8], none), ⟨[9], Err.EOF⟩) :=
  ReadPacket_WritePacket_roundtrip 1 [7, 8] [9] Err.EOF (by decide) (by decide)

/-- C2. Wire format: for every type byte `t` and payload `p` with `len(p) < 2^32`,
`WritePacket(t, p)` on a writer that never fails returns no error and appends exactly
`5 + len(p)` bytes: first `t`, then four bytes `b1 b2 b3 b4` whose big-endian value
`b1·2^24 + b2·2^16 + b3·2^8 + b4` is `len(p)`, then `p` unchanged. -/
theorem WritePacket_wire_format (out0 : List Byte) (t : Byte) (p : List Byte)
    (h : p.length < 4294967296) :
    ∃ b1 b2 b3 b4 : Byte,
      WritePacket ⟨out0, []⟩ t p = (none, ⟨out0 ++ (t :: b1 :: b2 :: b3 :: b4 :: p), []⟩) ∧
      b1.val * 2 ^ 24 + b2.val * 2 ^ 16 + b3.val * 2 ^ 8 + b4.val = p.length ∧
      (t :: b1 :: b2 :: b3 :: b4 :: p).length = 5 + p.length := by
  refine ⟨byte (p.length / 16777216), byte (p.length / 65536), byte (p.length / 256),
    byte p.length, ?_, ?_, ?_⟩
  · rw [WritePacket_ok, Nat.mod_eq_of_lt h]
    simp [PutUint32]
  · simp only [byte]
    norm_num
    omega
  · simp only [List.length_cons]
    omega

theorem WritePacket_wire_format_witness :
    ∃ b1 b2 b3 b4 : Byte,
      WritePacket ⟨[], []⟩ 2 [5, 6, 7]
        = (none, ⟨[] ++ (2 :: b1 :: b2 :: b3 :: b4 :: [5, 6, 7]), []⟩) ∧
      b1.val * 2 ^ 24 + b2.val * 2 ^ 16 + b3.val * 2 ^ 8 + b4.val
        = ([5, 6, 7] : List Byte).length ∧
      (2 :: b1 :: b2 :: b3 :: b4 :: ([5, 6, 7] : List Byte)).length
        = 5 + ([5, 6, 7] : List Byte).length :=
  WritePacket_wire_format [] 2 [5, 6, 7] (by decide)

/-- A payload is returned only together with no error, and it is then the whole declared
payload: the stream held a header declaring its length (between 1 and the ceiling)
followed by all of its bytes. -/
theorem ReadPacket_payload (r : Reader) (data : List Byte)
    (h : (ReadPacket r).1.2.1 = some data) :
    ∃ t b1 b2 b3 b4 rest,
      r.buf = t :: b1 :: b2 :: b3 :: b4 :: (data ++ rest) ∧
      Uint32 [b1, b2, b3, b4] = data.length ∧ 1 ≤ data.length ∧ data.length ≤ 10000000 ∧
      ReadPacket r = ((t, some data, none), ⟨rest, r.fin⟩) := by
  obtain ⟨buf, fin⟩ := r
  match buf, h with
  | [], h => simp [ReadPacket, ReadFull] at h
  | [_], h => simp [ReadPacket, ReadFull] at h
  | [_, _], h => simp [ReadPacket, ReadFull] at h
  | [_, _, _], h => simp [ReadPacket, ReadFull] at h
  | [_, _, _, _], h => simp [ReadPacket, ReadFull] at h
  | t :: b1 :: b2 :: b3 :: b4 :: tail, h =>
    rw [ReadPacket_header] at h ⊢
    by_cases h0 : Uint32 [b1, b2, b3, b4] = 0
    · simp [h0] at h
    · by_cases hbig : Uint32 [b1, b2, b3, b4] > 10000000
      · simp [h0, hbig] at h
      · rw [if_neg h0, if_neg hbig] at h ⊢
        by_cases hlen : Uint32 [b1, b2, b3, b4] ≤ tail.length
        · have hrf : ReadFull ⟨tail, fin⟩ (Uint32 [b1, b2, b3, b4])
              = (.ok (tail.take (Uint32 [b1, b2, b3, b4])),
                  ⟨tail.drop (Uint32 [b1, b2, b3, b4]), fin⟩) := by
            simp [ReadFull, hlen]
          rw [hrf] at h ⊢
          simp only [Option.some.injEq] at h
          have hl : data.length = Uint32 [b1, b2, b3, b4] := by
            rw [← h, List.length_take]; omega
          refine ⟨t, b1, b2, b3, b4, tail.drop (Uint32 [b1, b2, b3, b4]), ?_, hl.symm,
            by omega, by omega, ?_⟩
          · rw [← h, List.take_append_drop]
          · rw [h]
        · obtain ⟨e, r1, hrf⟩ := ReadFull_short ⟨tail, fin⟩ (Uint32 [b1, b2, b3, b4])
            (by simpa using hlen)
          rw [hrf] at h
          simp at h

/-- C3. Oversize rejection: on every stream whose header declares a length above the
ceiling 10,000,000, `ReadPacket` fails with the error "packet too large", which is not
`io.EOF`, returns no payload and leaves everything behind the five header bytes unread.
Consequently a payload `p` longer than the ceiling that `WritePacket` wrote is not read
back: the payload `ReadPacket` returns is not `p`, and unless `len(p)` overflows 32 bits
the result is the "packet too large" error with all of `p` left unread. -/
theorem ReadPacket_oversize (t b1 b2 b3 b4 : Byte) (rest : List Byte) (fin : Err)
    (h : 10000000 < Uint32 [b1, b2, b3, b4]) (p : List Byte) (hp : 10000000 < p.length) :
    ReadPacket ⟨t :: b1 :: b2 :: b3 :: b4 :: rest, fin⟩
      = ((0, none, some (Err.PacketTooLarge (Uint32 [b1, b2, b3, b4]))), ⟨rest, fin⟩) ∧
    Err.PacketTooLarge (Uint32 [b1, b2, b3, b4]) ≠ Err.EOF ∧
    (ReadPacket ⟨(WritePacket ⟨[], []⟩ t p).2.out ++ rest, fin⟩).1.2.1 ≠ some p ∧
    (ReadPacket ⟨(WritePacket ⟨[], []⟩ t p).2.out ++ rest, fin⟩
        = ((0, none, some (Err.PacketTooLarge p.length)), ⟨p ++ rest, fin⟩)
      ∨ 4294967296 ≤ p.length) := by
  have hw : (WritePacket ⟨[], []⟩ t p).2.out ++ rest
      = t :: PutUint32 (p.length % 4294967296) ++ (p ++ rest) := by
    rw [WritePacket_ok]; simp
  have hlt : p.length % 4294967296 < 4294967296 := Nat.mod_lt _ (by decide)
  refine ⟨?_, by simp, ?_, ?_⟩
  · rw [ReadPacket_header, if_neg (by omega), if_pos h]
  · intro hsome
    obtain ⟨t1, c1, c2, c3, c4, rest1, -, -, -, hmax, -⟩ := ReadPacket_payload _ p hsome
    omega
  · by_cases hov : 4294967296 ≤ p.length
    · exact Or.inr hov
    · left
      rw [hw, ReadPacket_encoded t _ hlt, Nat.mod_eq_of_lt (by omega), if_neg (by omega),
        if_pos hp]

theorem ReadPacket_oversize_witness :
    ReadPacket ⟨1 :: 0 :: 255 :: 0 :: 3 :: [4, 5], Err.EOF⟩
      = ((0, none, some (Err.PacketTooLarge (Uint32 [0, 255, 0, 3]))), ⟨[4, 5], Err.EOF⟩) ∧
    Err.PacketTooLarge (Uint32 [0, 255, 0, 3]) ≠ Err.EOF ∧
    (ReadPacket ⟨(WritePacket ⟨[], []⟩ 1 (List.replicate 10000001 0)).2.out ++ [4, 5],
        Err.EOF⟩).1.2.1 ≠ some (List.replicate 10000001 0) ∧
    (ReadPacket ⟨(WritePacket ⟨[], []⟩ 1 (List.replicate 10000001 0)).2.out ++ [4, 5], Err.EOF⟩
        = ((0, none, some (Err.PacketTooLarge (List.replicate 10000001 (0 : Byte)).length)),
            ⟨List.replicate 10000001 0 ++ [4, 5], Err.EOF⟩)
      ∨ 4294967296 ≤ (List.replicate 10000001 (0 : Byte)).length) :=
  ReadPacket_oversize 1 0 255 0 3 [4, 5] Err.EOF (by decide) (List.replicate 10000001 0)
    (by rw [List.length_replicate]; decide)

/-- C4. Zero-length sentinel: for every type byte `t`, `ReadPacket` on a stream that
starts with the header `(t, length 0)` returns type `t`, no payload and `io.EOF`, leaving
everything behind the five header bytes unread; `WritePacket(t, empty payload)` writes
exactly that header, so reading it back yields `io.EOF`; and `ReadPacket` never returns
an empty payload, on any stream. -/
theorem ReadPacket_zero_length (t : Byte) (rest : List Byte) (fin : Err) (r : Reader) :
    ReadPacket ⟨t :: 0 :: 0 :: 0 :: 0 :: rest, fin⟩ = ((t, none, some Err.EOF), ⟨rest, fin⟩) ∧
    WritePacket ⟨[], []⟩ t [] = (none, ⟨[t, 0, 0, 0, 0], []⟩) ∧
    ReadPacket ⟨(WritePacket ⟨[], []⟩ t []).2.out ++ rest, fin⟩
      = ((t, none, some Err.EOF), ⟨rest, fin⟩) ∧
    (ReadPacket r).1.2.1 ≠ some [] := by
  have h1 : ReadPacket ⟨t :: 0 :: 0 :: 0 :: 0 :: rest, fin⟩
      = ((t, none, some Err.EOF), ⟨rest, fin⟩) := by
    rw [ReadPacket_header, if_pos (by decide)]
  have h2 : WritePacket ⟨[], []⟩ t [] = (none, ⟨[t, 0, 0, 0, 0], []⟩) := by
    rw [WritePacket_ok]; rfl
  refine ⟨h1, h2, ?_, ?_⟩
  · rw [h2]; exact h1
  · intro hsome
    obtain ⟨_, _, _, _, _, _, -, -, hpos, -, -⟩ := ReadPacket_payload r [] hsome
    simp at hpos

/-- C5, as stated, fails for the type byte 0: the result of `ReadPacket` for a
zero-length packet of type 0 is the result it returns for a stream with no bytes left. -/
theorem ReadPacket_sentinel_indistinct :
    (ReadPacket ⟨[0, 0, 0, 0, 0], Err.EOF⟩).1 = (ReadPacket ⟨[], Err.EOF⟩).1 := by
  decide

/-- C5, amended. For a zero-length packet of type `t`, `ReadPacket` returns
`(t, no payload, io.EOF)`; for a stream with no bytes left that ends in end-of-file it
returns `(0, no payload, io.EOF)`. Both carry the same error value, and the two results
differ exactly when `t ≠ 0`. -/
theorem ReadPacket_sentinel_vs_eof (t : Byte) (rest : List Byte) (fin : Err) :
    (ReadPacket ⟨t :: 0 :: 0 :: 0 :: 0 :: rest, fin⟩).1 = (t, none, some Err.EOF) ∧
    (ReadPacket ⟨[], Err.EOF⟩).1 = (0, none, some Err.EOF) ∧
    ((ReadPacket ⟨t :: 0 :: 0 :: 0 :: 0 :: rest, fin⟩).1 ≠ (ReadPacket ⟨[], Err.EOF⟩).1
      ↔ t ≠ 0) := by
  have h1 : (ReadPacket ⟨t :: 0 :: 0 :: 0 :: 0 :: rest, fin⟩).1 = (t, none, some Err.EOF) := by
    rw [ReadPacket_header, if_pos (by decide)]
  have h2 : (ReadPacket ⟨[], Err.EOF⟩).1 = (0, none, some Err.EOF) := by decide
  refine ⟨h1, h2, ?_⟩
  rw [h1, h2]
  simp

/-- C6. Short read: on every stream that ends after fewer than five bytes, or after a
header declaring a length `n` with `1 ≤ n ≤ 10,000,000` followed by fewer than `n` bytes,
`ReadPacket` returns type 0, no payload and an error (the error the stream ends with, or
`io.ErrUnexpectedEOF` for an end-of-file in the middle of a header or payload). -/
theorem ReadPacket_short_read (r : Reader)
    (h : r.buf.length < 5 ∨
      ∃ t b1 b2 b3 b4 rest, r.buf = t :: b1 :: b2 :: b3 :: b4 :: rest ∧
        1 ≤ Uint32 [b1, b2, b3, b4] ∧ Uint32 [b1, b2, b3, b4] ≤ 10000000 ∧
        rest.length < Uint32 [b1, b2, b3, b4]) :
    ∃ e, (ReadPacket r).1 = (0, none, some e) ∧
      (e = r.fin ∨ (r.fin = Err.EOF ∧ e = Err.ErrUnexpectedEOF)) := by
  have hshort : ∀ (q : Reader) (n : Nat), q.buf.length < n →
      ∃ e q1, ReadFull q n = (.error e, q1) ∧
        (e = q.fin ∨ (q.fin = Err.EOF ∧ e = Err.ErrUnexpectedEOF)) := by
    intro q n hq
    unfold ReadFull
    rw [if_neg (by omega)]
    by_cases hz : q.buf.length = 0
    · rw [if_pos hz]; exact ⟨_, _, rfl, Or.inl rfl⟩
    · rw [if_neg hz]
      by_cases hf : q.fin = Err.EOF
      · rw [if_pos hf]; exact ⟨_, _, rfl, Or.inr ⟨hf, rfl⟩⟩
      · rw [if_neg hf]; exact ⟨_, _, rfl, Or.inl rfl⟩
  rcases h with h | ⟨t, b1, b2, b3, b4, rest, hbuf, hlo, hhi, hlen⟩
  · obtain ⟨e, q1, hrf, he⟩ := hshort r 5 h
    refine ⟨e, ?_, he⟩
    simp only [ReadPacket, hrf]
  · obtain ⟨buf, fin⟩ := r
    simp only at hbuf
    subst hbuf
    obtain ⟨e, q1, hrf, he⟩ := hshort ⟨rest, fin⟩ (Uint32 [b1, b2, b3, b4]) hlen
    refine ⟨e, ?_, he⟩
    rw [ReadPacket_header, if_neg (by omega), if_neg (by omega), hrf]

theorem ReadPacket_short_read_witness :
    ∃ e, (ReadPacket ⟨[2, 0, 0, 0, 3, 9], Err.EOF⟩).1 = (0, none, some e) ∧
      (e = (⟨[2, 0, 0, 0, 3, 9], Err.EOF⟩ : Reader).fin ∨
        ((⟨[2, 0, 0, 0, 3, 9], Err.EOF⟩ : Reader).fin = Err.EOF ∧ e = Err.ErrUnexpectedEOF)) :=
  ReadPacket_short_read ⟨[2, 0, 0, 0, 3, 9], Err.EOF⟩
    (Or.inr ⟨2, 0, 0, 0, 3, [9], rfl, by decide, by decide, by decide⟩)

end Packet

/-! ## The video loop -/

section VideoLoop

open usecase file

variable {σ : Type}

theorem gateOK_append (b : Bool) (xs ys : List Event) :
    gateOK b (xs ++ ys) = (gateOK b xs && gateOK (needKey b xs) ys) := by
  induction xs generalizing b with
  | nil => simp [gateOK, needKey]
  | cons e es ih =>
    cases e <;> simp [gateOK, needKey, ih, Bool.and_assoc]

theorem needKey_append (b : Bool) (xs ys : List Event) :
    needKey b (xs ++ ys) = needKey (needKey b xs) ys := by
  induction xs generalizing b with
  | nil => simp [needKey]
  | cons e es ih => cases e <;> simp [needKey, ih]

/-- Without a published talking frame a demand for a keyframe stays. -/
theorem needKey_of_no_talking (xs : List Event)
    (h : ∀ g, Event.PublishTalking g ∉ xs) : needKey true xs = true := by
  induction xs with
  | nil => rfl
  | cons e es ih =>
    have hes : ∀ g, Event.PublishTalking g ∉ es := fun g hg => h g (List.mem_cons_of_mem _ hg)
    cases e with
    | PublishTalking f => exact absurd (List.mem_cons_self _ _) (h f)
    | PublishIdle f => simpa [needKey] using ih hes
    | Reset err => simpa [needKey] using ih hes

/-- The calls of `publishIdle` never include a talking frame, and leave the loop
variables alone. -/
theorem publishIdle_spec (src : ResettableFrameSource σ) (s : VideoLoop σ) :
    (∀ s1, (publishIdle src s).2 = Go.ret s1 →
      s1.waitingForKeyframe = s.waitingForKeyframe ∧ s1.lastState = s.lastState ∧
      s1.lastTalkTime = s.lastTalkTime ∧ s1.currentState = s.currentState) ∧
    ((publishIdle src s).1 = [] ∨ ∃ f, (publishIdle src s).1 = [Event.PublishIdle f]) := by
  unfold publishIdle
  cases hnf : src.NextFrame s.idleVideoSource with
  | panic => simp
  | ret res =>
    obtain ⟨⟨frame, err⟩, idle1⟩ := res
    cases err <;> cases frame <;> simp

/-- One tick keeps the gate: the talking frame it publishes is a keyframe when one is
called for, and a demand for a keyframe that stands after the tick finds the gate
closed. -/
theorem videoTick_gate (src : ResettableFrameSource σ) (s : VideoLoop σ) (t : Tick)
    (b : Bool) (hb : b = true → s.armed)
    (hinv : s.lastState = AvatarState.StateIdle ∨ s.lastState = AvatarState.StateTalking) :
    gateOK b (videoTick src s t).1 = true ∧
    ∀ s1, (videoTick src s t).2 = Go.ret s1 →
      (needKey b (videoTick src s t).1 = true → s1.armed) ∧
      (s1.lastState = AvatarState.StateIdle ∨ s1.lastState = AvatarState.StateTalking) := by
  obtain ⟨talk, now⟩ := t
  cases talk with
  | some f =>
    by_cases hidle : s.lastState = AvatarState.StateIdle
    · cases hk : f.IsKey <;>
        simp [videoTick, hidle, hk, gateOK, needKey, VideoLoop.armed]
    · cases hw : s.waitingForKeyframe
      · have hbf : b = false := by
          cases b
          · rfl
          · rcases hb rfl with h | h
            · rw [hw] at h; cases h
            · exact absurd h hidle
        simp [videoTick, hidle, hw, gateOK, needKey, hbf]
      · cases hk : f.IsKey <;>
          simp [videoTick, hidle, hw, hk, gateOK, needKey, VideoLoop.armed]
  | none =>
    by_cases hhold : now - s.lastTalkTime < 80 * Millisecond
    · simp only [videoTick, hhold, if_true, gateOK, needKey, true_and]
      intro s1 hs1
      cases hs1
      exact ⟨hb, hinv⟩
    · by_cases htalk : s.lastState = AvatarState.StateTalking
      · simp only [videoTick, hhold, if_false, htalk, if_true]
        cases hreset : src.Reset s.idleVideoSource with
        | panic => simp [gateOK]
        | ret res =>
          obtain ⟨err, idle1⟩ := res
          simp only
          have hp := publishIdle_spec src
            { s with lastState := AvatarState.StateIdle, currentState := AvatarState.StateIdle,
                     waitingForKeyframe := true, idleVideoSource := idle1 }
          obtain ⟨hst, hev⟩ := hp
          constructor
          · rcases hev with hev | ⟨g, hev⟩ <;> simp [hev, gateOK]
          · intro s1 hs1
            exact ⟨fun _ => Or.inl (hst s1 hs1).1, Or.inl (hst s1 hs1).2.1⟩
      · simp only [videoTick, hhold, if_false, htalk]
        obtain ⟨hst, hev⟩ := publishIdle_spec src s
        constructor
        · rcases hev with hev | ⟨g, hev⟩ <;> simp [hev, gateOK]
        · intro s1 hs1
          have hidle : s1.lastState = AvatarState.StateIdle := by
            rcases hinv with h | h
            · exact (hst s1 hs1).2.1.trans h
            · exact absurd h htalk
          exact ⟨fun _ => Or.inr hidle, Or.inl hidle⟩

/-- A run keeps the gate on the whole sequence of its calls. -/
theorem runVideoLoop_gate (src : ResettableFrameSource σ) (ticks : List Tick)
    (s : VideoLoop σ) (b : Bool) (hb : b = true → s.armed)
    (hinv : s.lastState = AvatarState.StateIdle ∨ s.lastState = AvatarState.StateTalking) :
    gateOK b (runVideoLoop src s ticks).1.flatten = true := by
  induction ticks generalizing s b with
  | nil => simp [runVideoLoop, gateOK]
  | cons t ts ih =>
    obtain ⟨hg, hs⟩ := videoTick_gate src s t b hb hinv
    unfold runVideoLoop
    cases h : videoTick src s t with
    | mk ev r =>
      rw [h] at hg hs
      cases r with
      | panic => simpa using hg
      | ret s1 =>
        obtain ⟨harm, hinv1⟩ := hs s1 rfl
        simp only [List.flatten_cons, gateOK_append, Bool.and_eq_true]
        exact ⟨hg, ih s1 (needKey b ev) harm hinv1⟩

/-- C7. Keyframe gate of the video pacer: for every idle source, every start time and
every sequence of ticks run from the initial state, a talking frame `f` that is published
with no talking frame published before it since the start, or since the last idle frame
that was published, is a keyframe. (`pre` are the calls made before `f` is published.) -/
theorem keyframe_gate (src : ResettableFrameSource σ) (start : Int) (idle : σ)
    (ticks : List Tick) (pre post : List Event) (f : MediaFrame)
    (hsplit : (runVideoLoop src (VideoLoop.init start idle) ticks).1.flatten
      = pre ++ Event.PublishTalking f :: post)
    (hfirst : (∀ g, Event.PublishTalking g ∉ pre) ∨
      ∃ pre1 g mid, pre = pre1 ++ Event.PublishIdle g :: mid ∧
        ∀ h, Event.PublishTalking h ∉ mid) :
    f.IsKey = true := by
  have hgate := runVideoLoop_gate src ticks (VideoLoop.init start idle) true
    (fun _ => Or.inl rfl) (Or.inl rfl)
  rw [hsplit, gateOK_append] at hgate
  have hneed : needKey true pre = true := by
    rcases hfirst with h | ⟨pre1, g, mid, hpre, hmid⟩
    · exact needKey_of_no_talking pre h
    · rw [hpre, needKey_append]
      simpa [needKey] using needKey_of_no_talking mid hmid
  rw [hneed, Bool.and_eq_true] at hgate
  have hkey := hgate.2
  simp only [gateOK, Bool.not_true, Bool.false_or, Bool.and_eq_true] at hkey
  exact hkey.1

theorem keyframe_gate_witness :
    (runVideoLoop loopReaderSource (VideoLoop.init 0 (newReader [[0]] true))
        [⟨none, 0⟩, ⟨some ⟨[1], 40, false, 1⟩, 40000000⟩,
          ⟨some ⟨[2], 40, true, 1⟩, 80000000⟩,
          ⟨some ⟨[3], 40, false, 1⟩, 120000000⟩]).1.flatten
      = [Event.PublishIdle ⟨[0], 40, true, 1⟩] ++
          Event.PublishTalking ⟨[2], 40, true, 1⟩ :: [Event.PublishTalking ⟨[3], 40, false, 1⟩] ∧
    (⟨[2], 40, true, 1⟩ : MediaFrame).IsKey = true :=
  ⟨by decide,
    keyframe_gate loopReaderSource 0 (newReader [[0]] true)
      [⟨none, 0⟩, ⟨some ⟨[1], 40, false, 1⟩, 40000000⟩, ⟨some ⟨[2], 40, true, 1⟩, 80000000⟩,
        ⟨some ⟨[3], 40, false, 1⟩, 120000000⟩]
      [Event.PublishIdle ⟨[0], 40, true, 1⟩]
      [Event.PublishTalking ⟨[3], 40, false, 1⟩]
      ⟨[2], 40, true, 1⟩
      (by decide)
      (Or.inr ⟨[], ⟨[0], 40, true, 1⟩, [], rfl, fun h hh => by cases hh⟩)⟩

/-- A run over `xs ++ ys` is the run over `xs` followed by the run over `ys`. -/
theorem runVideoLoop_append (src : ResettableFrameSource σ) (xs ys : List Tick)
    (s s1 : VideoLoop σ) (tr : List (List Event))
    (h : runVideoLoop src s xs = (tr, Go.ret s1)) :
    runVideoLoop src s (xs ++ ys)
      = (tr ++ (runVideoLoop src s1 ys).1, (runVideoLoop src s1 ys).2) := by
  induction xs generalizing s tr with
  | nil =>
    simp only [runVideoLoop, Prod.mk.injEq, Go.ret.injEq] at h
    obtain ⟨rfl, rfl⟩ := h
    simp
  | cons t ts ih =>
    rw [List.cons_append]
    simp only [runVideoLoop] at h ⊢
    cases hv : videoTick src s t with
    | mk ev r =>
      rw [hv] at h
      cases r with
      | panic => simp at h
      | ret s2 =>
        simp only [Prod.mk.injEq] at h
        obtain ⟨rfl, h2⟩ := h
        simp only [ih s2 (runVideoLoop src s2 ts).1 (Prod.ext rfl h2), List.cons_append]

/-- A talking frame that is no keyframe, obtained while the gate is closed, is discarded;
the loop is in Talking afterwards and the gate stays closed. -/
theorem videoTick_discard (src : ResettableFrameSource σ) (s : VideoLoop σ) (f : MediaFrame)
    (now : Int) (harm : s.armed) (hf : f.IsKey = false) :
    videoTick src s ⟨some f, now⟩
      = ([], Go.ret { waitingForKeyframe := true, lastState := AvatarState.StateTalking,
                      lastTalkTime := now, currentState := AvatarState.StateTalking,
                      idleVideoSource := s.idleVideoSource }) := by
  by_cases hi : s.lastState = AvatarState.StateIdle
  · simp [videoTick, hi, hf]
  · rcases harm with hw | hi1
    · simp [videoTick, hi, hf, hw]
    · exact absurd hi1 hi

/-- A keyframe obtained while the gate is closed is published and opens the gate. -/
theorem videoTick_key (src : ResettableFrameSource σ) (s : VideoLoop σ) (f : MediaFrame)
    (now : Int) (harm : s.armed) (hf : f.IsKey = true) :
    videoTick src s ⟨some f, now⟩
      = ([Event.PublishTalking f],
          Go.ret { waitingForKeyframe := false, lastState := AvatarState.StateTalking,
                   lastTalkTime := now, currentState := AvatarState.StateTalking,
                   idleVideoSource := s.idleVideoSource }) := by
  by_cases hi : s.lastState = AvatarState.StateIdle
  · simp [videoTick, hi, hf]
  · rcases harm with hw | hi1
    · simp [videoTick, hi, hf, hw]
    · exact absurd hi1 hi

/-- With the gate open, a talking frame obtained is published. -/
theorem videoTick_open (src : ResettableFrameSource σ) (s : VideoLoop σ) (f : MediaFrame)
    (now : Int) (hw : s.waitingForKeyframe = false)
    (ht : s.lastState = AvatarState.StateTalking) :
    videoTick src s ⟨some f, now⟩
      = ([Event.PublishTalking f],
          Go.ret { waitingForKeyframe := false, lastState := AvatarState.StateTalking,
                   lastTalkTime := now, currentState := AvatarState.StateTalking,
                   idleVideoSource := s.idleVideoSource }) := by
  simp [videoTick, ht, hw]

/-- While the gate is closed, talking frames that are no keyframes are discarded. -/
theorem runVideoLoop_discard (src : ResettableFrameSource σ) (pre : List (MediaFrame × Int))
    (s : VideoLoop σ) (harm : s.armed) (hpre : ∀ p ∈ pre, p.1.IsKey = false) :
    ∃ s1, runVideoLoop src s (pre.map (fun p => ⟨some p.1, p.2⟩))
        = (pre.map (fun _ => []), Go.ret s1) ∧
      s1.armed ∧ s1.idleVideoSource = s.idleVideoSource := by
  induction pre generalizing s with
  | nil => exact ⟨s, rfl, harm, rfl⟩
  | cons p ps ih =>
    have hv := videoTick_discard src s p.1 p.2 harm (hpre p (List.mem_cons_self _ _))
    obtain ⟨s1, hrun, harm1, hid1⟩ := ih
      { waitingForKeyframe := true, lastState := AvatarState.StateTalking,
        lastTalkTime := p.2, currentState := AvatarState.StateTalking,
        idleVideoSource := s.idleVideoSource } (Or.inl rfl)
      (fun q hq => hpre q (List.mem_cons_of_mem _ hq))
    refine ⟨s1, ?_, harm1, hid1⟩
    simp only [List.map_cons, runVideoLoop, hv, hrun]

/-- Once the gate is open, every talking frame obtained is published. -/
theorem runVideoLoop_open (src : ResettableFrameSource σ) (post : List (MediaFrame × Int))
    (s : VideoLoop σ) (hw : s.waitingForKeyframe = false)
    (ht : s.lastState = AvatarState.StateTalking)
    (hc : s.currentState = AvatarState.StateTalking) :
    ∃ s1, runVideoLoop src s (post.map (fun p => ⟨some p.1, p.2⟩))
        = (post.map (fun p => [Event.PublishTalking p.1]), Go.ret s1) ∧
      s1.waitingForKeyframe = false ∧ s1.lastState = AvatarState.StateTalking ∧
      s1.currentState = AvatarState.StateTalking ∧
      s1.idleVideoSource = s.idleVideoSource := by
  induction post generalizing s with
  | nil => exact ⟨s, rfl, hw, ht, hc, rfl⟩
  | cons p ps ih =>
    have hv := videoTick_open src s p.1 p.2 hw ht
    obtain ⟨s1, hrun, hw1, ht1, hc1, hid1⟩ := ih
      { waitingForKeyframe := false, lastState := AvatarState.StateTalking,
        lastTalkTime := p.2, currentState := AvatarState.StateTalking,
        idleVideoSource := s.idleVideoSource } rfl rfl rfl
    refine ⟨s1, ?_, hw1, ht1, hc1, hid1⟩
    simp only [List.map_cons, runVideoLoop, hv, hrun]

/-- C8. Talking run after the gate opens: starting in Idle, if consecutive ticks obtain
the talking frames `pre`, `key`, `post` in this order, where no frame of `pre` is a
keyframe and `key` is one, then nothing is published on the ticks of `pre`, and on each
tick from that of `key` on exactly the talking frame obtained is published; no call is
made on the idle source, which is left as it was, and the loop ends in Talking with the
gate open. -/
theorem talking_run (src : ResettableFrameSource σ) (s : VideoLoop σ)
    (pre : List (MediaFrame × Int)) (key : MediaFrame) (tkey : Int)
    (post : List (MediaFrame × Int))
    (hidle : s.lastState = AvatarState.StateIdle)
    (hpre : ∀ p ∈ pre, p.1.IsKey = false) (hkey : key.IsKey = true) :
    ∃ s1, runVideoLoop src s ((pre ++ (key, tkey) :: post).map (fun p => ⟨some p.1, p.2⟩))
        = (pre.map (fun _ => []) ++
            [Event.PublishTalking key] :: post.map (fun p => [Event.PublishTalking p.1]),
           Go.ret s1) ∧
      s1.waitingForKeyframe = false ∧ s1.lastState = AvatarState.StateTalking ∧
      s1.currentState = AvatarState.StateTalking ∧
      s1.idleVideoSource = s.idleVideoSource := by
  obtain ⟨s2, hrun2, harm2, hid2⟩ := runVideoLoop_discard src pre s (Or.inr hidle) hpre
  have hv := videoTick_key src s2 key tkey harm2 hkey
  obtain ⟨s1, hrun1, hw1, ht1, hc1, hid1⟩ := runVideoLoop_open src post
    { waitingForKeyframe := false, lastState := AvatarState.StateTalking,
      lastTalkTime := tkey, currentState := AvatarState.StateTalking,
      idleVideoSource := s2.idleVideoSource } rfl rfl rfl
  refine ⟨s1, ?_, hw1, ht1, hc1, hid1.trans hid2⟩
  rw [List.map_append, runVideoLoop_append src _ _ s s2 _ hrun2]
  simp only [List.map_cons, runVideoLoop, hv, hrun1]

/-- The scenario of C8: a non-keyframe, a keyframe and two inter-frames, fed in Idle. -/
theorem talking_run_witness :
    ∃ s1, runVideoLoop loopReaderSource (VideoLoop.init 0 (newReader [[0]] true))
        [⟨some ⟨[1], 40, false, 1⟩, 0⟩, ⟨some ⟨[2], 40, true, 1⟩, 40000000⟩,
          ⟨some ⟨[3], 40, false, 1⟩, 80000000⟩, ⟨some ⟨[5], 40, false, 1⟩, 120000000⟩]
        = ([[], [Event.PublishTalking ⟨[2], 40, true, 1⟩],
            [Event.PublishTalking ⟨[3], 40, false, 1⟩],
            [Event.PublishTalking ⟨[5], 40, false, 1⟩]], Go.ret s1) ∧
      s1.waitingForKeyframe = false ∧ s1.lastState = AvatarState.StateTalking ∧
      s1.currentState = AvatarState.StateTalking ∧
      s1.idleVideoSource = newReader [[0]] true :=
  talking_run loopReaderSource (VideoLoop.init 0 (newReader [[0]] true))
    [(⟨[1], 40, false, 1⟩, 0)] ⟨[2], 40, true, 1⟩ 40000000
    [(⟨[3], 40, false, 1⟩, 80000000), (⟨[5], 40, false, 1⟩, 120000000)]
    rfl (by decide) rfl

/-- `NextFrame` on an open, looping reader whose frames are all non-empty: with the
cursor at `c` it delivers the frame at index `c`, counted cyclically, and moves the cursor
behind it. -/
theorem NextFrame_loop (frames : List (List Byte)) (c : Nat) (hne : frames ≠ [])
    (hpay : ∀ p ∈ frames, p ≠ []) (hc : c ≤ frames.length) :
    LoopReader.NextFrame ⟨frames, some c, true, true⟩
      = Go.ret ((some (frameAt frames c), none),
          ⟨frames, some (c % frames.length + 1), true, true⟩) := by
  have hpos : 0 < frames.length := List.length_pos.mpr hne
  have hframe : ∀ i, i < frames.length → ∃ b rest, frames[i]? = some (b :: rest) := by
    intro i hi
    have hmem : frames[i] ∈ frames := List.getElem_mem _
    cases hpl : frames[i] with
    | nil => exact absurd hpl (hpay _ hmem)
    | cons b rest => exact ⟨b, rest, by rw [List.getElem?_eq_getElem hi, hpl]⟩
  by_cases hlt : c < frames.length
  · obtain ⟨b, rest, hget⟩ := hframe c hlt
    simp [LoopReader.NextFrame, ParseNextFrame, mkFrame, frameAt, hget,
      Nat.mod_eq_of_lt hlt]
  · have hceq : c = frames.length := by omega
    obtain ⟨b, rest, hget⟩ := hframe 0 hpos
    have hnone : frames[c]? = none := by
      rw [List.getElem?_eq_none_iff]; omega
    subst hceq
    simp [LoopReader.NextFrame, ParseNextFrame, mkFrame, frameAt, hget, hnone, seekStart]

/-- `NextFrame` on a reader whose file is closed fails and leaves the reader as it is. -/
theorem NextFrame_closed (r : LoopReader) (hclosed : r.fileOpen = false) :
    ∃ err, LoopReader.NextFrame r = Go.ret ((none, some err), r) := by
  unfold LoopReader.NextFrame
  cases hivf : r.ivf with
  | none => exact ⟨_, rfl⟩
  | some pos => exact ⟨Err.ErrClosed, by simp [ParseNextFrame, hclosed]⟩

/-- The frame at an index depends on the index modulo the number of frames only. -/
theorem frameAt_congr (frames : List (List Byte)) (a b : Nat)
    (h : a % frames.length = b % frames.length) : frameAt frames a = frameAt frames b := by
  simp only [frameAt, h]

/-- Ticks without a talking frame inside the hold do nothing. -/
theorem runVideoLoop_hold (src : ResettableFrameSource σ) (hold : List Int)
    (s : VideoLoop σ) (hhold : ∀ t ∈ hold, t - s.lastTalkTime < 80 * Millisecond) :
    runVideoLoop src s (hold.map (fun t => ⟨none, t⟩))
      = (hold.map (fun _ => []), Go.ret s) := by
  induction hold with
  | nil => rfl
  | cons t ts ih =>
    have ht := hhold t (List.mem_cons_self _ _)
    have hv : videoTick src s ⟨none, t⟩ = ([], Go.ret s) := by
      simp [videoTick, ht]
    simp only [List.map_cons, runVideoLoop, hv,
      ih (fun q hq => hhold q (List.mem_cons_of_mem _ hq))]

/-- Idle playback: in Idle, past the hold, each tick without a talking frame publishes the
next frame of an open looping reader. The cursor `c` stands for the frame index `j`. -/
theorem runVideoLoop_idle (frames : List (List Byte)) (hne : frames ≠ [])
    (hpay : ∀ p ∈ frames, p ≠ []) (later : List Int) (s : VideoLoop LoopReader)
    (c j : Nat) (hsrc : s.idleVideoSource = ⟨frames, some c, true, true⟩)
    (hc : c ≤ frames.length) (hcj : c % frames.length = j % frames.length)
    (hidle : s.lastState = AvatarState.StateIdle)
    (hlater : ∀ t ∈ later, 80 * Millisecond ≤ t - s.lastTalkTime) :
    ∃ s1, runVideoLoop loopReaderSource s (later.map (fun t => ⟨none, t⟩))
        = ((List.range later.length).map (fun k => [Event.PublishIdle (frameAt frames (j + k))]),
            Go.ret s1) ∧
      s1.lastState = s.lastState ∧ s1.currentState = s.currentState ∧
      s1.waitingForKeyframe = s.waitingForKeyframe ∧ s1.lastTalkTime = s.lastTalkTime := by
  induction later generalizing s c j with
  | nil => exact ⟨s, rfl, rfl, rfl, rfl, rfl⟩
  | cons t ts ih =>
    have ht := hlater t (List.mem_cons_self _ _)
    have hpos : 0 < frames.length := List.length_pos.mpr hne
    have hv : videoTick loopReaderSource s ⟨none, t⟩
        = ([Event.PublishIdle (frameAt frames j)],
            Go.ret { s with idleVideoSource :=
              ⟨frames, some (c % frames.length + 1), true, true⟩ }) := by
      have hnf := NextFrame_loop frames c hne hpay hc
      simp [videoTick, publishIdle, loopReaderSource, not_lt.mpr ht, hidle, hsrc, hnf,
        frameAt_congr frames c j hcj]
    have hc1 : c % frames.length + 1 ≤ frames.length := Nat.mod_lt c hpos
    have hcj1 : (c % frames.length + 1) % frames.length = (j + 1) % frames.length := by
      rw [hcj, Nat.add_mod, Nat.mod_mod, ← Nat.add_mod]
    obtain ⟨s1, hrun, h1, h2, h3, h4⟩ := ih
      { s with idleVideoSource := ⟨frames, some (c % frames.length + 1), true, true⟩ }
      (c % frames.length + 1) (j + 1) rfl hc1 hcj1 hidle
      (fun q hq => hlater q (List.mem_cons_of_mem _ hq))
    refine ⟨s1, ?_, h1, h2, h3, h4⟩
    simp only [List.map_cons, runVideoLoop, hv, hrun, List.length_cons,
      List.range_succ_eq_map, List.map_map, Nat.add_zero, Prod.mk.injEq, List.cons.injEq,
      true_and, and_true]
    apply List.map_congr_left
    intro k _
    simp only [Function.comp_apply, Nat.succ_eq_add_one]
    rw [Nat.add_assoc, Nat.add_comm 1 k]

/-- Idle ticks on a reader whose file is closed publish nothing. -/
theorem runVideoLoop_idle_closed (later : List Int) (s : VideoLoop LoopReader)
    (hclosed : s.idleVideoSource.fileOpen = false)
    (hidle : s.lastState = AvatarState.StateIdle)
    (hlater : ∀ t ∈ later, 80 * Millisecond ≤ t - s.lastTalkTime) :
    runVideoLoop loopReaderSource s (later.map (fun t => ⟨none, t⟩))
      = (later.map (fun _ => []), Go.ret s) := by
  obtain ⟨w, ls, ltt, cs, r⟩ := s
  simp only at hclosed hidle hlater
  subst hidle
  induction later with
  | nil => rfl
  | cons t ts ih =>
    have ht := hlater t (List.mem_cons_self _ _)
    obtain ⟨err, hnf⟩ := NextFrame_closed r hclosed
    have hv : videoTick loopReaderSource ⟨w, AvatarState.StateIdle, ltt, cs, r⟩ ⟨none, t⟩
        = ([], Go.ret ⟨w, AvatarState.StateIdle, ltt, cs, r⟩) := by
      simp [videoTick, publishIdle, loopReaderSource, not_lt.mpr ht, hnf]
    simp only [List.map_cons, runVideoLoop, hv,
      ih (fun q hq => hlater q (List.mem_cons_of_mem _ hq))]

/-- C9. Return to idle, with a looping file reader of non-empty frames as the idle video
source: let the loop be in Talking and obtain no further talking frame, on ticks `hold`
that fall within 80 ms of the last talking frame, then a tick `now0` at which at least
80 ms have elapsed, then ticks `later`. Nothing happens on the ticks of `hold`. On the
tick `now0` the state becomes Idle, the gate is closed again and `Reset` is called, and it
is called on no other tick. If the file is open (`Reset` succeeds) the frame published on
that tick is the first frame of the container and the ticks of `later` publish the
following frames, in cyclic order; if the file is closed `Reset` fails and no tick
publishes anything. -/
theorem return_to_idle (s : VideoLoop LoopReader) (hold : List Int) (now0 : Int)
    (later : List Int)
    (htalk : s.lastState = AvatarState.StateTalking)
    (hloop : s.idleVideoSource.loop = true)
    (hne : s.idleVideoSource.frames ≠ [])
    (hpay : ∀ p ∈ s.idleVideoSource.frames, p ≠ [])
    (hhold : ∀ t ∈ hold, t - s.lastTalkTime < 80 * Millisecond)
    (h0 : 80 * Millisecond ≤ now0 - s.lastTalkTime)
    (hlater : ∀ t ∈ later, 80 * Millisecond ≤ t - s.lastTalkTime) :
    ∃ s1, runVideoLoop loopReaderSource s ((hold ++ now0 :: later).map (fun t => ⟨none, t⟩))
        = (hold.map (fun _ => []) ++
            (if s.idleVideoSource.fileOpen then
              [Event.Reset none, Event.PublishIdle (frameAt s.idleVideoSource.frames 0)] ::
                (List.range later.length).map
                  (fun k => [Event.PublishIdle (frameAt s.idleVideoSource.frames (k + 1))])
            else
              [Event.Reset (some Err.ErrClosed)] :: later.map (fun _ => [])),
           Go.ret s1) ∧
      s1.lastState = AvatarState.StateIdle ∧ s1.currentState = AvatarState.StateIdle ∧
      s1.waitingForKeyframe = true ∧ s1.lastTalkTime = s.lastTalkTime := by
  obtain ⟨w, ls, ltt, cs, r⟩ := s
  obtain ⟨frames, ivf, loop, fileOpen⟩ := r
  simp only at htalk hloop hne hpay hhold h0 hlater
  subst htalk hloop
  rw [List.map_append, runVideoLoop_append loopReaderSource _ _ _ _ _
    (runVideoLoop_hold loopReaderSource hold _ hhold)]
  cases fileOpen with
  | true =>
    have hpos : 0 < frames.length := List.length_pos.mpr hne
    have hnf := NextFrame_loop frames 0 hne hpay (Nat.zero_le _)
    have hv : videoTick loopReaderSource
          ⟨w, AvatarState.StateTalking, ltt, cs, ⟨frames, ivf, true, true⟩⟩ ⟨none, now0⟩
        = ([Event.Reset none, Event.PublishIdle (frameAt frames 0)],
            Go.ret ⟨true, AvatarState.StateIdle, ltt, AvatarState.StateIdle,
              ⟨frames, some (0 % frames.length + 1), true, true⟩⟩) := by
      simp [videoTick, publishIdle, loopReaderSource, LoopReader.Reset, seekStart,
        not_lt.mpr h0, hnf]
    obtain ⟨s1, hrun, h1, h2, h3, h4⟩ := runVideoLoop_idle frames hne hpay later
      ⟨true, AvatarState.StateIdle, ltt, AvatarState.StateIdle,
        ⟨frames, some (0 % frames.length + 1), true, true⟩⟩
      (0 % frames.length + 1) 1 rfl (Nat.mod_lt 0 hpos) (by simp) rfl hlater
    refine ⟨s1, ?_, h1, h2, h3, h4⟩
    simp only [List.map_cons, runVideoLoop, hv, hrun, if_true, Nat.add_comm 1]
  | false =>
    obtain ⟨err, hnf⟩ := NextFrame_closed ⟨frames, ivf, true, false⟩ rfl
    have hv : videoTick loopReaderSource
          ⟨w, AvatarState.StateTalking, ltt, cs, ⟨frames, ivf, true, false⟩⟩ ⟨none, now0⟩
        = ([Event.Reset (some Err.ErrClosed)],
            Go.ret ⟨true, AvatarState.StateIdle, ltt, AvatarState.StateIdle,
              ⟨frames, ivf, true, false⟩⟩) := by
      simp [videoTick, publishIdle, loopReaderSource, LoopReader.Reset, seekStart,
        not_lt.mpr h0, hnf]
    have hrun := runVideoLoop_idle_closed later
      ⟨true, AvatarState.StateIdle, ltt, AvatarState.StateIdle, ⟨frames, ivf, true, false⟩⟩
      rfl rfl hlater
    refine ⟨⟨true, AvatarState.StateIdle, ltt, AvatarState.StateIdle,
      ⟨frames, ivf, true, false⟩⟩, ?_, rfl, rfl, rfl, rfl⟩
    simp only [List.map_cons, runVideoLoop, hv, hrun, Bool.false_eq_true, if_false]

/-- The scenario of C9: after a talking frame at 0 ms, ticks at 40, 81, 121 and 161 ms
obtain no talking frame; the idle container holds two frames. -/
theorem return_to_idle_witness :
    ∃ s1, runVideoLoop loopReaderSource
        ⟨false, AvatarState.StateTalking, 0, AvatarState.StateTalking,
          ⟨[[0, 7], [1, 8]], some 2, true, true⟩⟩
        [⟨none, 40000000⟩, ⟨none, 81000000⟩, ⟨none, 121000000⟩, ⟨none, 161000000⟩]
        = ([[], [Event.Reset none, Event.PublishIdle ⟨[0, 7], 40, true, 1⟩],
             [Event.PublishIdle ⟨[1, 8], 40, false, 1⟩],
             [Event.PublishIdle ⟨[0, 7], 40, true, 1⟩]],
           Go.ret s1) ∧
      s1.lastState = AvatarState.StateIdle ∧ s1.currentState = AvatarState.StateIdle ∧
      s1.waitingForKeyframe = true ∧ s1.lastTalkTime = 0 :=
  return_to_idle
    ⟨false, AvatarState.StateTalking, 0, AvatarState.StateTalking,
      ⟨[[0, 7], [1, 8]], some 2, true, true⟩⟩
    [40000000] 81000000 [121000000, 161000000]
    rfl rfl (by decide) (by decide) (by decide) (by decide) (by decide)

/-- The variable `lastTalkTime` after a tick: the clock reading of the tick if it obtained
a talking frame, unchanged otherwise. -/
theorem videoTick_lastTalkTime (src : ResettableFrameSource σ) (s s1 : VideoLoop σ)
    (t : Tick) (h : (videoTick src s t).2 = Go.ret s1) :
    s1.lastTalkTime = if t.talk.isSome then t.now else s.lastTalkTime := by
  obtain ⟨talk, now⟩ := t
  cases talk with
  | some f =>
    by_cases hi : s.lastState = AvatarState.StateIdle <;>
      cases hw : s.waitingForKeyframe <;> cases hk : f.IsKey <;>
      simp [videoTick, hi, hw, hk] at h <;> subst h <;> rfl
  | none =>
    simp only [videoTick] at h
    split at h
    · simp only [Go.ret.injEq] at h
      subst h; rfl
    · split at h
      · cases hreset : src.Reset s.idleVideoSource with
        | panic => simp [hreset] at h
        | ret res =>
          obtain ⟨err, idle1⟩ := res
          simp only [hreset] at h
          exact ((publishIdle_spec src _).1 s1 h).2.2.1
      · exact ((publishIdle_spec src s).1 s1 h).2.2.1

/-- After a run, `lastTalkTime` is the clock reading of the last tick that obtained a
talking frame, or its value before the run if no tick did. -/
theorem runVideoLoop_lastTalkTime (src : ResettableFrameSource σ) (hist : List Tick)
    (s s1 : VideoLoop σ) (tr : List (List Event))
    (h : runVideoLoop src s hist = (tr, Go.ret s1)) :
    s1.lastTalkTime = (lastTalkObtained hist).getD s.lastTalkTime := by
  induction hist generalizing s tr with
  | nil =>
    simp only [runVideoLoop, Prod.mk.injEq, Go.ret.injEq] at h
    rw [← h.2]; rfl
  | cons t ts ih =>
    simp only [runVideoLoop] at h
    cases hv : videoTick src s t with
    | mk ev r =>
      rw [hv] at h
      cases r with
      | panic => simp at h
      | ret s2 =>
        simp only [Prod.mk.injEq] at h
        have h2 := ih s2 _ (Prod.ext rfl h.2)
        have h3 := videoTick_lastTalkTime src s s2 t (by rw [hv])
        rw [h2, h3]
        simp only [lastTalkObtained]
        cases lastTalkObtained ts with
        | some T => rfl
        | none => cases t.talk <;> rfl

/-- C10, as stated, fails: a run in which no talking frame was ever published (the only
talking frame, obtained at 0 ms, was no keyframe and was discarded) and whose idle source
yields a frame, both as it is and after `Reset`; yet the tick at 40 ms, which obtains no
talking frame, publishes nothing. -/
theorem antiFlicker_since_published_fails :
    runVideoLoop loopReaderSource (VideoLoop.init 0 (newReader [[0]] true))
        [⟨some ⟨[1], 40, false, 1⟩, 0⟩]
      = ([[]], Go.ret ⟨true, AvatarState.StateTalking, 0, AvatarState.StateTalking,
          newReader [[0]] true⟩) ∧
    lastTalkPublished [⟨some ⟨[1], 40, false, 1⟩, 0⟩] [[]] = none ∧
    loopReaderSource.Reset (newReader [[0]] true) = Go.ret (none, newReader [[0]] true) ∧
    loopReaderSource.NextFrame (newReader [[0]] true)
      = Go.ret ((some ⟨[0], 40, true, 1⟩, none), ⟨[[0]], some 1, true, true⟩) ∧
    videoTick loopReaderSource
        ⟨true, AvatarState.StateTalking, 0, AvatarState.StateTalking, newReader [[0]] true⟩
        ⟨none, 40000000⟩
      = ([], Go.ret ⟨true, AvatarState.StateTalking, 0, AvatarState.StateTalking,
          newReader [[0]] true⟩) := by
  decide

/-- C10, amended. Anti-flicker hold, measured from the last talking frame *obtained*
(published or discarded), or from 10 hours before the start of the loop if none was
obtained yet. After any run from the initial state, on a tick that obtains no talking
frame: if fewer than 80 ms have elapsed since then, no call is made and the state is
unchanged; if 80 ms or more have elapsed and the idle source (after the `Reset` of this
tick, when the loop was in Talking) yields a frame, that frame is published, preceded only
by the call of `Reset` if there was one. -/
theorem antiFlicker_hold (src : ResettableFrameSource σ) (start : Int) (idle : σ)
    (hist : List Tick) (tr : List (List Event)) (s : VideoLoop σ) (now : Int)
    (hrun : runVideoLoop src (VideoLoop.init start idle) hist = (tr, Go.ret s)) :
    (now - (lastTalkObtained hist).getD (start - 10 * Hour) < 80 * Millisecond →
      videoTick src s ⟨none, now⟩ = ([], Go.ret s)) ∧
    (80 * Millisecond ≤ now - (lastTalkObtained hist).getD (start - 10 * Hour) →
      ∀ (idle0 idle1 : σ) (f : MediaFrame),
        (s.lastState = AvatarState.StateTalking →
          ∃ err, src.Reset s.idleVideoSource = Go.ret (err, idle0)) →
        (s.lastState ≠ AvatarState.StateTalking → idle0 = s.idleVideoSource) →
        src.NextFrame idle0 = Go.ret ((some f, none), idle1) →
        ∃ s1, (videoTick src s ⟨none, now⟩).2 = Go.ret s1 ∧ s1.idleVideoSource = idle1 ∧
          ((videoTick src s ⟨none, now⟩).1 = [Event.PublishIdle f] ∨
            ∃ err, (videoTick src s ⟨none, now⟩).1
              = [Event.Reset err, Event.PublishIdle f])) := by
  have hT := runVideoLoop_lastTalkTime src hist _ s tr hrun
  simp only [VideoLoop.init] at hT
  rw [← hT]
  constructor
  · intro hlt
    simp [videoTick, hlt]
  · intro hge idle0 idle1 f hreset hsame hnf
    by_cases htalk : s.lastState = AvatarState.StateTalking
    · obtain ⟨err, hr⟩ := hreset htalk
      exact ⟨{ waitingForKeyframe := true, lastState := AvatarState.StateIdle,
               lastTalkTime := s.lastTalkTime, currentState := AvatarState.StateIdle,
               idleVideoSource := idle1 },
        by simp [videoTick, publishIdle, not_lt.mpr hge, htalk, hr, hnf], rfl,
        Or.inr ⟨err, by simp [videoTick, publishIdle, not_lt.mpr hge, htalk, hr, hnf]⟩⟩
    · have hi := hsame htalk
      subst hi
      exact ⟨{ s with idleVideoSource := idle1 },
        by simp [videoTick, publishIdle, not_lt.mpr hge, htalk, hnf], rfl,
        Or.inl (by simp [videoTick, publishIdle, not_lt.mpr hge, htalk, hnf])⟩

/-- Two instances of C10 as amended: 40 ms after a discarded talking frame the tick is
held; 80 ms after a published keyframe the loop resets the idle source and publishes its
first frame. -/
theorem antiFlicker_hold_witness :
    videoTick loopReaderSource
        ⟨true, AvatarState.StateTalking, 0, AvatarState.StateTalking, newReader [[0]] true⟩
        ⟨none, 40000000⟩
      = ([], Go.ret ⟨true, AvatarState.StateTalking, 0, AvatarState.StateTalking,
          newReader [[0]] true⟩) ∧
    ∃ s1, (videoTick loopReaderSource
          ⟨false, AvatarState.StateTalking, 0, AvatarState.StateTalking, newReader [[0]] true⟩
          ⟨none, 80000000⟩).2 = Go.ret s1 ∧
      s1.idleVideoSource = ⟨[[0]], some 1, true, true⟩ ∧
      ((videoTick loopReaderSource
          ⟨false, AvatarState.StateTalking, 0, AvatarState.StateTalking, newReader [[0]] true⟩
          ⟨none, 80000000⟩).1 = [Event.PublishIdle ⟨[0], 40, true, 1⟩] ∨
        ∃ err, (videoTick loopReaderSource
          ⟨false, AvatarState.StateTalking, 0, AvatarState.StateTalking, newReader [[0]] true⟩
          ⟨none, 80000000⟩).1 = [Event.Reset err, Event.PublishIdle ⟨[0], 40, true, 1⟩]) :=
  ⟨(antiFlicker_hold loopReaderSource 0 (newReader [[0]] true)
      [⟨some ⟨[1], 40, false, 1⟩, 0⟩] [[]]
      ⟨true, AvatarState.StateTalking, 0, AvatarState.StateTalking, newReader [[0]] true⟩
      40000000 (by decide)).1 (by decide),
   (antiFlicker_hold loopReaderSource 0 (newReader [[0]] true)
      [⟨some ⟨[2], 40, true, 1⟩, 0⟩] [[Event.PublishTalking ⟨[2], 40, true, 1⟩]]
      ⟨false, AvatarState.StateTalking, 0, AvatarState.StateTalking, newReader [[0]] true⟩
      80000000 (by decide)).2 (by decide)
      (newReader [[0]] true) ⟨[[0]], some 1, true, true⟩ ⟨[0], 40, true, 1⟩
      (fun _ => ⟨none, rfl⟩) (fun h => absurd rfl h) rfl⟩

end VideoLoop

/-! ## One frame per tick, the audio loop, and the state of the video loop -/

section Pacer

open usecase file

variable {σ : Type}

/-- A video tick calls `Publish` at most once. -/
theorem videoTick_publish_le_one (src : ResettableFrameSource σ) (s : VideoLoop σ)
    (t : Tick) : ((videoTick src s t).1.filter Event.isPublish).length ≤ 1 := by
  obtain ⟨talk, now⟩ := t
  cases talk with
  | some f =>
    by_cases hi : s.lastState = AvatarState.StateIdle <;>
      cases hw : s.waitingForKeyframe <;> cases hk : f.IsKey <;>
      simp [videoTick, hi, hw, hk, Event.isPublish]
  | none =>
    simp only [videoTick]
    split
    · simp
    · split
      · cases hreset : src.Reset s.idleVideoSource with
        | panic => simp
        | ret res =>
          obtain ⟨err, idle1⟩ := res
          simp only
          rcases (publishIdle_spec src
            { s with lastState := AvatarState.StateIdle, currentState := AvatarState.StateIdle,
                     waitingForKeyframe := true, idleVideoSource := idle1 }).2
            with hev | ⟨g, hev⟩ <;> simp [hev, Event.isPublish]
      · rcases (publishIdle_spec src s).2 with hev | ⟨g, hev⟩ <;> simp [hev, Event.isPublish]

/-- C11. One frame per tick: for every state of the pacers, every idle source and every
content of the talking buffers, a video tick and an audio tick each call `Publish` at most
once, and each leaves its talking buffer as it was or without its head frame. -/
theorem one_frame_per_tick (src : ResettableFrameSource σ) (s : VideoLoop σ)
    (talkingVideoCh : List MediaFrame) (now : Int) (idleAudioSource : Option σ)
    (talkingAudioCh : List MediaFrame) :
    (((videoTickCh src s talkingVideoCh now).1.1.filter Event.isPublish).length ≤ 1 ∧
      ((videoTickCh src s talkingVideoCh now).2 = talkingVideoCh ∨
        ∃ f, talkingVideoCh = f :: (videoTickCh src s talkingVideoCh now).2)) ∧
    ((audioTick src idleAudioSource talkingAudioCh).1.1.length ≤ 1 ∧
      ((audioTick src idleAudioSource talkingAudioCh).2 = talkingAudioCh ∨
        ∃ f, talkingAudioCh = f :: (audioTick src idleAudioSource talkingAudioCh).2)) := by
  constructor
  · cases talkingVideoCh with
    | nil => exact ⟨videoTick_publish_le_one src s _, Or.inl rfl⟩
    | cons f rest => exact ⟨videoTick_publish_le_one src s _, Or.inr ⟨f, rfl⟩⟩
  · cases talkingAudioCh with
    | cons f rest => exact ⟨by simp [audioTick], Or.inr ⟨f, rfl⟩⟩
    | nil =>
      cases idleAudioSource with
      | none => exact ⟨by simp [audioTick], Or.inl rfl⟩
      | some idle =>
        simp only [audioTick]
        cases hnf : src.NextFrame idle with
        | panic => simp
        | ret res =>
          obtain ⟨⟨frame, err⟩, idle1⟩ := res
          cases err <;> simp

/-- C12. Audio pacer priority. If the talking-audio buffer is non-empty, its head frame is
published and removed and the idle audio source is not touched. If it is empty and the
idle source, which is attached, returns a frame without error, that frame is published.
If the idle source returns an error, nothing is published and the tick ends normally with
the source as the call left it, so that the loop goes on to the next tick. -/
theorem audio_priority (src : ResettableFrameSource σ) (idle idle1 : σ)
    (idleAudioSource : Option σ) (f : MediaFrame) (rest : List MediaFrame)
    (frame : Option MediaFrame) (err : Option Err)
    (hnf : src.NextFrame idle = Go.ret ((frame, err), idle1)) :
    audioTick src idleAudioSource (f :: rest)
      = (([some f], Go.ret idleAudioSource), rest) ∧
    (err = none → audioTick src (some idle) [] = (([frame], Go.ret (some idle1)), [])) ∧
    (err ≠ none → audioTick src (some idle) [] = (([], Go.ret (some idle1)), [])) := by
  refine ⟨rfl, ?_, ?_⟩
  · intro he
    subst he
    simp [audioTick, hnf]
  · intro he
    cases err with
    | none => exact absurd rfl he
    | some e => simp [audioTick, hnf]

/-- C13 at its failing input: from the initial state, which is Idle, a tick that obtains a
talking frame that is no keyframe publishes nothing, and yet `lastState` and
`currentState` are Talking after it. A tick 80 ms later that finds no talking frame then
takes the branch "Talking finished": it resets the idle source and goes back to Idle,
though no talking frame was published in between. -/
theorem talking_state_without_keyframe :
    (VideoLoop.init 0 (newReader [[0]] true)).lastState = AvatarState.StateIdle ∧
    (VideoLoop.init 0 (newReader [[0]] true)).currentState = AvatarState.StateIdle ∧
    videoTick loopReaderSource (VideoLoop.init 0 (newReader [[0]] true))
        ⟨some ⟨[1], 40, false, 1⟩, 0⟩
      = ([], Go.ret ⟨true, AvatarState.StateTalking, 0, AvatarState.StateTalking,
          newReader [[0]] true⟩) ∧
    runVideoLoop loopReaderSource (VideoLoop.init 0 (newReader [[0]] true))
        [⟨some ⟨[1], 40, false, 1⟩, 0⟩, ⟨none, 80 * Millisecond⟩]
      = ([[], [Event.Reset none, Event.PublishIdle ⟨[0], 40, true, 1⟩]],
          Go.ret ⟨true, AvatarState.StateIdle, 0, AvatarState.StateIdle,
            ⟨[[0]], some 1, true, true⟩⟩) := by
  decide

/-- What a tick does to the state in the code as it is: after a tick that obtains a talking
frame `lastState` and `currentState` are Talking, whether the frame is published or
discarded, and a tick that obtains none does not turn either of them into Talking. A tick
that discards a frame that is no keyframe while the gate is closed publishes nothing and
leaves the gate closed. -/
theorem talking_state_on_obtain (src : ResettableFrameSource σ) (s s1 : VideoLoop σ)
    (t : Tick) (h : (videoTick src s t).2 = Go.ret s1) :
    (t.talk.isSome = true →
      s1.lastState = AvatarState.StateTalking ∧ s1.currentState = AvatarState.StateTalking) ∧
    (t.talk = none →
      (s1.lastState = AvatarState.StateTalking → s.lastState = AvatarState.StateTalking) ∧
      (s1.currentState = AvatarState.StateTalking →
        s.currentState = AvatarState.StateTalking)) ∧
    (∀ f, t.talk = some f → s.armed → f.IsKey = false →
      (videoTick src s t).1 = [] ∧ s1.waitingForKeyframe = true) := by
  obtain ⟨talk, now⟩ := t
  cases talk with
  | some f =>
    refine ⟨fun _ => ?_, fun hn => (by cases hn), fun g hg harm hk => ?_⟩
    · by_cases hi : s.lastState = AvatarState.StateIdle <;>
        cases hw : s.waitingForKeyframe <;> cases hk : f.IsKey <;>
        simp [videoTick, hi, hw, hk] at h <;> subst h <;> exact ⟨rfl, rfl⟩
    · simp only [Option.some.injEq] at hg
      subst hg
      have hv := videoTick_discard src s f now harm hk
      rw [hv] at h ⊢
      simp only [Go.ret.injEq] at h
      subst h
      exact ⟨rfl, rfl⟩
  | none =>
    refine ⟨fun hs => (by cases hs), fun _ => ?_, fun g hg => (by cases hg)⟩
    simp only [videoTick] at h
    split at h
    · simp only [Go.ret.injEq] at h
      subst h
      exact ⟨id, id⟩
    · split at h
      · cases hreset : src.Reset s.idleVideoSource with
        | panic => simp [hreset] at h
        | ret res =>
          obtain ⟨err, idle1⟩ := res
          simp only [hreset] at h
          obtain ⟨-, hl, -, hc⟩ := (publishIdle_spec src _).1 s1 h
          simp only at hl hc
          constructor
          · intro hx; rw [hl] at hx; cases hx
          · intro hx; rw [hc] at hx; cases hx
      · obtain ⟨-, hl, -, hc⟩ := (publishIdle_spec src s).1 s1 h
        exact ⟨fun hx => hl ▸ hx, fun hx => hc ▸ hx⟩

/-- Three audio ticks as in C12: a queued talking frame, an idle page, a failing idle
source (its file is closed). -/
theorem audio_priority_witness :
    (audioTick oggLoopReaderSource (some (NewOggLoopReader [[7], [8]]))
        (⟨[5], 20, true, 2⟩ :: [⟨[6], 20, true, 2⟩])
      = (([some ⟨[5], 20, true, 2⟩], Go.ret (some (NewOggLoopReader [[7], [8]]))),
          [⟨[6], 20, true, 2⟩]) ∧
      audioTick oggLoopReaderSource (some (NewOggLoopReader [[7], [8]])) []
        = (([some ⟨[7], 20, true, 2⟩], Go.ret (some ⟨[[7], [8]], some 1, true⟩)), [])) ∧
    audioTick oggLoopReaderSource (some ⟨[[7], [8]], some 1, false⟩) []
      = (([], Go.ret (some ⟨[[7], [8]], some 1, false⟩)), []) :=
  ⟨⟨(audio_priority oggLoopReaderSource (NewOggLoopReader [[7], [8]])
        ⟨[[7], [8]], some 1, true⟩ (some (NewOggLoopReader [[7], [8]]))
        ⟨[5], 20, true, 2⟩ [⟨[6], 20, true, 2⟩] (some ⟨[7], 20, true, 2⟩) none rfl).1,
     (audio_priority oggLoopReaderSource (NewOggLoopReader [[7], [8]])
        ⟨[[7], [8]], some 1, true⟩ (some (NewOggLoopReader [[7], [8]]))
        ⟨[5], 20, true, 2⟩ [⟨[6], 20, true, 2⟩] (some ⟨[7], 20, true, 2⟩) none rfl).2.1 rfl⟩,
   (audio_priority oggLoopReaderSource ⟨[[7], [8]], some 1, false⟩
      ⟨[[7], [8]], some 1, false⟩ none ⟨[5], 20, true, 2⟩ [] none (some Err.ErrClosed)
      rfl).2.2 (by decide)⟩

/-- Two ticks of the code as it is: from the initial state a discarded non-keyframe sets
the state to Talking and leaves the gate closed; a tick without a talking frame leaves an
Idle state Idle. -/
theorem talking_state_on_obtain_witness :
    ((⟨true, AvatarState.StateTalking, 0, AvatarState.StateTalking,
          newReader [[0]] true⟩ : VideoLoop LoopReader).lastState = AvatarState.StateTalking ∧
      (⟨true, AvatarState.StateTalking, 0, AvatarState.StateTalking,
          newReader [[0]] true⟩ : VideoLoop LoopReader).currentState
        = AvatarState.StateTalking) ∧
    ((videoTick loopReaderSource (VideoLoop.init 0 (newReader [[0]] true))
          ⟨some ⟨[1], 40, false, 1⟩, 0⟩).1 = [] ∧
      (⟨true, AvatarState.StateTalking, 0, AvatarState.StateTalking,
          newReader [[0]] true⟩ : VideoLoop LoopReader).waitingForKeyframe = true) ∧
    (((⟨true, AvatarState.StateIdle, -36000000000000, AvatarState.StateIdle,
          ⟨[[0]], some 1, true, true⟩⟩ : VideoLoop LoopReader).lastState
        = AvatarState.StateTalking →
      (VideoLoop.init 0 (newReader [[0]] true)).lastState = AvatarState.StateTalking) ∧
     ((⟨true, AvatarState.StateIdle, -36000000000000, AvatarState.StateIdle,
          ⟨[[0]], some 1, true, true⟩⟩ : VideoLoop LoopReader).currentState
        = AvatarState.StateTalking →
      (VideoLoop.init 0 (newReader [[0]] true)).currentState = AvatarState.StateTalking)) :=
  ⟨(talking_state_on_obtain loopReaderSource (VideoLoop.init 0 (newReader [[0]] true))
      ⟨true, AvatarState.StateTalking, 0, AvatarState.StateTalking, newReader [[0]] true⟩
      ⟨some ⟨[1], 40, false, 1⟩, 0⟩ (by decide)).1 rfl,
   (talking_state_on_obtain loopReaderSource (VideoLoop.init 0 (newReader [[0]] true))
      ⟨true, AvatarState.StateTalking, 0, AvatarState.StateTalking, newReader [[0]] true⟩
      ⟨some ⟨[1], 40, false, 1⟩, 0⟩ (by decide)).2.2 ⟨[1], 40, false, 1⟩ rfl
      (Or.inl rfl) rfl,
   (talking_state_on_obtain loopReaderSource (VideoLoop.init 0 (newReader [[0]] true))
      ⟨true, AvatarState.StateIdle, -36000000000000, AvatarState.StateIdle,
        ⟨[[0]], some 1, true, true⟩⟩
      ⟨none, 0⟩ (by decide)).2.1 rfl⟩

end Pacer

/-! ## The broadcaster -/

section Broadcaster

open infrastructure protocol

/-- The fan-out loop over distinct channels none of which is closed: it ends normally, on
each channel of the loop the packet is queued if there is room and the channel is left as
it is if there is none, and every other channel is left as it is. -/
theorem fanOutLoop_spec (pkt : Packet) (ids : List Nat) (chans : List (Chan Packet))
    (hnd : ids.Nodup)
    (hopen : ∀ id ∈ ids, ∀ c, chans[id]? = some c → c.closed = false) :
    ∃ chans1, fanOutLoop pkt ids chans = Go.ret chans1 ∧
      ∀ j, chans1[j]? =
        if j ∈ ids then
          (chans[j]?).map
            (fun c => if c.buf.length < c.cap then { c with buf := c.buf ++ [pkt] } else c)
        else chans[j]? := by
  induction ids generalizing chans with
  | nil => exact ⟨chans, rfl, fun j => by simp⟩
  | cons id rest ih =>
    have hnd1 : rest.Nodup := (List.nodup_cons.mp hnd).2
    have hid : id ∉ rest := (List.nodup_cons.mp hnd).1
    cases hc : chans[id]? with
    | none =>
      obtain ⟨chans1, hrun, hspec⟩ := ih chans hnd1
        (fun i hi c h => hopen i (List.mem_cons_of_mem _ hi) c h)
      refine ⟨chans1, by simp only [fanOutLoop, hc, hrun], fun j => ?_⟩
      rw [hspec j]
      by_cases hj : j = id
      · subst hj
        simp [hid, hc]
      · simp [hj]
    | some c =>
      have hcl : c.closed = false := hopen id (List.mem_cons_self _ _) c hc
      have hlt : id < chans.length := by
        rcases Nat.lt_or_ge id chans.length with h | h
        · exact h
        · rw [List.getElem?_eq_none h] at hc; cases hc
      have hsend : c.trySend pkt
          = Go.ret (if c.buf.length < c.cap then { c with buf := c.buf ++ [pkt] } else c) := by
        simp only [Chan.trySend, hcl, Bool.false_eq_true, if_false]
        split <;> rfl
      obtain ⟨chans1, hrun, hspec⟩ := ih
        (chans.set id (if c.buf.length < c.cap then { c with buf := c.buf ++ [pkt] } else c))
        hnd1
        (fun i hi c1 h => by
          have hne : id ≠ i := fun he => hid (he ▸ hi)
          rw [List.getElem?_set_ne hne] at h
          exact hopen i (List.mem_cons_of_mem _ hi) c1 h)
      refine ⟨chans1, by simp only [fanOutLoop, hc, hsend, hrun], fun j => ?_⟩
      rw [hspec j]
      by_cases hj : j = id
      · subst hj
        simp [hid, hc, List.getElem?_set, hlt]
      · have hne : id ≠ j := fun he => hj he.symm
        simp [hj, List.getElem?_set_ne hne]

/-- A registered channel of a well-formed broadcaster lies inside the heap. -/
theorem WF_lt (b : UDSBroadcaster) (hwf : b.WF) (ch : Nat) (h : ch ∈ b.listeners) :
    ch < b.chans.length := by
  obtain ⟨c, hc, -⟩ := hwf.2 ch h
  rcases Nat.lt_or_ge ch b.chans.length with hlt | hge
  · exact hlt
  · rw [List.getElem?_eq_none hge] at hc; cases hc

theorem WF_New : NewUDSBroadcaster.WF :=
  ⟨List.nodup_nil, fun ch h => by cases h⟩

/-- The fan-out step on a well-formed broadcaster. -/
theorem fanOut_spec (b : UDSBroadcaster) (pkt : Packet) (hwf : b.WF) :
    ∃ b1, fanOut b pkt = Go.ret b1 ∧ b1.listeners = b.listeners ∧
      b1.activeConn = b.activeConn ∧
      (∀ j, b1.chans[j]? =
        if j ∈ b.listeners then
          (b.chans[j]?).map
            (fun c => if c.buf.length < c.cap then { c with buf := c.buf ++ [pkt] } else c)
        else b.chans[j]?) ∧
      b1.WF := by
  obtain ⟨chans1, hrun, hspec⟩ := fanOutLoop_spec pkt b.listeners b.chans hwf.1
    (fun id hid c hc => by
      obtain ⟨c1, hc1, hcl, -⟩ := hwf.2 id hid
      rw [hc1] at hc
      cases hc
      exact hcl)
  refine ⟨{ b with chans := chans1 }, by simp only [fanOut, hrun], rfl, rfl, hspec, hwf.1, ?_⟩
  intro ch hch
  obtain ⟨c, hc, hcl, hcap, hlen⟩ := hwf.2 ch hch
  refine ⟨if c.buf.length < c.cap then { c with buf := c.buf ++ [pkt] } else c, ?_, ?_, ?_, ?_⟩
  · show chans1[ch]? = _
    rw [hspec ch, if_pos hch, hc]; rfl
  · split <;> exact hcl
  · split <;> exact hcap
  · split
    · rename_i hlt
      simp only [List.length_append, List.length_singleton]
      omega
    · exact hlen

/-- C14. Fan-out with drop-if-full, on a broadcaster whose registered queues are the open
queues of capacity 100 that `Subscribe` made: for every packet the fan-out step ends
normally; it appends the packet at the tail of every registered queue that holds fewer
than 100 packets, leaves every registered queue that holds 100 packets exactly as it is,
and touches neither a queue that is not registered, nor the subscriber set, nor the
active connection. -/
theorem fanOut_drop_if_full (b : UDSBroadcaster) (pkt : Packet) (hwf : b.WF) :
    ∃ b1, fanOut b pkt = Go.ret b1 ∧ b1.listeners = b.listeners ∧
      b1.activeConn = b.activeConn ∧
      (∀ ch ∈ b.listeners, ∀ c, b.chans[ch]? = some c →
        (c.buf.length < 100 → b1.chans[ch]? = some { c with buf := c.buf ++ [pkt] }) ∧
        (c.buf.length = 100 → b1.chans[ch]? = some c)) ∧
      (∀ ch, ch ∉ b.listeners → b1.chans[ch]? = b.chans[ch]?) := by
  obtain ⟨b1, hrun, hl, ha, hspec, -⟩ := fanOut_spec b pkt hwf
  refine ⟨b1, hrun, hl, ha, ?_, ?_⟩
  · intro ch hch c hc
    obtain ⟨c1, hc1, -, hcap, -⟩ := hwf.2 ch hch
    rw [hc] at hc1
    cases hc1
    constructor
    · intro hlt
      rw [hspec ch, if_pos hch, hc]
      simp [hcap, hlt]
    · intro heq
      rw [hspec ch, if_pos hch, hc]
      simp [hcap, heq]
  · intro ch hch
    rw [hspec ch, if_neg hch]

/-- An instance of C14: one queue that is full and one that is empty. -/
theorem fanOut_drop_if_full_witness :
    ∃ b1, fanOut ⟨[⟨List.replicate 100 ⟨1, [0]⟩, 100, false⟩, ⟨[], 100, false⟩], [0, 1], none⟩
        ⟨2, [7]⟩ = Go.ret b1 ∧
      b1.listeners = [0, 1] ∧ b1.activeConn = none ∧
      (∀ ch ∈ [0, 1], ∀ c,
        [(⟨List.replicate 100 ⟨1, [0]⟩, 100, false⟩ : Chan Packet), ⟨[], 100, false⟩][ch]?
          = some c →
        (c.buf.length < 100 → b1.chans[ch]? = some { c with buf := c.buf ++ [⟨2, [7]⟩] }) ∧
        (c.buf.length = 100 → b1.chans[ch]? = some c)) ∧
      (∀ ch, ch ∉ [0, 1] → b1.chans[ch]?
        = [(⟨List.replicate 100 ⟨1, [0]⟩, 100, false⟩ : Chan Packet), ⟨[], 100, false⟩][ch]?) :=
  fanOut_drop_if_full
    ⟨[⟨List.replicate 100 ⟨1, [0]⟩, 100, false⟩, ⟨[], 100, false⟩], [0, 1], none⟩ ⟨2, [7]⟩
    ⟨by decide, fun ch h => by
      simp only [List.mem_cons, List.mem_singleton, List.not_mem_nil, or_false] at h
      rcases h with rfl | rfl
      · exact ⟨_, rfl, rfl, rfl, by simp⟩
      · exact ⟨_, rfl, rfl, rfl, by simp⟩⟩

/-- C15. `SendToWorker`, for every type and payload. Without an active connection it
returns an error (`io.ErrClosedPipe`) and leaves the broadcaster as it is. With an active
connection it returns what `WritePacket` returns on the connection, whose written stream is
afterwards what `WritePacket` left there: for a connection that accepts every write, the
bytes written before followed by the type byte, the big-endian length and the payload. The
connection stays the active one with its identity and its read stream, and the subscriber
set and the queues are left as they are. -/
theorem SendToWorker_spec (b : UDSBroadcaster) (pktType : Byte) (payload : List Byte)
    (conn : Conn) (out0 : List Byte) :
    (b.activeConn = none → SendToWorker b pktType payload = (some Err.ErrClosedPipe, b)) ∧
    (b.activeConn = some conn →
      (SendToWorker b pktType payload).1 = (WritePacket conn.wr pktType payload).1 ∧
      (SendToWorker b pktType payload).2.activeConn
        = some { id := conn.id, rd := conn.rd, wr := (WritePacket conn.wr pktType payload).2 } ∧
      (SendToWorker b pktType payload).2.listeners = b.listeners ∧
      (SendToWorker b pktType payload).2.chans = b.chans ∧
      (conn.wr = ⟨out0, []⟩ →
        SendToWorker b pktType payload =
          (none, { b with activeConn := some ⟨conn.id, conn.rd,
            ⟨out0 ++ pktType :: PutUint32 (payload.length % 4294967296) ++ payload, []⟩⟩ }))) := by
  constructor
  · intro hnone
    simp only [SendToWorker, hnone]
  · intro hsome
    refine ⟨by simp only [SendToWorker, hsome], by simp only [SendToWorker, hsome],
      by simp only [SendToWorker, hsome], by simp only [SendToWorker, hsome], ?_⟩
    intro hwr
    simp only [SendToWorker, hsome, hwr, WritePacket_ok]

theorem SendToWorker_spec_witness :
    SendToWorker NewUDSBroadcaster 3 [104, 105] = (some Err.ErrClosedPipe, NewUDSBroadcaster) ∧
    SendToWorker ⟨[], [], some ⟨1, ⟨[], Err.EOF⟩, ⟨[9], []⟩⟩⟩ 3 [104, 105] =
      (none, ⟨[], [], some ⟨1, ⟨[], Err.EOF⟩,
        ⟨[9] ++ 3 :: PutUint32 (([104, 105] : List Byte).length % 4294967296) ++ [104, 105],
          []⟩⟩⟩) :=
  ⟨(SendToWorker_spec NewUDSBroadcaster 3 [104, 105] ⟨1, ⟨[], Err.EOF⟩, ⟨[9], []⟩⟩ [9]).1 rfl,
   ((SendToWorker_spec ⟨[], [], some ⟨1, ⟨[], Err.EOF⟩, ⟨[9], []⟩⟩⟩ 3 [104, 105]
      ⟨1, ⟨[], Err.EOF⟩, ⟨[9], []⟩⟩ [9]).2 rfl).2.2.2.2 rfl⟩

/-- `Subscribe` keeps a broadcaster well-formed and registers a fresh channel. -/
theorem Subscribe_spec (b : UDSBroadcaster) (hwf : b.WF) :
    (Subscribe b).1 ∉ b.listeners ∧
    (Subscribe b).2.listeners = (Subscribe b).1 :: b.listeners ∧
    (Subscribe b).2.chans[(Subscribe b).1]? = some ⟨[], 100, false⟩ ∧
    (∀ j, j ≠ (Subscribe b).1 → (Subscribe b).2.chans[j]? = b.chans[j]?) ∧
    (Subscribe b).2.activeConn = b.activeConn ∧
    (Subscribe b).2.WF := by
  have hfresh : b.chans.length ∉ b.listeners := fun h =>
    Nat.lt_irrefl _ (WF_lt b hwf _ h)
  have hnew : (b.chans ++ [(⟨[], 100, false⟩ : Chan Packet)])[b.chans.length]?
      = some ⟨[], 100, false⟩ := by
    rw [List.getElem?_append_right (Nat.le_refl _)]; simp
  have hold : ∀ j, j ≠ b.chans.length →
      (b.chans ++ [(⟨[], 100, false⟩ : Chan Packet)])[j]? = b.chans[j]? := by
    intro j hj
    rcases Nat.lt_or_ge j b.chans.length with hlt | hge
    · exact List.getElem?_append_left hlt
    · rw [List.getElem?_eq_none hge, List.getElem?_eq_none]
      simp only [List.length_append, List.length_singleton]
      omega
  have hins : b.listeners.insert b.chans.length = b.chans.length :: b.listeners :=
    List.insert_of_not_mem hfresh
  refine ⟨hfresh, hins, hnew, hold, rfl, ?_, ?_⟩
  · show (b.listeners.insert b.chans.length).Nodup
    rw [hins]
    exact List.nodup_cons.mpr ⟨hfresh, hwf.1⟩
  · intro ch hch
    have hch1 : ch ∈ b.chans.length :: b.listeners := hins ▸ hch
    rcases List.mem_cons.mp hch1 with rfl | hmem
    · exact ⟨_, hnew, rfl, rfl, by simp⟩
    · obtain ⟨c, hc, hrest⟩ := hwf.2 ch hmem
      exact ⟨c, (hold ch (fun he => hfresh (he ▸ hmem))).trans hc, hrest⟩

/-- `Unsubscribe` of a registered channel ends normally, removes the channel from the set
and closes it, and keeps the broadcaster well-formed. -/
theorem Unsubscribe_spec (b : UDSBroadcaster) (ch : Nat) (hwf : b.WF)
    (hreg : ch ∈ b.listeners) :
    ∃ b1 c, Unsubscribe b ch = Go.ret b1 ∧ b.chans[ch]? = some c ∧ c.closed = false ∧
      ch ∉ b1.listeners ∧ (∀ j, j ≠ ch → (j ∈ b1.listeners ↔ j ∈ b.listeners)) ∧
      b1.chans[ch]? = some { c with closed := true } ∧
      (∀ j, j ≠ ch → b1.chans[j]? = b.chans[j]?) ∧
      b1.activeConn = b.activeConn ∧ b1.WF := by
  obtain ⟨c, hc, hcl, -⟩ := hwf.2 ch hreg
  have hlt := WF_lt b hwf ch hreg
  refine ⟨{ b with listeners := b.listeners.erase ch,
                   chans := b.chans.set ch ⟨c.buf, c.cap, true⟩ }, c, ?_, hc, hcl,
    ?_, ?_, ?_, ?_, rfl, ?_, ?_⟩
  · simp only [Unsubscribe, hc, Chan.close, hcl, Bool.false_eq_true, if_false]
  · exact fun h => ((List.Nodup.mem_erase_iff hwf.1).mp h).1 rfl
  · intro j hj
    exact ⟨fun h => List.mem_of_mem_erase h,
      fun h => (List.Nodup.mem_erase_iff hwf.1).mpr ⟨hj, h⟩⟩
  · show (b.chans.set ch _)[ch]? = _
    simp [List.getElem?_set, hlt]
  · intro j hj
    exact List.getElem?_set_ne (fun he => hj he.symm)
  · exact hwf.1.erase ch
  · intro j hj
    have hmem := (List.Nodup.mem_erase_iff hwf.1).mp hj
    obtain ⟨c1, hc1, hrest⟩ := hwf.2 j hmem.2
    exact ⟨c1, (List.getElem?_set_ne (fun he => hmem.1 he.symm)).trans hc1, hrest⟩

/-- A sequence of operations in which every `Unsubscribe` names a registered channel ends
normally in a well-formed broadcaster. -/
theorem runOps_WF (ops : List Op) (b : UDSBroadcaster) (hwf : b.WF)
    (hops : opsRegistered b ops = true) : ∃ b1, runOps b ops = Go.ret b1 ∧ b1.WF := by
  induction ops generalizing b with
  | nil => exact ⟨b, rfl, hwf⟩
  | cons op rest ih =>
    simp only [opsRegistered, Bool.and_eq_true] at hops
    have hstep : ∃ b1, step b op = Go.ret b1 ∧ b1.WF := by
      cases op with
      | subscribe => exact ⟨_, rfl, (Subscribe_spec b hwf).2.2.2.2.2⟩
      | unsubscribe ch =>
        have hreg : ch ∈ b.listeners := by simpa using hops.1
        obtain ⟨b1, c, hrun, -, -, -, -, -, -, -, hwf1⟩ := Unsubscribe_spec b ch hwf hreg
        exact ⟨b1, hrun, hwf1⟩
      | fanOut pkt =>
        obtain ⟨b1, hrun, -, -, -, hwf1⟩ := fanOut_spec b pkt hwf
        exact ⟨b1, hrun, hwf1⟩
    obtain ⟨b1, hrun, hwf1⟩ := hstep
    have hops2 := hops.2
    rw [hrun] at hops2
    obtain ⟨b2, hrun2, hwf2⟩ := ih b1 hwf1 hops2
    exact ⟨b2, by simp only [runOps, hrun, hrun2], hwf2⟩

/-- C16. `Subscribe` and `Unsubscribe` keep the subscriber set free of closed queues. On a
broadcaster whose registered queues are distinct, open and of capacity 100, which the new
broadcaster with no subscriber is: `Subscribe` registers one new queue, empty, open and of
capacity 100, and leaves every other queue as it is; `Unsubscribe` of a registered queue
ends normally, removes that queue from the set and closes it, and leaves every other
queue and the rest of the set as they are; and every sequence of `Subscribe`,
`Unsubscribe` of a queue registered at that moment and fan-out steps, from such a
broadcaster and so from the new one, ends normally (no send on a closed queue, which would
panic) in a broadcaster whose registered queues are again distinct, all open and of
capacity 100. -/
theorem subscriber_set_open (b : UDSBroadcaster) (ch : Nat) (ops : List Op) (hwf : b.WF) :
    ((Subscribe b).1 ∉ b.listeners ∧
      (Subscribe b).2.listeners = (Subscribe b).1 :: b.listeners ∧
      (Subscribe b).2.chans[(Subscribe b).1]? = some ⟨[], 100, false⟩ ∧
      (∀ j, j ≠ (Subscribe b).1 → (Subscribe b).2.chans[j]? = b.chans[j]?) ∧
      (Subscribe b).2.WF) ∧
    (ch ∈ b.listeners →
      ∃ b1 c, Unsubscribe b ch = Go.ret b1 ∧ b.chans[ch]? = some c ∧ c.closed = false ∧
        ch ∉ b1.listeners ∧ (∀ j, j ≠ ch → (j ∈ b1.listeners ↔ j ∈ b.listeners)) ∧
        b1.chans[ch]? = some { c with closed := true } ∧
        (∀ j, j ≠ ch → b1.chans[j]? = b.chans[j]?) ∧ b1.WF) ∧
    (opsRegistered b ops = true →
      ∃ b2, runOps b ops = Go.ret b2 ∧ b2.WF ∧
        ∀ j ∈ b2.listeners, ∃ c, b2.chans[j]? = some c ∧ c.closed = false) ∧
    NewUDSBroadcaster.WF ∧
    (opsRegistered NewUDSBroadcaster ops = true →
      ∃ b2, runOps NewUDSBroadcaster ops = Go.ret b2 ∧ b2.WF ∧
        ∀ j ∈ b2.listeners, ∃ c, b2.chans[j]? = some c ∧ c.closed = false) := by
  obtain ⟨h1, h2, h3, h4, -, h6⟩ := Subscribe_spec b hwf
  have hrun : ∀ b0 : UDSBroadcaster, b0.WF → opsRegistered b0 ops = true →
      ∃ b2, runOps b0 ops = Go.ret b2 ∧ b2.WF ∧
        ∀ j ∈ b2.listeners, ∃ c, b2.chans[j]? = some c ∧ c.closed = false := by
    intro b0 hwf0 hops
    obtain ⟨b2, hr, hwf2⟩ := runOps_WF ops b0 hwf0 hops
    refine ⟨b2, hr, hwf2, fun j hj => ?_⟩
    obtain ⟨c, hc, hcl, -⟩ := hwf2.2 j hj
    exact ⟨c, hc, hcl⟩
  refine ⟨⟨h1, h2, h3, h4, h6⟩, fun hreg => ?_, hrun b hwf, WF_New, hrun _ WF_New⟩
  obtain ⟨b1, c, g1, g2, g3, g4, g5, g6, g7, -, g9⟩ := Unsubscribe_spec b ch hwf hreg
  exact ⟨b1, c, g1, g2, g3, g4, g5, g6, g7, g9⟩

/-- An instance of C16 at the new broadcaster, which has no subscriber: the first
`Subscribe` registers queue 0, and the sequence in which two subscribe, a packet is fanned
out, the first one unsubscribes and another packet is fanned out ends normally with open
queues only; and at the broadcaster with that one subscriber, `Unsubscribe` of its queue
closes it and empties the set. -/
theorem subscriber_set_open_witness :
    ((Subscribe NewUDSBroadcaster).1 = 0 ∧
      (Subscribe NewUDSBroadcaster).2.listeners = [0] ∧
      (Subscribe NewUDSBroadcaster).2.chans[0]? = some ⟨[], 100, false⟩ ∧
      ∃ b2, runOps NewUDSBroadcaster
          [Op.subscribe, Op.subscribe, Op.fanOut ⟨1, [2]⟩, Op.unsubscribe 0,
            Op.fanOut ⟨1, [3]⟩] = Go.ret b2 ∧
        b2.WF ∧ ∀ j ∈ b2.listeners, ∃ c, b2.chans[j]? = some c ∧ c.closed = false) ∧
    ∃ b1 c, Unsubscribe (Subscribe NewUDSBroadcaster).2 0 = Go.ret b1 ∧
      (Subscribe NewUDSBroadcaster).2.chans[0]? = some c ∧ c.closed = false ∧
      0 ∉ b1.listeners ∧ b1.chans[0]? = some { c with closed := true } ∧ b1.WF := by
  have h0 := subscriber_set_open NewUDSBroadcaster 0
    [Op.subscribe, Op.subscribe, Op.fanOut ⟨1, [2]⟩, Op.unsubscribe 0, Op.fanOut ⟨1, [3]⟩]
    ⟨List.nodup_nil, fun ch h => by cases h⟩
  have h1 := subscriber_set_open (Subscribe NewUDSBroadcaster).2 0 [] h0.1.2.2.2.2
  obtain ⟨b1, c, g1, g2, g3, g4, -, g6, -, g8⟩ := h1.2.1 (by decide)
  exact ⟨⟨rfl, h0.1.2.1, h0.1.2.2.1, h0.2.2.1 (by decide)⟩, b1, c, g1, g2, g3, g4, g6, g8⟩

end Broadcaster

/-! ## The queue-backed source -/

section ChannelSource

open infrastructure uds

/-- `TryNextFrame` on a closed, drained queue. -/
theorem tryNextFrames_drained (m cap : Nat) (w : Bool) :
    tryNextFrames m ⟨⟨[], cap, true⟩, w⟩ = List.replicate m (none, false, none) := by
  induction m with
  | zero => rfl
  | succ m ih =>
    simp only [tryNextFrames, ChannelSource.TryNextFrame, Chan.recv, if_true,
      List.replicate_succ]
    exact congrArg _ ih

/-- `NextFrame` on a closed, drained queue. -/
theorem nextFrames_drained (m cap : Nat) (w : Bool) :
    nextFrames m ⟨⟨[], cap, true⟩, w⟩ = some (List.replicate m (none, none)) := by
  induction m with
  | zero => rfl
  | succ m ih =>
    simp only [nextFrames, ChannelSource.NextFrame, nextFrameLoop, if_true]
    rw [ih]
    rfl

/-- C18. Queue-backed frame metadata: for every packet, `processPacket` returns a frame,
with `hasData` set and no error; the frame has the payload and the type of the packet,
duration 20 if the type is Audio (2) and 40 otherwise, and it is a keyframe exactly when
the packet is of type Audio, or of type Video (1) with a non-empty payload whose first
byte is even (low-order bit 0). -/
theorem processPacket_metadata (pkt : Packet) :
    ∃ f, processPacket pkt = (some f, true, none) ∧
      f.Data = pkt.Payload ∧ f.Typ = pkt.Typ ∧
      f.Duration = (if pkt.Typ = 2 then 20 else 40) ∧
      (f.IsKey = true ↔
        (pkt.Typ = 2 ∨
          (pkt.Typ = 1 ∧ ∃ b rest, pkt.Payload = b :: rest ∧ b.val % 2 = 0))) := by
  refine ⟨_, rfl, rfl, rfl, rfl, ?_⟩
  obtain ⟨typ, payload⟩ := pkt
  simp only [protocol.PacketTypeAudio, protocol.PacketTypeVideo]
  by_cases h2 : typ = 2
  · simp [h2]
  · by_cases h1 : typ = 1
    · cases payload with
      | nil => simp [h1]
      | cons b rest => simp [h1, Nat.and_one_is_mod]
    · simp [h1, h2]

/-- C17. Queue closure is "no more data", not an error. On a source whose queue is closed
with the packets `pkts` still queued, the first calls of `TryNextFrame` return these
packets as frames, in order (each with `available` set and no error); every later call
returns no frame, `available = false` and no error. The calls of `NextFrame` never block:
they return the same frames in order without error, and then no frame and no error on
every later call. -/
theorem closed_queue_no_more_data (pkts : List Packet) (cap m : Nat) (w : Bool) :
    tryNextFrames (pkts.length + m) ⟨⟨pkts, cap, true⟩, w⟩
      = pkts.map processPacket ++ List.replicate m (none, false, none) ∧
    nextFrames (pkts.length + m) ⟨⟨pkts, cap, true⟩, w⟩
      = some (pkts.map (fun p => ((processPacket p).1, none)) ++
          List.replicate m (none, none)) ∧
    ∀ p ∈ pkts, ∃ f, processPacket p = (some f, true, none) ∧ f.Data = p.Payload ∧
      f.Typ = p.Typ := by
  refine ⟨?_, ?_, fun p _ => ⟨_, rfl, rfl, rfl⟩⟩
  · induction pkts with
    | nil => simpa using tryNextFrames_drained m cap w
    | cons p rest ih =>
      rw [List.length_cons, Nat.add_right_comm]
      simp only [tryNextFrames, ChannelSource.TryNextFrame, Chan.recv, List.map_cons,
        List.cons_append]
      exact congrArg _ ih
  · induction pkts with
    | nil => simpa using nextFrames_drained m cap w
    | cons p rest ih =>
      rw [List.length_cons, Nat.add_right_comm]
      simp only [nextFrames, ChannelSource.NextFrame, nextFrameLoop, processPacket,
        List.map_cons, List.cons_append]
      rw [ih]
      rfl

end ChannelSource

/-! ## The store-and-forward driver -/

section Worker

open worker protocol

/-- The scan over non-empty frames: either no frame has an even first byte and the scan
returns `-1`, or it returns the index of the first frame that has one. -/
theorem findKeyframe_spec (vb : List (List Byte)) (i : Nat) (hpay : ∀ f ∈ vb, f ≠ []) :
    (findKeyframe vb i = Go.ret (-1) ∧ ∀ f ∈ vb, (f.headD 0).val % 2 ≠ 0) ∨
    ∃ pre k rest, vb = pre ++ k :: rest ∧ (∀ f ∈ pre, (f.headD 0).val % 2 ≠ 0) ∧
      (k.headD 0).val % 2 = 0 ∧ findKeyframe vb i = Go.ret ((i + pre.length : Nat) : Int) := by
  induction vb generalizing i with
  | nil => exact Or.inl ⟨rfl, fun f h => by cases h⟩
  | cons frame rest ih =>
    cases hf : frame with
    | nil => exact absurd hf (hpay frame (List.mem_cons_self _ _))
    | cons b tl =>
      by_cases hkey : b.val % 2 = 0
      · refine Or.inr ⟨[], b :: tl, rest, rfl, fun f h => (by cases h), hkey, ?_⟩
        simp [findKeyframe, Nat.and_one_is_mod, hkey]
      · have hstep : findKeyframe ((b :: tl) :: rest) i = findKeyframe rest (i + 1) := by
          simp [findKeyframe, Nat.and_one_is_mod, hkey]
        rcases ih (i + 1) (fun f h => hpay f (List.mem_cons_of_mem _ h)) with
          ⟨hnone, hall⟩ | ⟨pre, k, rest1, hsplit, hpre, hk, hfound⟩
        · refine Or.inl ⟨hstep.trans hnone, fun f h => ?_⟩
          rcases List.mem_cons.mp h with rfl | h1
          · exact hkey
          · exact hall f h1
        · refine Or.inr ⟨(b :: tl) :: pre, k, rest1, by rw [hsplit]; rfl, fun f h => ?_, hk, ?_⟩
          · rcases List.mem_cons.mp h with rfl | h1
            · exact hkey
            · exact hpre f h1
          · rw [hstep, hfound]
            simp only [List.length_cons]
            congr 2
            omega

/-- C19. Store-and-forward keyframe alignment: for every non-empty buffered sequence of
non-empty frames the alignment ends normally and splits the sequence, in its order, into
the dropped frames `pre` and the playback buffer `suf`, which is not empty; the number of
dropped frames reported is the length of `pre`; no frame of `pre` has an even first byte;
and either `suf` starts with a frame whose first byte is even (low-order bit 0), or no
frame of the sequence has one and nothing is dropped. -/
theorem alignKeyframe_spec (videoBuffer : List (List Byte)) (hne : videoBuffer ≠ [])
    (hpay : ∀ f ∈ videoBuffer, f ≠ []) :
    ∃ pre suf, videoBuffer = pre ++ suf ∧ alignKeyframe videoBuffer = Go.ret (pre.length, suf) ∧
      suf ≠ [] ∧ (∀ f ∈ pre, (f.headD 0).val % 2 ≠ 0) ∧
      ((∃ k rest, suf = k :: rest ∧ (k.headD 0).val % 2 = 0) ∨
        (pre = [] ∧ ∀ f ∈ videoBuffer, (f.headD 0).val % 2 ≠ 0)) := by
  rcases findKeyframe_spec videoBuffer 0 hpay with
    ⟨hnone, hall⟩ | ⟨pre, k, rest, hsplit, hpre, hk, hfound⟩
  · refine ⟨[], videoBuffer, rfl, ?_, hne, fun f h => (by cases h), Or.inr ⟨rfl, hall⟩⟩
    simp [alignKeyframe, hnone]
  · refine ⟨pre, k :: rest, hsplit, ?_, by simp, hpre, Or.inl ⟨k, rest, rfl, hk⟩⟩
    have hneg : ((pre.length : Nat) : Int) ≠ -1 := by omega
    simp only [alignKeyframe, hfound, Nat.zero_add, if_neg hneg, Int.toNat_ofNat]
    rw [hsplit, List.drop_left]

/-- The scenario of C19: `[inter, inter, key, inter]` gives `[key, inter]`, 2 dropped. -/
theorem alignKeyframe_spec_witness :
    ∃ pre suf, ([[1, 7], [3], [2, 9], [5]] : List (List Byte)) = pre ++ suf ∧
      alignKeyframe [[1, 7], [3], [2, 9], [5]] = Go.ret (pre.length, suf) ∧
      suf ≠ [] ∧ (∀ f ∈ pre, (f.headD 0).val % 2 ≠ 0) ∧
      ((∃ k rest, suf = k :: rest ∧ (k.headD 0).val % 2 = 0) ∨
        (pre = [] ∧ ∀ f ∈ ([[1, 7], [3], [2, 9], [5]] : List (List Byte)),
          (f.headD 0).val % 2 ≠ 0)) :=
  alignKeyframe_spec [[1, 7], [3], [2, 9], [5]] (by decide) (by decide)

/-- The buffering loop collects every frame delivered before the error, whatever the error
is. -/
theorem bufferLoop_fst (fin : Err) (stream acc : List (List Byte)) :
    (bufferLoop fin stream acc).1 = acc ++ stream := by
  induction stream generalizing acc with
  | nil => simp only [bufferLoop]; split <;> simp
  | cons f rest ih => simp only [bufferLoop, ih, List.append_assoc, List.singleton_append]

/-- A tick of the playback loop that is not the last one brings the end nearer. -/
theorem ticksLeft_playbackTick (vb : List (List Byte)) (p : Playback)
    (h : ¬(p.audioDone = true ∧ vb.length ≤ p.videoIdx)) :
    ticksLeft vb.length (playbackTick vb p) < ticksLeft vb.length p := by
  obtain ⟨pages, ad, vi, tc, sent⟩ := p
  simp only at h
  rcases Nat.lt_or_ge vi vb.length with hlt | hge
  · have hget : vb[vi]? = some vb[vi] := List.getElem?_eq_getElem hlt
    cases ad <;> cases pages <;> rcases Nat.mod_two_eq_zero_or_one tc with hpar | hpar <;>
      simp [ticksLeft, playbackTick, hget, hpar] <;> split_ifs <;> omega
  · have hget : vb[vi]? = none := List.getElem?_eq_none hge
    cases ad
    · cases pages <;> rcases Nat.mod_two_eq_zero_or_one tc with hpar | hpar <;>
        simp [ticksLeft, playbackTick, hget, hpar, hge]
    · exact absurd ⟨rfl, hge⟩ h

/-- Enough fuel: the playback loop is left, with the audio done and the video cursor at
the end of the buffer. -/
theorem playbackLoop_terminates (vb : List (List Byte)) (fuel : Nat) (p : Playback)
    (h : ticksLeft vb.length p < fuel) :
    ∃ q, playbackLoop vb fuel p = some q ∧ q.audioDone = true ∧ vb.length ≤ q.videoIdx := by
  induction fuel generalizing p with
  | zero => omega
  | succ fuel ih =>
    by_cases hexit : p.audioDone = true ∧ vb.length ≤ p.videoIdx
    · exact ⟨p, by simp [playbackLoop, hexit.1, hexit.2], hexit.1, hexit.2⟩
    · have hdec := ticksLeft_playbackTick vb p hexit
      obtain ⟨q, hq, h1, h2⟩ := ih (playbackTick vb p) (by omega)
      refine ⟨q, ?_, h1, h2⟩
      have hc : (p.audioDone && decide (p.videoIdx ≥ vb.length)) = false := by
        cases had : p.audioDone
        · rfl
        · simp only [Bool.true_and, decide_eq_false_iff_not]
          exact fun hge => hexit ⟨had, hge⟩
      simp only [playbackLoop, hc, Bool.false_eq_true, if_false, hq]

/-- A tick only adds to the packets sent. -/
theorem playbackTick_sent (vb : List (List Byte)) (p : Playback) :
    ∃ suf, (playbackTick vb p).sent = p.sent ++ suf := by
  obtain ⟨pages, ad, vi, tc, sent⟩ := p
  cases ad <;> cases pages <;> rcases Nat.mod_two_eq_zero_or_one tc with hpar | hpar <;>
    cases hget : vb[vi]? <;> simp [playbackTick, hget, hpar]

/-- The playback loop only adds to the packets sent. -/
theorem playbackLoop_sent (vb : List (List Byte)) (fuel : Nat) (p q : Playback)
    (h : playbackLoop vb fuel p = some q) : ∃ suf, q.sent = p.sent ++ suf := by
  induction fuel generalizing p with
  | zero => simp [playbackLoop] at h
  | succ fuel ih =>
    simp only [playbackLoop] at h
    split at h
    · simp only [Option.some.injEq] at h
      exact ⟨[], by rw [h]; simp⟩
    · obtain ⟨suf1, h1⟩ := ih _ h
      obtain ⟨suf2, h2⟩ := playbackTick_sent vb p
      exact ⟨suf2 ++ suf1, by rw [h1, h2, List.append_assoc]⟩

/-- On a non-empty buffer of non-empty frames the alignment ends normally with a
non-empty playback buffer that is a suffix of the buffer. -/
theorem alignKeyframe_ret (vb : List (List Byte)) (hne : vb ≠ [])
    (hpay : ∀ f ∈ vb, f ≠ []) :
    ∃ pre first rest, vb = pre ++ first :: rest ∧
      alignKeyframe vb = Go.ret (pre.length, first :: rest) := by
  rcases findKeyframe_spec vb 0 hpay with ⟨hnone, -⟩ | ⟨pre, k, rest, hsplit, -, -, hfound⟩
  · cases vb with
    | nil => exact absurd rfl hne
    | cons first rest => exact ⟨[], first, rest, rfl, by simp [alignKeyframe, hnone]⟩
  · refine ⟨pre, k, rest, hsplit, ?_⟩
    have hneg : ((pre.length : Nat) : Int) ≠ -1 := by omega
    simp only [alignKeyframe, hfound, Nat.zero_add, if_neg hneg, Int.toNat_ofNat]
    rw [hsplit, List.drop_left]

/-- C20, as stated, fails: the job delivers one frame and the next read fails with an
error that is not `io.EOF`; the buffering loop notes the interruption, and
`generateAndStream` returns no error and forwards an audio and a video packet. -/
theorem interrupted_stream_not_aborted :
    bufferLoop (Err.Other 1) [[0]] [] = ([[0]], true) ∧
    generateAndStream 10 [[0]] (Err.Other 1) [[9]]
      = some (Go.ret (none, [(2, [9]), (1, [0])])) := by
  decide

/-- C20, amended. Let the job deliver `k ≥ 1` frames, all non-empty, and let the next read
fail with an error other than `io.EOF`. The buffering loop ends with these frames
buffered, noting the interruption, and the attempt goes on as it does after `io.EOF`:
given fuel for the playback loop, `generateAndStream` returns no error, forwards the same
packets as for a stream of these frames that ends with `io.EOF`, and among them the first
frame of the aligned playback buffer as a video packet. -/
theorem interrupted_stream_is_replayed (fuel : Nat) (video : List (List Byte)) (vfin : Err)
    (audio : List (List Byte)) (hk : video ≠ []) (hpay : ∀ f ∈ video, f ≠ [])
    (hfin : vfin ≠ Err.EOF) (hfuel : audio.length + 2 * video.length < fuel) :
    bufferLoop vfin video [] = (video, true) ∧
    generateAndStream fuel video vfin audio = generateAndStream fuel video Err.EOF audio ∧
    ∃ dropped first rest sent, alignKeyframe video = Go.ret (dropped, first :: rest) ∧
      generateAndStream fuel video vfin audio = some (Go.ret (none, sent)) ∧
      (PacketTypeVideo, first) ∈ sent := by
  have hbuf : ∀ fin, (bufferLoop fin video []).1 = video := fun fin => by
    rw [bufferLoop_fst]; rfl
  have hflag : ∀ stream acc, (bufferLoop vfin stream acc).2 = true := by
    intro stream
    induction stream with
    | nil => intro acc; simp [bufferLoop, hfin]
    | cons f rest ih => intro acc; simp only [bufferLoop, ih]
  refine ⟨Prod.ext (hbuf vfin) (hflag video []), ?_, ?_⟩
  · simp only [generateAndStream, hbuf]
  · obtain ⟨pre, first, rest, hsplit, halign⟩ := alignKeyframe_ret video hk hpay
    have hlen : (first :: rest).length ≤ video.length := by
      rw [hsplit, List.length_append]; omega
    have hpos : video.length ≠ 0 := fun h => hk (List.length_eq_zero.mp h)
    cases fuel with
    | zero => omega
    | succ fuel =>
      have hstep : playbackLoop (first :: rest) (fuel + 1)
            { pages := audio, audioDone := false, videoIdx := 0, tickCount := 0, sent := [] }
          = playbackLoop (first :: rest) fuel (playbackTick (first :: rest)
            { pages := audio, audioDone := false, videoIdx := 0, tickCount := 0, sent := [] }) := by
        simp [playbackLoop]
      have hdec := ticksLeft_playbackTick (first :: rest)
        { pages := audio, audioDone := false, videoIdx := 0, tickCount := 0, sent := [] }
        (by simp)
      have hinit : ticksLeft (first :: rest).length
          { pages := audio, audioDone := false, videoIdx := 0, tickCount := 0, sent := [] }
          ≤ audio.length + 2 * video.length := by
        simp only [ticksLeft, Bool.false_eq_true, if_false, Nat.le_zero_eq, Nat.sub_zero,
          Nat.zero_mod, Nat.add_zero]
        split <;> omega
      obtain ⟨q, hq, -, -⟩ := playbackLoop_terminates (first :: rest) fuel
        (playbackTick (first :: rest)
          { pages := audio, audioDone := false, videoIdx := 0, tickCount := 0, sent := [] })
        (by omega)
      obtain ⟨suf, hsuf⟩ := playbackLoop_sent _ _ _ _ hq
      refine ⟨pre.length, first, rest, q.sent, halign, ?_, ?_⟩
      · simp only [generateAndStream, hbuf, hpos, if_false, halign, hstep, hq]
      · rw [hsuf]
        apply List.mem_append_left
        cases audio <;> simp [playbackTick]

theorem interrupted_stream_is_replayed_witness :
    bufferLoop (Err.Other 1) [[0]] [] = ([[0]], true) ∧
    generateAndStream 10 [[0]] (Err.Other 1) [[9]] = generateAndStream 10 [[0]] Err.EOF [[9]] ∧
    ∃ dropped first rest sent, alignKeyframe [[0]] = Go.ret (dropped, first :: rest) ∧
      generateAndStream 10 [[0]] (Err.Other 1) [[9]] = some (Go.ret (none, sent)) ∧
      (PacketTypeVideo, first) ∈ sent :=
  interrupted_stream_is_replayed 10 [[0]] (Err.Other 1) [[9]] (by decide) (by decide)
    (by decide) (by decide)

end Worker

/-! ## The playback loop: schedule and termination -/

section Playback

open worker protocol

/-- One tick of the playback loop, variable by variable. -/
theorem playbackTick_eq (vb : List (List Byte)) (p : Playback) :
    playbackTick vb p =
      { pages := if p.audioDone then p.pages else p.pages.tail,
        audioDone := p.audioDone || p.pages.isEmpty,
        videoIdx := if p.tickCount % 2 = 0 ∧ p.videoIdx < vb.length then p.videoIdx + 1
                    else p.videoIdx,
        tickCount := p.tickCount + 1,
        sent := p.sent ++
          ((if p.audioDone then []
            else (p.pages.head?.map (fun page => (PacketTypeAudio, page))).toList) ++
           (if p.tickCount % 2 = 0 then
              (vb[p.videoIdx]?.map (fun frame => (PacketTypeVideo, frame))).toList
            else [])) } := by
  obtain ⟨pages, ad, vi, tc, sent⟩ := p
  rcases Nat.lt_or_ge vi vb.length with hV | hV
  · have hget : vb[vi]? = some vb[vi] := List.getElem?_eq_getElem hV
    cases ad <;> cases pages <;> rcases Nat.mod_two_eq_zero_or_one tc with hpar | hpar <;>
      simp [playbackTick, hget, hpar, hV]
  · have hget : vb[vi]? = none := List.getElem?_eq_none hV
    cases ad <;> cases pages <;> rcases Nat.mod_two_eq_zero_or_one tc with hpar | hpar <;>
      simp [playbackTick, hget, hpar, Nat.not_lt.mpr hV]

/-- The packets of a tick, with the look-ups written as options. -/
theorem tickPackets_eq (audio vb : List (List Byte)) (t : Nat) :
    tickPackets audio vb t =
      (audio[t]?.map (fun page => (PacketTypeAudio, page))).toList ++
      (if t % 2 = 0 then (vb[t / 2]?.map (fun frame => (PacketTypeVideo, frame))).toList
       else []) := by
  unfold tickPackets
  cases audio[t]? <;> cases vb[t / 2]? <;> rfl

/-- The variables after `t` ticks from the entry of the playback loop. -/
theorem playbackTick_iterate (audio vb : List (List Byte)) (t : Nat) :
    (playbackTick vb)^[t] (playbackStart audio) =
      { pages := audio.drop t, audioDone := decide (audio.length < t),
        videoIdx := min vb.length ((t + 1) / 2), tickCount := t,
        sent := (List.range t).flatMap (tickPackets audio vb) } := by
  induction t with
  | zero => simp [playbackStart]
  | succ t ih =>
    rw [Function.iterate_succ_apply', ih, playbackTick_eq]
    simp only [Playback.mk.injEq, and_true, true_and]
    refine ⟨?_, ?_, ?_, ?_⟩
    · by_cases hA : audio.length < t
      · rw [if_pos (by simpa using hA), List.drop_eq_nil_of_le (Nat.le_of_lt hA),
          List.drop_eq_nil_of_le (by omega)]
      · rw [if_neg (by simpa using hA), List.tail_drop]
    · rw [Bool.eq_iff_iff]
      simp only [Bool.or_eq_true, decide_eq_true_eq, List.isEmpty_iff, List.drop_eq_nil_iff]
      omega
    · split <;> omega
    · have haud : (if decide (audio.length < t) = true then []
            else ((audio.drop t).head?.map (fun page => (PacketTypeAudio, page))).toList)
          = (audio[t]?.map (fun page => (PacketTypeAudio, page))).toList := by
        by_cases hA : audio.length < t
        · rw [if_pos (by simpa using hA), List.getElem?_eq_none (Nat.le_of_lt hA)]
          rfl
        · rw [if_neg (by simpa using hA), List.head?_drop]
      have hvid : (if t % 2 = 0 then
            (vb[min vb.length ((t + 1) / 2)]?.map (fun frame => (PacketTypeVideo, frame))).toList
          else [])
          = (if t % 2 = 0 then (vb[t / 2]?.map (fun frame => (PacketTypeVideo, frame))).toList
            else []) := by
        rcases Nat.mod_two_eq_zero_or_one t with hpar | hpar
        · rw [if_pos hpar, if_pos hpar]
          rcases Nat.lt_or_ge (t / 2) vb.length with hV | hV
          · have h1 : min vb.length ((t + 1) / 2) = t / 2 := by omega
            rw [h1]
          · have h1 : min vb.length ((t + 1) / 2) = vb.length := by omega
            rw [h1, List.getElem?_eq_none (Nat.le_refl _), List.getElem?_eq_none hV]
        · rw [if_neg (by omega), if_neg (by omega)]
      rw [List.range_succ, List.flatMap_append, List.flatMap_singleton, tickPackets_eq,
        haud, hvid]

/-- The playback loop is left at the first number of ticks after which its exit test
holds, given fuel for that many passes and one more. -/
theorem playbackLoop_iterate (vb : List (List Byte)) (n fuel : Nat) (p : Playback)
    (hnot : ∀ s, s < n →
      ¬(((playbackTick vb)^[s] p).audioDone = true ∧
        vb.length ≤ ((playbackTick vb)^[s] p).videoIdx))
    (hexit : ((playbackTick vb)^[n] p).audioDone = true ∧
      vb.length ≤ ((playbackTick vb)^[n] p).videoIdx)
    (hfuel : n < fuel) :
    playbackLoop vb fuel p = some ((playbackTick vb)^[n] p) := by
  induction n generalizing p fuel with
  | zero =>
    cases fuel with
    | zero => omega
    | succ fuel =>
      simp only [Function.iterate_zero, id_eq] at hexit
      simp [playbackLoop, hexit.1, hexit.2]
  | succ n ih =>
    cases fuel with
    | zero => omega
    | succ fuel =>
      have h0 := hnot 0 (Nat.succ_pos n)
      simp only [Function.iterate_zero, id_eq] at h0
      have hc : (p.audioDone && decide (p.videoIdx ≥ vb.length)) = false := by
        cases had : p.audioDone
        · rfl
        · simp only [Bool.true_and, decide_eq_false_iff_not]
          exact fun hge => h0 ⟨had, hge⟩
      simp only [playbackLoop, hc, Bool.false_eq_true, if_false, Function.iterate_succ_apply]
      exact ih fuel (playbackTick vb p)
        (fun s hs => by
          rw [← Function.iterate_succ_apply]
          exact hnot (s + 1) (by omega))
        (by rw [← Function.iterate_succ_apply]; exact hexit)
        (by omega)

/-- The playback loop from its entry: it is left after `max (A + 1) (2 V - 1)` ticks and
not before. -/
theorem playbackLoop_start (audio vb : List (List Byte)) (fuel : Nat)
    (hV : 1 ≤ vb.length) (hfuel : max (audio.length + 1) (2 * vb.length - 1) < fuel) :
    playbackLoop vb fuel (playbackStart audio)
      = some ((playbackTick vb)^[max (audio.length + 1) (2 * vb.length - 1)]
          (playbackStart audio)) := by
  apply playbackLoop_iterate vb _ fuel _ _ _ hfuel
  · intro s hs
    rw [playbackTick_iterate]
    simp only [decide_eq_true_eq]
    omega
  · rw [playbackTick_iterate]
    simp only [decide_eq_true_eq]
    omega

/-- The audio packets among those of the first `t` ticks are the first `t` pages. -/
theorem schedule_audio (audio vb : List (List Byte)) (t : Nat) :
    ((List.range t).flatMap (tickPackets audio vb)).filter
        (fun p => decide (p.1 = PacketTypeAudio))
      = (audio.take t).map (fun page => (PacketTypeAudio, page)) := by
  induction t with
  | zero => simp
  | succ t ih =>
    rw [List.range_succ, List.flatMap_append, List.flatMap_singleton, List.filter_append, ih,
      List.take_succ, List.map_append, tickPackets_eq]
    congr 1
    cases audio[t]? <;> cases vb[t / 2]? <;>
      rcases Nat.mod_two_eq_zero_or_one t with hpar | hpar <;>
      simp [hpar, PacketTypeAudio, PacketTypeVideo]

/-- The video packets among those of the first `t` ticks are the first `(t + 1) / 2`
frames. -/
theorem schedule_video (audio vb : List (List Byte)) (t : Nat) :
    ((List.range t).flatMap (tickPackets audio vb)).filter
        (fun p => decide (p.1 = PacketTypeVideo))
      = (vb.take ((t + 1) / 2)).map (fun frame => (PacketTypeVideo, frame)) := by
  induction t with
  | zero => simp
  | succ t ih =>
    rw [List.range_succ, List.flatMap_append, List.flatMap_singleton, List.filter_append, ih,
      tickPackets_eq]
    rcases Nat.mod_two_eq_zero_or_one t with hpar | hpar
    · have h1 : (t + 1 + 1) / 2 = t / 2 + 1 := by omega
      have h2 : (t + 1) / 2 = t / 2 := by omega
      rw [h1, h2, List.take_succ, List.map_append]
      congr 1
      cases audio[t]? <;> cases vb[t / 2]? <;> simp [hpar, PacketTypeAudio, PacketTypeVideo]
    · have h1 : (t + 1 + 1) / 2 = (t + 1) / 2 := by omega
      rw [h1]
      cases audio[t]? <;> simp [hpar, PacketTypeAudio, PacketTypeVideo]

/-- C21. No frames is a failure: when the reads of the job output end, by `io.EOF` or by
any other error, before a single frame has been buffered, `generateAndStream` returns the
error "received 0 video frames" and hands no packet to `writePacket`, whatever the audio
is; the playback loop is not entered, so that no fuel is needed. -/
theorem no_frames_is_failure (fuel : Nat) (vfin : Err) (audio : List (List Byte)) :
    (bufferLoop vfin [] []).1 = [] ∧
    generateAndStream fuel [] vfin audio = some (Go.ret (some Err.NoVideoFrames, [])) := by
  have hbuf : (bufferLoop vfin [] []).1 = [] := by rw [bufferLoop_fst]; rfl
  exact ⟨hbuf, by simp [generateAndStream, hbuf]⟩

/-- C28. Replay terminates: for an audio track of `A` pages and a playback buffer of
`V ≥ 1` frames, given fuel for more passes than that, the playback loop is left after
exactly `max (A + 1) (2 V - 1)` ticks: its exit test fails after every smaller number of
ticks, and the variables it is left with are those after that many ticks, with the tick
counter at that number, the audio marked done and the video cursor equal to `V`. -/
theorem replay_terminates (audio vb : List (List Byte)) (fuel : Nat)
    (hV : 1 ≤ vb.length) (hfuel : max (audio.length + 1) (2 * vb.length - 1) < fuel) :
    ∃ q, playbackLoop vb fuel (playbackStart audio) = some q ∧
      q = (playbackTick vb)^[max (audio.length + 1) (2 * vb.length - 1)]
            (playbackStart audio) ∧
      q.tickCount = max (audio.length + 1) (2 * vb.length - 1) ∧
      q.audioDone = true ∧ q.videoIdx = vb.length ∧
      ∀ t, t < max (audio.length + 1) (2 * vb.length - 1) →
        ¬(((playbackTick vb)^[t] (playbackStart audio)).audioDone = true ∧
          vb.length ≤ ((playbackTick vb)^[t] (playbackStart audio)).videoIdx) := by
  refine ⟨_, playbackLoop_start audio vb fuel hV hfuel, rfl, ?_, ?_, ?_, ?_⟩
  · rw [playbackTick_iterate]
  · rw [playbackTick_iterate]
    simp only [decide_eq_true_eq]
    omega
  · rw [playbackTick_iterate]
    simp only
    omega
  · intro t ht
    rw [playbackTick_iterate]
    simp only [decide_eq_true_eq]
    omega

theorem replay_terminates_witness :
    ∃ q, playbackLoop [[2], [5]] 10 (playbackStart [[9], [8], [7], [6], [5]]) = some q ∧
      q = (playbackTick [[2], [5]])^[max (([[9], [8], [7], [6], [5]] : List (List Byte)).length + 1)
              (2 * ([[2], [5]] : List (List Byte)).length - 1)]
            (playbackStart [[9], [8], [7], [6], [5]]) ∧
      q.tickCount = max (([[9], [8], [7], [6], [5]] : List (List Byte)).length + 1)
        (2 * ([[2], [5]] : List (List Byte)).length - 1) ∧
      q.audioDone = true ∧ q.videoIdx = ([[2], [5]] : List (List Byte)).length ∧
      ∀ t, t < max (([[9], [8], [7], [6], [5]] : List (List Byte)).length + 1)
          (2 * ([[2], [5]] : List (List Byte)).length - 1) →
        ¬(((playbackTick [[2], [5]])^[t] (playbackStart [[9], [8], [7], [6], [5]])).audioDone
            = true ∧
          ([[2], [5]] : List (List Byte)).length ≤
            ((playbackTick [[2], [5]])^[t] (playbackStart [[9], [8], [7], [6], [5]])).videoIdx) :=
  replay_terminates [[9], [8], [7], [6], [5]] [[2], [5]] 10 (by decide) (by decide)

/-- C22. Replay schedule: for an audio track `audio` and a playback buffer `vb` of at
least one frame, given fuel, the playback loop ends, and the packets it has handed to
`writePacket` are those of the schedule, tick by tick: on tick `t` audio page `t`, if there
is one, and then, if `t` is even, video frame `t / 2`, if there is one. Every tick adds
exactly the packets of its number. Every packet is an Audio or a Video packet; the Audio
packets are the pages of `audio`, each once and in order, and the Video packets are the
frames of `vb`, each once and in order. -/
theorem replay_schedule (audio vb : List (List Byte)) (fuel : Nat)
    (hV : 1 ≤ vb.length) (hfuel : max (audio.length + 1) (2 * vb.length - 1) < fuel) :
    ∃ q, playbackLoop vb fuel (playbackStart audio) = some q ∧
      q.sent = (List.range q.tickCount).flatMap (tickPackets audio vb) ∧
      (∀ t, ((playbackTick vb)^[t + 1] (playbackStart audio)).sent
        = ((playbackTick vb)^[t] (playbackStart audio)).sent ++ tickPackets audio vb t) ∧
      (∀ p ∈ q.sent, p.1 = PacketTypeAudio ∨ p.1 = PacketTypeVideo) ∧
      q.sent.filter (fun p => decide (p.1 = PacketTypeAudio))
        = audio.map (fun page => (PacketTypeAudio, page)) ∧
      q.sent.filter (fun p => decide (p.1 = PacketTypeVideo))
        = vb.map (fun frame => (PacketTypeVideo, frame)) := by
  refine ⟨_, playbackLoop_start audio vb fuel hV hfuel, ?_, ?_, ?_, ?_, ?_⟩
  · rw [playbackTick_iterate]
  · intro t
    rw [playbackTick_iterate, playbackTick_iterate]
    simp only [List.range_succ, List.flatMap_append, List.flatMap_singleton]
  · intro p hp
    rw [playbackTick_iterate] at hp
    simp only [List.mem_flatMap] at hp
    obtain ⟨t, -, hmem⟩ := hp
    rw [tickPackets_eq] at hmem
    rcases List.mem_append.mp hmem with h | h
    · cases hat : audio[t]? with
      | none => simp [hat] at h
      | some page =>
        simp only [hat, Option.map_some', Option.toList_some, List.mem_singleton] at h
        exact Or.inl (by rw [h])
    · split at h
      · cases hvt : vb[t / 2]? with
        | none => simp [hvt] at h
        | some frame =>
          simp only [hvt, Option.map_some', Option.toList_some, List.mem_singleton] at h
          exact Or.inr (by rw [h])
      · cases h
  · rw [playbackTick_iterate]
    simp only
    rw [schedule_audio, List.take_of_length_le (by omega)]
  · rw [playbackTick_iterate]
    simp only
    rw [schedule_video, List.take_of_length_le (by omega)]

/-- An instance of C22: three audio pages and two video frames. -/
theorem replay_schedule_witness :
    ∃ q, playbackLoop [[2], [5]] 10 (playbackStart [[9], [8], [7]]) = some q ∧
      q.sent = (List.range q.tickCount).flatMap (tickPackets [[9], [8], [7]] [[2], [5]]) ∧
      (∀ t, ((playbackTick [[2], [5]])^[t + 1] (playbackStart [[9], [8], [7]])).sent
        = ((playbackTick [[2], [5]])^[t] (playbackStart [[9], [8], [7]])).sent
            ++ tickPackets [[9], [8], [7]] [[2], [5]] t) ∧
      (∀ p ∈ q.sent, p.1 = PacketTypeAudio ∨ p.1 = PacketTypeVideo) ∧
      q.sent.filter (fun p => decide (p.1 = PacketTypeAudio))
        = ([[9], [8], [7]] : List (List Byte)).map (fun page => (PacketTypeAudio, page)) ∧
      q.sent.filter (fun p => decide (p.1 = PacketTypeVideo))
        = ([[2], [5]] : List (List Byte)).map (fun frame => (PacketTypeVideo, frame)) :=
  replay_schedule [[9], [8], [7]] [[2], [5]] 10 (by decide) (by decide)

end Playback

/-! ## The file sources: reset, loop playback, `TryNextFrame`, `Close` -/

section FileSources

open file uds infrastructure

/-- `NextFrame` on an open video reader with the cursor on a frame: the frame is
delivered and the cursor moves behind it, whether the reader loops or not. -/
theorem NextFrame_lt (frames : List (List Byte)) (c : Nat) ( loop : Bool)
    (hc : c < frames.length) (hpay : frames[c] ≠ []) :
    LoopReader.NextFrame ⟨frames, some c, loop, true⟩
      = Go.ret ((some (frameOf frames[c] (frames[c].headD 0)), none),
          ⟨frames, some (c + 1), loop, true⟩) := by
  have hget : frames[c]? = some frames[c] := List.getElem?_eq_getElem hc
  cases hpl : frames[c] with
  | nil => exact absurd hpl hpay
  | cons b rest =>
    rw [hpl] at hget
    simp [LoopReader.NextFrame, ParseNextFrame, mkFrame, hget]

/-- `NextFrame` on an open sequential reader behind the last frame: `io.EOF`, and the
reader stays as it is. -/
theorem NextFrame_seq_eof (frames : List (List Byte)) :
    LoopReader.NextFrame ⟨frames, some frames.length, false, true⟩
      = Go.ret ((none, some Err.EOF), ⟨frames, some frames.length, false, true⟩) := by
  have hnone : frames[frames.length]? = none := List.getElem?_eq_none (Nat.le_refl _)
  simp [LoopReader.NextFrame, ParseNextFrame, hnone]

/-- `NextFrame` on an open audio reader with at least one page: with the cursor at `c` it
delivers the page at index `c`, counted cyclically, and moves the cursor behind it. -/
theorem OggNextFrame_loop (pages : List (List Byte)) (c : Nat) (hne : pages ≠ [])
    (hc : c ≤ pages.length) :
    OggLoopReader.NextFrame ⟨pages, some c, true⟩
      = ((some (audioFrame (pages.getD (c % pages.length) [])), none),
          ⟨pages, some (c % pages.length + 1), true⟩) := by
  have hpos : 0 < pages.length := List.length_pos.mpr hne
  by_cases hlt : c < pages.length
  · have hget : pages[c]? = some pages[c] := List.getElem?_eq_getElem hlt
    simp [OggLoopReader.NextFrame, ParseNextPage, hget, Nat.mod_eq_of_lt hlt]
  · have hceq : c = pages.length := by omega
    have hnone : pages[c]? = none := List.getElem?_eq_none (by omega)
    have hget : pages[0]? = some pages[0] := List.getElem?_eq_getElem hpos
    subst hceq
    simp [OggLoopReader.NextFrame, ParseNextPage, hget, hnone]

/-- Any number of calls of `Reset` on an open video reader: no error, cursor at the start. -/
theorem LoopReader_resets (frames : List (List Byte)) (ivf : Option Nat) ( loop : Bool)
    (n : Nat) :
    LoopReader.resets (n + 1) ⟨frames, ivf, loop, true⟩
      = (List.replicate (n + 1) none, ⟨frames, some 0, loop, true⟩) := by
  induction n generalizing ivf with
  | zero => rfl
  | succ n ih =>
    have hr : LoopReader.Reset ⟨frames, ivf, loop, true⟩
        = (none, ⟨frames, some 0, loop, true⟩) := rfl
    rw [LoopReader.resets, hr]
    simp only [ih (some 0)]
    rfl

/-- Any number of calls of `Reset` on an open audio reader: no error, cursor at the start. -/
theorem OggLoopReader_resets (pages : List (List Byte)) (ogg : Option Nat) (n : Nat) :
    OggLoopReader.resets (n + 1) ⟨pages, ogg, true⟩
      = (List.replicate (n + 1) none, ⟨pages, some 0, true⟩) := by
  induction n generalizing ogg with
  | zero => rfl
  | succ n ih =>
    have hr : OggLoopReader.Reset ⟨pages, ogg, true⟩ = (none, ⟨pages, some 0, true⟩) := rfl
    rw [OggLoopReader.resets, hr]
    simp only [ih (some 0)]
    rfl

/-- C23. Reset idempotence, for an open file source that holds at least one frame (for the
video source the first frame has a non-empty payload), at every cursor position, looping
or not: `n ≥ 1` calls of `Reset` return no error and leave the cursor at the start, so the
call of `NextFrame` after them returns what it returns after one call of `Reset`, which is
the first frame of the container without error. This holds for the video reader and for
the audio reader. -/
theorem reset_idempotent (first : List Byte) (rest : List (List Byte)) (ivf : Option Nat)
    ( loop : Bool) (page : List Byte) (prest : List (List Byte)) (ogg : Option Nat) (n : Nat)
    (hn : 1 ≤ n) (hfirst : first ≠ []) :
    (LoopReader.resets n ⟨first :: rest, ivf, loop, true⟩
        = (List.replicate n none, ⟨first :: rest, some 0, loop, true⟩) ∧
      LoopReader.NextFrame (LoopReader.resets n ⟨first :: rest, ivf, loop, true⟩).2
        = LoopReader.NextFrame (LoopReader.resets 1 ⟨first :: rest, ivf, loop, true⟩).2 ∧
      LoopReader.NextFrame (LoopReader.resets n ⟨first :: rest, ivf, loop, true⟩).2
        = Go.ret ((some (frameOf first (first.headD 0)), none),
            ⟨first :: rest, some 1, loop, true⟩)) ∧
    (OggLoopReader.resets n ⟨page :: prest, ogg, true⟩
        = (List.replicate n none, ⟨page :: prest, some 0, true⟩) ∧
      OggLoopReader.NextFrame (OggLoopReader.resets n ⟨page :: prest, ogg, true⟩).2
        = OggLoopReader.NextFrame (OggLoopReader.resets 1 ⟨page :: prest, ogg, true⟩).2 ∧
      OggLoopReader.NextFrame (OggLoopReader.resets n ⟨page :: prest, ogg, true⟩).2
        = ((some (audioFrame page), none), ⟨page :: prest, some 1, true⟩)) := by
  obtain ⟨k, rfl⟩ : ∃ k, n = k + 1 := ⟨n - 1, by omega⟩
  have hv := NextFrame_lt (first :: rest) 0 loop (Nat.succ_pos _) hfirst
  have ha := OggNextFrame_loop (page :: prest) 0 (List.cons_ne_nil _ _) (Nat.zero_le _)
  refine ⟨⟨LoopReader_resets _ ivf loop k, ?_, ?_⟩, ⟨OggLoopReader_resets _ ogg k, ?_, ?_⟩⟩
  · rw [LoopReader_resets _ ivf loop k, LoopReader_resets _ ivf loop 0]
  · rw [LoopReader_resets _ ivf loop k]
    exact hv
  · rw [OggLoopReader_resets _ ogg k, OggLoopReader_resets _ ogg 0]
  · rw [OggLoopReader_resets _ ogg k]
    simpa using ha

/-- An instance of C23: three calls of `Reset` in the middle of a container. -/
theorem reset_idempotent_witness :
    (LoopReader.resets 3 ⟨[2, 7] :: [[1], [3]], some 2, true, true⟩
        = (List.replicate 3 none, ⟨[2, 7] :: [[1], [3]], some 0, true, true⟩) ∧
      LoopReader.NextFrame (LoopReader.resets 3 ⟨[2, 7] :: [[1], [3]], some 2, true, true⟩).2
        = LoopReader.NextFrame
            (LoopReader.resets 1 ⟨[2, 7] :: [[1], [3]], some 2, true, true⟩).2 ∧
      LoopReader.NextFrame (LoopReader.resets 3 ⟨[2, 7] :: [[1], [3]], some 2, true, true⟩).2
        = Go.ret ((some (frameOf [2, 7] (([2, 7] : List Byte).headD 0)), none),
            ⟨[2, 7] :: [[1], [3]], some 1, true, true⟩)) ∧
    (OggLoopReader.resets 3 ⟨[9] :: [[8]], some 1, true⟩
        = (List.replicate 3 none, ⟨[9] :: [[8]], some 0, true⟩) ∧
      OggLoopReader.NextFrame (OggLoopReader.resets 3 ⟨[9] :: [[8]], some 1, true⟩).2
        = OggLoopReader.NextFrame (OggLoopReader.resets 1 ⟨[9] :: [[8]], some 1, true⟩).2 ∧
      OggLoopReader.NextFrame (OggLoopReader.resets 3 ⟨[9] :: [[8]], some 1, true⟩).2
        = ((some (audioFrame [9]), none), ⟨[9] :: [[8]], some 1, true⟩)) :=
  reset_idempotent [2, 7] [[1], [3]] (some 2) true [9] [[8]] (some 1) 3 (by decide)
    (by decide)

/-- Calls of `NextFrame` on an open looping video reader of non-empty frames: the frames
in cyclic order. The cursor `c` stands for the frame index `j`. -/
theorem LoopReader_nextFrames_loop (frames : List (List Byte)) (hne : frames ≠ [])
    (hpay : ∀ p ∈ frames, p ≠ []) (m c j : Nat) (hc : c ≤ frames.length)
    (hcj : c % frames.length = j % frames.length) :
    LoopReader.nextFrames m ⟨frames, some c, true, true⟩
      = Go.ret ((List.range m).map (fun k => (some (frameAt frames (j + k)), none))) := by
  induction m generalizing c j with
  | zero => rfl
  | succ m ih =>
    have hpos : 0 < frames.length := List.length_pos.mpr hne
    have hnf := NextFrame_loop frames c hne hpay hc
    have hcj1 : (c % frames.length + 1) % frames.length = (j + 1) % frames.length := by
      rw [hcj, Nat.add_mod, Nat.mod_mod, ← Nat.add_mod]
    have hrec := ih (c % frames.length + 1) (j + 1) (Nat.mod_lt c hpos) hcj1
    simp only [LoopReader.nextFrames, hnf, hrec, List.range_succ_eq_map, List.map_cons,
      List.map_map, Nat.add_zero, frameAt_congr frames c j hcj]
    congr 2
    apply List.map_congr_left
    intro k _
    simp only [Function.comp_apply, Nat.succ_eq_add_one]
    rw [Nat.add_assoc, Nat.add_comm 1 k]

/-- Calls of `NextFrame` on an open sequential video reader behind its last frame. -/
theorem LoopReader_nextFrames_eof (frames : List (List Byte)) (m : Nat) :
    LoopReader.nextFrames m ⟨frames, some frames.length, false, true⟩
      = Go.ret (List.replicate m (none, some Err.EOF)) := by
  induction m with
  | zero => rfl
  | succ m ih =>
    simp only [LoopReader.nextFrames, NextFrame_seq_eof, ih, List.replicate_succ]

/-- Calls of `NextFrame` on an open sequential video reader of non-empty frames with `k`
frames left: these frames in order, then `io.EOF`. -/
theorem LoopReader_nextFrames_seq (frames : List (List Byte)) (hpay : ∀ p ∈ frames, p ≠ [])
    (m k c : Nat) (hck : c + k = frames.length) :
    LoopReader.nextFrames (k + m) ⟨frames, some c, false, true⟩
      = Go.ret ((frames.drop c).map (fun p => (some (frameOf p (p.headD 0)), none)) ++
          List.replicate m (none, some Err.EOF)) := by
  induction k generalizing c with
  | zero =>
    have hc : c = frames.length := by omega
    subst hc
    rw [Nat.zero_add, LoopReader_nextFrames_eof, List.drop_eq_nil_of_le (Nat.le_refl _)]
    rfl
  | succ k ih =>
    have hlt : c < frames.length := by omega
    have hnf := NextFrame_lt frames c false hlt (hpay _ (List.getElem_mem _))
    have hrec := ih (c + 1) (by omega)
    rw [Nat.add_right_comm]
    simp only [LoopReader.nextFrames, hnf, hrec, List.drop_eq_getElem_cons hlt, List.map_cons,
      List.cons_append]

/-- Calls of `NextFrame` on an open audio reader with at least one page: the pages in
cyclic order. The cursor `c` stands for the page index `j`. -/
theorem OggLoopReader_nextFrames_loop (pages : List (List Byte)) (hne : pages ≠ [])
    (m c j : Nat) (hc : c ≤ pages.length) (hcj : c % pages.length = j % pages.length) :
    OggLoopReader.nextFrames m ⟨pages, some c, true⟩
      = (List.range m).map
          (fun k => (some (audioFrame (pages.getD ((j + k) % pages.length) [])), none)) := by
  induction m generalizing c j with
  | zero => rfl
  | succ m ih =>
    have hpos : 0 < pages.length := List.length_pos.mpr hne
    have hnf := OggNextFrame_loop pages c hne hc
    have hcj1 : (c % pages.length + 1) % pages.length = (j + 1) % pages.length := by
      rw [hcj, Nat.add_mod, Nat.mod_mod, ← Nat.add_mod]
    have hrec := ih (c % pages.length + 1) (j + 1) (Nat.mod_lt c hpos) hcj1
    simp only [OggLoopReader.nextFrames, hnf, hrec, List.range_succ_eq_map, List.map_cons,
      List.map_map, Nat.add_zero]
    rw [hcj]
    congr 1
    apply List.map_congr_left
    intro k _
    simp only [Function.comp_apply, Nat.succ_eq_add_one]
    rw [Nat.add_assoc, Nat.add_comm 1 k]

/-- C24. Loop playback, for every container of `n ≥ 1` non-empty frames and every audio
container of at least one page: the calls of `NextFrame` on a looping video reader return,
call number `k` (from 0), frame `k mod n` with no error; the calls on a sequential reader
return the frames 0 to `n - 1` in order with no error and then `io.EOF`; the calls on the
audio reader return, call number `k`, page `k mod` the number of pages with no error. -/
theorem loop_playback (frames pages : List (List Byte)) (m : Nat) (hne : frames ≠ [])
    (hpay : ∀ p ∈ frames, p ≠ []) (hpne : pages ≠ []) :
    LoopReader.nextFrames m (newReader frames true)
      = Go.ret ((List.range m).map (fun k => (some (frameAt frames k), none))) ∧
    (∀ k, (frameAt frames k).Data = frames.getD (k % frames.length) []) ∧
    LoopReader.nextFrames (frames.length + m) (newReader frames false)
      = Go.ret (frames.map (fun p => (some (frameOf p (p.headD 0)), none)) ++
          List.replicate m (none, some Err.EOF)) ∧
    OggLoopReader.nextFrames m (NewOggLoopReader pages)
      = (List.range m).map
          (fun k => (some (audioFrame (pages.getD (k % pages.length) [])), none)) := by
  refine ⟨?_, fun k => rfl, ?_, ?_⟩
  · have h := LoopReader_nextFrames_loop frames hne hpay m 0 0 (Nat.zero_le _) rfl
    simpa [newReader] using h
  · have h := LoopReader_nextFrames_seq frames hpay m frames.length 0 (Nat.zero_add _)
    simpa [newReader] using h
  · have h := OggLoopReader_nextFrames_loop pages hpne m 0 0 (Nat.zero_le _) rfl
    simpa [NewOggLoopReader] using h

/-- An instance of C24: five calls on containers of two frames and of two pages. -/
theorem loop_playback_witness :
    LoopReader.nextFrames 5 (newReader [[0, 7], [1]] true)
      = Go.ret ((List.range 5).map (fun k => (some (frameAt [[0, 7], [1]] k), none))) ∧
    (∀ k, (frameAt [[0, 7], [1]] k).Data
      = ([[0, 7], [1]] : List (List Byte)).getD
          (k % ([[0, 7], [1]] : List (List Byte)).length) []) ∧
    LoopReader.nextFrames (([[0, 7], [1]] : List (List Byte)).length + 5)
        (newReader [[0, 7], [1]] false)
      = Go.ret (([[0, 7], [1]] : List (List Byte)).map
            (fun p => (some (frameOf p (p.headD 0)), none)) ++
          List.replicate 5 (none, some Err.EOF)) ∧
    OggLoopReader.nextFrames 5 (NewOggLoopReader [[9], [8]])
      = (List.range 5).map
          (fun k => (some (audioFrame (([[9], [8]] : List (List Byte)).getD
            (k % ([[9], [8]] : List (List Byte)).length) [])), none)) :=
  loop_playback [[0, 7], [1]] [[9], [8]] 5 (by decide) (by decide) (by decide)

/-- `TryNextFrame` of the audio reader reports `available` exactly with a frame and no
error. -/
theorem OggTryNextFrame_flag (r : OggLoopReader) :
    (∃ f, (r.TryNextFrame).1 = (some f, true, none)) ∨
    (∃ e, (r.TryNextFrame).1 = (none, false, some e)) := by
  obtain ⟨pages, ogg, fileOpen⟩ := r
  cases ogg with
  | none => exact Or.inr ⟨_, rfl⟩
  | some pos =>
    cases fileOpen with
    | false =>
      exact Or.inr ⟨Err.ErrClosed, by
        simp [OggLoopReader.TryNextFrame, OggLoopReader.NextFrame, ParseNextPage]⟩
    | true =>
      cases hp : pages[pos]? with
      | some data =>
        exact Or.inl ⟨audioFrame data, by
          simp [OggLoopReader.TryNextFrame, OggLoopReader.NextFrame, ParseNextPage, hp]⟩
      | none =>
        cases h0 : pages[0]? with
        | some data =>
          exact Or.inl ⟨audioFrame data, by
            simp [OggLoopReader.TryNextFrame, OggLoopReader.NextFrame, ParseNextPage, hp, h0]⟩
        | none =>
          exact Or.inr ⟨Err.EOF, by
            simp [OggLoopReader.TryNextFrame, OggLoopReader.NextFrame, ParseNextPage, hp, h0]⟩

/-- `TryNextFrame` of the queue-backed source reports `available` exactly with a frame;
it never returns an error. -/
theorem ChannelTryNextFrame_flag (s : ChannelSource) :
    (∃ f, (s.TryNextFrame).1 = (some f, true, none)) ∨
    (s.TryNextFrame).1 = (none, false, none) := by
  obtain ⟨⟨buf, cap, closed⟩, w⟩ := s
  cases buf with
  | nil => cases closed <;> exact Or.inr rfl
  | cons pkt rest => exact Or.inl ⟨_, rfl⟩

/-- C26 at its failing inputs: a sequential video reader behind its last frame, and a
looping video reader whose file is closed. `TryNextFrame` returns no frame and an error,
and reports `available = true`. The audio reader and the queue-backed source report
`available = true` only with a frame and no error. -/
theorem LoopReader_TryNextFrame_flag :
    LoopReader.TryNextFrame ⟨[[0]], some 1, false, true⟩
      = Go.ret ((none, true, some Err.EOF), ⟨[[0]], some 1, false, true⟩) ∧
    LoopReader.TryNextFrame ⟨[[0]], some 0, true, false⟩
      = Go.ret ((none, true, some Err.ErrClosed), ⟨[[0]], some 0, true, false⟩) ∧
    (∀ r : OggLoopReader,
      (∃ f, (r.TryNextFrame).1 = (some f, true, none)) ∨
      (∃ e, (r.TryNextFrame).1 = (none, false, some e))) ∧
    (∀ s : ChannelSource,
      (∃ f, (s.TryNextFrame).1 = (some f, true, none)) ∨
      (s.TryNextFrame).1 = (none, false, none)) :=
  ⟨by decide, by decide, OggTryNextFrame_flag, ChannelTryNextFrame_flag⟩

/-- C27 at its failing input: a video reader and an audio reader, each on an open file,
closed twice. The first `Close` returns no error; the second passes the guard
`r.file != nil`, closes the file again and returns the error of that. The queue-backed
source returns no error on both calls. -/
theorem second_Close_fails :
    (LoopReader.Close (newReader [[0]] true)).1 = none ∧
    (LoopReader.Close (LoopReader.Close (newReader [[0]] true)).2).1 = some Err.ErrClosed ∧
    (OggLoopReader.Close (NewOggLoopReader [[9]])).1 = none ∧
    (OggLoopReader.Close (OggLoopReader.Close (NewOggLoopReader [[9]])).2).1
      = some Err.ErrClosed ∧
    (ChannelSource.Close (NewChannelSource ⟨[], 100, false⟩)).1 = none ∧
    (ChannelSource.Close (ChannelSource.Close (NewChannelSource ⟨[], 100, false⟩)).2).1
      = none := by
  decide

/-- Two calls of `Close` in the code as it is. The second call leaves every source in the
state the first call left it in. For the queue-backed source both calls return no error.
For the video and the audio file source the first call returns no error if the file is
open, and closes it; the second call, like every call on a closed file, returns the error
of closing a closed file. -/
theorem Close_twice (r : LoopReader) (a : OggLoopReader) (s : ChannelSource) :
    ((LoopReader.Close r).1 = (if r.fileOpen then none else some Err.ErrClosed) ∧
      (LoopReader.Close r).2 = { r with fileOpen := false } ∧
      LoopReader.Close (LoopReader.Close r).2
        = (some Err.ErrClosed, (LoopReader.Close r).2)) ∧
    ((OggLoopReader.Close a).1 = (if a.fileOpen then none else some Err.ErrClosed) ∧
      (OggLoopReader.Close a).2 = { a with fileOpen := false } ∧
      OggLoopReader.Close (OggLoopReader.Close a).2
        = (some Err.ErrClosed, (OggLoopReader.Close a).2)) ∧
    (s.Close = (none, s) ∧ (s.Close).2.Close = (none, (s.Close).2)) := by
  obtain ⟨frames, ivf, loop, fo⟩ := r
  obtain ⟨pages, ogg, afo⟩ := a
  refine ⟨?_, ?_, rfl, rfl⟩
  · cases fo <;> simp [LoopReader.Close]
  · cases afo <;> simp [OggLoopReader.Close]

end FileSources

/-! ## The router: `routeTalkingData` -/

section Router

open protocol domain usecase

/-- While the talking-video buffer is full and the stop channel open, the `select` waits. -/
theorem sendVideo_wait (frame : MediaFrame) (pre later : List Moment)
    (hpre : ∀ x ∈ pre, 1000 ≤ x.talkingVideoCh.length ∧ x.stopClosed = false) :
    sendVideo frame (pre ++ later) = sendVideo frame later := by
  induction pre with
  | nil => rfl
  | cons m pre ih =>
    have hm := hpre m (List.mem_cons_self _ _)
    have hfull : ¬ m.talkingVideoCh.length < talkingChCap := by
      simp only [talkingChCap]; omega
    simp only [List.cons_append, sendVideo, if_neg hfull, hm.2, Bool.false_eq_true, if_false]
    exact ih (fun x hx => hpre x (List.mem_cons_of_mem _ hx))

theorem sendAudio_wait (frame : MediaFrame) (pre later : List Moment)
    (hpre : ∀ x ∈ pre, 1000 ≤ x.talkingAudioCh.length ∧ x.stopClosed = false) :
    sendAudio frame (pre ++ later) = sendAudio frame later := by
  induction pre with
  | nil => rfl
  | cons m pre ih =>
    have hm := hpre m (List.mem_cons_self _ _)
    have hfull : ¬ m.talkingAudioCh.length < talkingChCap := by
      simp only [talkingChCap]; omega
    simp only [List.cons_append, sendAudio, if_neg hfull, hm.2, Bool.false_eq_true, if_false]
    exact ih (fun x hx => hpre x (List.mem_cons_of_mem _ hx))

/-- While the stop channel stays open the video `select` either sends, at the tail of the
buffer as it is at that moment, or is still waiting with the frame. -/
theorem sendVideo_running (frame : MediaFrame) (wait : List Moment)
    (h : ∀ x ∈ wait, x.stopClosed = false) :
    sendVideo frame wait = RouteOutcome.blocked frame ∨
    ∃ m ∈ wait, m.talkingVideoCh.length < 1000 ∧
      sendVideo frame wait = RouteOutcome.sent (m.talkingVideoCh ++ [frame]) m.talkingAudioCh := by
  induction wait with
  | nil => exact Or.inl rfl
  | cons m later ih =>
    have hm := h m (List.mem_cons_self _ _)
    by_cases hroom : m.talkingVideoCh.length < talkingChCap
    · refine Or.inr ⟨m, List.mem_cons_self _ _, hroom, ?_⟩
      simp only [sendVideo, if_pos hroom, hm, Bool.false_and, Bool.false_eq_true, if_false]
    · rcases ih (fun x hx => h x (List.mem_cons_of_mem _ hx)) with hb | ⟨x, hx, hlt, hs⟩
      · refine Or.inl ?_
        simp only [sendVideo, if_neg hroom, hm, Bool.false_eq_true, if_false, hb]
      · refine Or.inr ⟨x, List.mem_cons_of_mem _ hx, hlt, ?_⟩
        simp only [sendVideo, if_neg hroom, hm, Bool.false_eq_true, if_false, hs]

theorem sendAudio_running (frame : MediaFrame) (wait : List Moment)
    (h : ∀ x ∈ wait, x.stopClosed = false) :
    sendAudio frame wait = RouteOutcome.blocked frame ∨
    ∃ m ∈ wait, m.talkingAudioCh.length < 1000 ∧
      sendAudio frame wait = RouteOutcome.sent m.talkingVideoCh (m.talkingAudioCh ++ [frame]) := by
  induction wait with
  | nil => exact Or.inl rfl
  | cons m later ih =>
    have hm := h m (List.mem_cons_self _ _)
    by_cases hroom : m.talkingAudioCh.length < talkingChCap
    · refine Or.inr ⟨m, List.mem_cons_self _ _, hroom, ?_⟩
      simp only [sendAudio, if_pos hroom, hm, Bool.false_and, Bool.false_eq_true, if_false]
    · rcases ih (fun x hx => h x (List.mem_cons_of_mem _ hx)) with hb | ⟨x, hx, hlt, hs⟩
      · refine Or.inl ?_
        simp only [sendAudio, if_neg hroom, hm, Bool.false_eq_true, if_false, hb]
      · refine Or.inr ⟨x, List.mem_cons_of_mem _ hx, hlt, ?_⟩
        simp only [sendAudio, if_neg hroom, hm, Bool.false_eq_true, if_false, hs]

/-- C25, as stated, fails: the router has obtained a Video frame, the talking-video buffer
holds 1000 frames, and the stop channel is closed while the send waits. The router
returns with the frame in hand: the frame is in no buffer. The same happens with an empty
buffer when the stop channel is closed and the `select` takes the stop case. -/
theorem router_drops_on_stop :
    routeStep false (some (some ⟨[1], 40, true, PacketTypeVideo⟩, true, none))
        [⟨List.replicate 1000 ⟨[0], 40, true, PacketTypeVideo⟩, [], true, false⟩]
      = RouteOutcome.returned (some ⟨[1], 40, true, PacketTypeVideo⟩) ∧
    routeStep false (some (some ⟨[1], 40, true, PacketTypeVideo⟩, true, none))
        [⟨[], [], true, true⟩]
      = RouteOutcome.returned (some ⟨[1], 40, true, PacketTypeVideo⟩) := by
  refine ⟨?_, by decide⟩
  simp only [routeStep, sendVideo, talkingChCap, List.length_replicate, lt_irrefl,
    Bool.false_eq_true, if_false, if_true]

/-- C25, amended. Router routing, for a pass of the router that has obtained `frame` from
the talking source (a frame, `hasData` and no error), the wait of its blocking insert
being `pre` followed by the moment `m`: as long as the buffer of the frame is full and the
stop channel open (the moments `pre`) the insert waits with the frame in hand. If at `m`
the buffer has room and the stop case is not taken, a Video frame is appended to the tail
of the talking-video buffer, the talking-audio buffer being as it was, and an Audio frame
to the tail of the talking-audio buffer, the talking-video buffer being as it was; the
frames queued stay in front, unchanged. If at `m` the stop channel is closed and the
buffer is full, or the stop case is taken, the router returns and the frame is sent
nowhere. While the stop channel stays open, no Video or Audio frame obtained is discarded:
the pass ends with the frame appended or with the insert still waiting. -/
theorem router_routes (frame : MediaFrame) (pre : List Moment) (m : Moment)
    (later wait : List Moment) :
    (frame.Typ = PacketTypeVideo →
      ((∀ x ∈ pre, 1000 ≤ x.talkingVideoCh.length ∧ x.stopClosed = false) →
        routeStep false (some (some frame, true, none)) pre = RouteOutcome.blocked frame ∧
        (m.talkingVideoCh.length < 1000 → (m.stopClosed = false ∨ m.pickStop = false) →
          routeStep false (some (some frame, true, none)) (pre ++ m :: later)
            = RouteOutcome.sent (m.talkingVideoCh ++ [frame]) m.talkingAudioCh) ∧
        (m.stopClosed = true → (1000 ≤ m.talkingVideoCh.length ∨ m.pickStop = true) →
          routeStep false (some (some frame, true, none)) (pre ++ m :: later)
            = RouteOutcome.returned (some frame))) ∧
      ((∀ x ∈ wait, x.stopClosed = false) →
        routeStep false (some (some frame, true, none)) wait = RouteOutcome.blocked frame ∨
        ∃ x ∈ wait, x.talkingVideoCh.length < 1000 ∧
          routeStep false (some (some frame, true, none)) wait
            = RouteOutcome.sent (x.talkingVideoCh ++ [frame]) x.talkingAudioCh)) ∧
    (frame.Typ = PacketTypeAudio →
      ((∀ x ∈ pre, 1000 ≤ x.talkingAudioCh.length ∧ x.stopClosed = false) →
        routeStep false (some (some frame, true, none)) pre = RouteOutcome.blocked frame ∧
        (m.talkingAudioCh.length < 1000 → (m.stopClosed = false ∨ m.pickStop = false) →
          routeStep false (some (some frame, true, none)) (pre ++ m :: later)
            = RouteOutcome.sent m.talkingVideoCh (m.talkingAudioCh ++ [frame])) ∧
        (m.stopClosed = true → (1000 ≤ m.talkingAudioCh.length ∨ m.pickStop = true) →
          routeStep false (some (some frame, true, none)) (pre ++ m :: later)
            = RouteOutcome.returned (some frame))) ∧
      ((∀ x ∈ wait, x.stopClosed = false) →
        routeStep false (some (some frame, true, none)) wait = RouteOutcome.blocked frame ∨
        ∃ x ∈ wait, x.talkingAudioCh.length < 1000 ∧
          routeStep false (some (some frame, true, none)) wait
            = RouteOutcome.sent x.talkingVideoCh (x.talkingAudioCh ++ [frame]))) := by
  have hva : PacketTypeAudio ≠ PacketTypeVideo := by decide
  refine ⟨fun hv => ?_, fun ha => ?_⟩
  · have hstep : ∀ w, routeStep false (some (some frame, true, none)) w
        = sendVideo frame w := fun w => by simp [routeStep, hv]
    refine ⟨fun hpre => ⟨?_, fun hroom hpick => ?_, fun hstop hfull => ?_⟩, fun hrun => ?_⟩
    · have h := sendVideo_wait frame pre [] hpre
      rw [List.append_nil] at h
      rw [hstep, h]
      rfl
    · have hroom1 : m.talkingVideoCh.length < talkingChCap := hroom
      have hp : (m.stopClosed && m.pickStop) = false := by
        rcases hpick with h | h <;> simp [h]
      rw [hstep, sendVideo_wait frame pre _ hpre]
      simp only [sendVideo, if_pos hroom1, hp, Bool.false_eq_true, if_false]
    · rw [hstep, sendVideo_wait frame pre _ hpre]
      by_cases hroom : m.talkingVideoCh.length < talkingChCap
      · have hp : m.pickStop = true := by
          rcases hfull with h | h
          · simp only [talkingChCap] at hroom; omega
          · exact h
        simp only [sendVideo, if_pos hroom, hstop, hp, Bool.and_self, if_true]
      · simp only [sendVideo, if_neg hroom, hstop, if_true]
    · simp only [hstep]
      exact sendVideo_running frame wait hrun
  · have hstep : ∀ w, routeStep false (some (some frame, true, none)) w
        = sendAudio frame w := fun w => by simp [routeStep, ha, hva]
    refine ⟨fun hpre => ⟨?_, fun hroom hpick => ?_, fun hstop hfull => ?_⟩, fun hrun => ?_⟩
    · have h := sendAudio_wait frame pre [] hpre
      rw [List.append_nil] at h
      rw [hstep, h]
      rfl
    · have hroom1 : m.talkingAudioCh.length < talkingChCap := hroom
      have hp : (m.stopClosed && m.pickStop) = false := by
        rcases hpick with h | h <;> simp [h]
      rw [hstep, sendAudio_wait frame pre _ hpre]
      simp only [sendAudio, if_pos hroom1, hp, Bool.false_eq_true, if_false]
    · rw [hstep, sendAudio_wait frame pre _ hpre]
      by_cases hroom : m.talkingAudioCh.length < talkingChCap
      · have hp : m.pickStop = true := by
          rcases hfull with h | h
          · simp only [talkingChCap] at hroom; omega
          · exact h
        simp only [sendAudio, if_pos hroom, hstop, hp, Bool.and_self, if_true]
      · simp only [sendAudio, if_neg hroom, hstop, if_true]
    · simp only [hstep]
      exact sendAudio_running frame wait hrun

/-- An instance of C25: the talking-video buffer is full at first and has room at the
second moment, where the Video frame is appended behind the frame queued; an Audio frame
is appended to the talking-audio buffer at once. -/
theorem router_routes_witness :
    routeStep false (some (some ⟨[1], 40, true, PacketTypeVideo⟩, true, none))
        ([⟨List.replicate 1000 ⟨[0], 40, true, PacketTypeVideo⟩, [], false, false⟩] ++
          ⟨[⟨[7], 40, false, PacketTypeVideo⟩], [⟨[9], 20, true, PacketTypeAudio⟩],
            false, false⟩ :: [])
      = RouteOutcome.sent
          ([⟨[7], 40, false, PacketTypeVideo⟩] ++ [⟨[1], 40, true, PacketTypeVideo⟩])
          [⟨[9], 20, true, PacketTypeAudio⟩] ∧
    routeStep false (some (some ⟨[1], 20, true, PacketTypeAudio⟩, true, none))
        ([] ++ ⟨[⟨[7], 40, false, PacketTypeVideo⟩], [⟨[9], 20, true, PacketTypeAudio⟩],
            false, false⟩ :: [])
      = RouteOutcome.sent [⟨[7], 40, false, PacketTypeVideo⟩]
          ([⟨[9], 20, true, PacketTypeAudio⟩] ++ [⟨[1], 20, true, PacketTypeAudio⟩]) :=
  ⟨(((router_routes ⟨[1], 40, true, PacketTypeVideo⟩
        [⟨List.replicate 1000 ⟨[0], 40, true, PacketTypeVideo⟩, [], false, false⟩]
        ⟨[⟨[7], 40, false, PacketTypeVideo⟩], [⟨[9], 20, true, PacketTypeAudio⟩], false, false⟩
        [] []).1 rfl).1
      (fun x hx => by
        rw [List.mem_singleton] at hx
        subst hx
        exact ⟨(List.length_replicate _ _).ge, rfl⟩)).2.1 (by decide) (Or.inl rfl),
   (((router_routes ⟨[1], 20, true, PacketTypeAudio⟩ []
        ⟨[⟨[7], 40, false, PacketTypeVideo⟩], [⟨[9], 20, true, PacketTypeAudio⟩], false, false⟩
        [] []).2 rfl).1 (fun x hx => by cases hx)).2.1 (by decide) (Or.inl rfl)⟩

end Router

/-! ## One subscriber of the broadcaster -/

section Subscriber

open infrastructure

/-- Replacing a registered channel by one with the same capacity, still open and holding no
more than before keeps the broadcaster well formed. -/
theorem WF_set (b : UDSBroadcaster) (hwf : b.WF) (ch : Nat) (c0 c1 : Chan Packet)
    (hc0 : b.chans[ch]? = some c0) (hcl : c1.closed = c0.closed) (hcap : c1.cap = c0.cap)
    (hlen : c1.buf.length ≤ c0.buf.length) :
    ({ b with chans := b.chans.set ch c1 } : UDSBroadcaster).chans[ch]? = some c1 ∧
    ({ b with chans := b.chans.set ch c1 } : UDSBroadcaster).WF := by
  have hlt : ch < b.chans.length := by
    rcases Nat.lt_or_ge ch b.chans.length with h | h
    · exact h
    · rw [List.getElem?_eq_none h] at hc0; cases hc0
  have hget : (b.chans.set ch c1)[ch]? = some c1 := by
    simp [List.getElem?_set, hlt]
  refine ⟨hget, hwf.1, ?_⟩
  intro j hj
  obtain ⟨c, hc, hclosed, hcp, hl⟩ := hwf.2 j hj
  by_cases hjc : j = ch
  · subst hjc
    rw [hc0] at hc
    cases hc
    exact ⟨c1, hget, hcl.trans hclosed, hcap.trans hcp, by omega⟩
  · exact ⟨c, (List.getElem?_set_ne (fun he => hjc he.symm)).trans hc, hclosed, hcp, hl⟩

/-- The receive of a subscriber on its channel. -/
theorem dequeue_spec (b : UDSBroadcaster) (ch : Nat) (c0 : Chan Packet)
    (hc0 : b.chans[ch]? = some c0) :
    (c0.buf = [] → dequeue b ch = (none, b)) ∧
    (∀ x tl, c0.buf = x :: tl →
      dequeue b ch = (some x, { b with chans := b.chans.set ch { c0 with buf := tl } })) := by
  obtain ⟨buf, cap, closed⟩ := c0
  refine ⟨?_, ?_⟩
  · intro h
    simp only at h
    subst h
    cases closed <;> simp [dequeue, hc0, Chan.recv]
  · intro x tl h
    simp only at h
    subst h
    simp [dequeue, hc0, Chan.recv]

/-- Fan-outs interleaved with the receives of one subscriber: the run ends normally, and
what the subscriber received followed by what is still queued is a subsequence of what was
queued at the start followed by the packets fanned out. -/
theorem subscriberRun_spec (ch : Nat) (ops : List SubOp) (b : UDSBroadcaster) (c0 : Chan Packet)
    (hwf : b.WF) (hreg : ch ∈ b.listeners) (hc0 : b.chans[ch]? = some c0) :
    ∃ got b1 c1, subscriberRun ch b ops = Go.ret (got, b1) ∧ b1.WF ∧ ch ∈ b1.listeners ∧
      b1.chans[ch]? = some c1 ∧ (got ++ c1.buf).Sublist (c0.buf ++ fannedOut ops) ∧
      c1.buf.length ≤ 100 := by
  induction ops generalizing b c0 with
  | nil =>
    obtain ⟨c, hc, -, -, hlen⟩ := hwf.2 ch hreg
    rw [hc0] at hc
    cases hc
    exact ⟨[], b, c0, rfl, hwf, hreg, hc0, by simp [fannedOut], hlen⟩
  | cons op rest ih =>
    cases op with
    | fanOut pkt =>
      obtain ⟨b1, hrun, hl, -, hch, hwf1⟩ := fanOut_spec b pkt hwf
      have hc1 : b1.chans[ch]? =
          some (if c0.buf.length < c0.cap then { c0 with buf := c0.buf ++ [pkt] } else c0) := by
        rw [hch ch, if_pos hreg, hc0]; rfl
      obtain ⟨got, b2, c2, hrest, hwf2, hreg2, hc2, hsub, hlen⟩ :=
        ih b1 _ hwf1 (hl ▸ hreg) hc1
      refine ⟨got, b2, c2, ?_, hwf2, hreg2, hc2, ?_, hlen⟩
      · simp only [subscriberRun, hrun, hrest]
      · refine hsub.trans ?_
        simp only [fannedOut]
        split
        · simp
        · exact List.Sublist.append_left (List.sublist_cons_self _ _) _
    | dequeue =>
      obtain ⟨hnil, hcons⟩ := dequeue_spec b ch c0 hc0
      cases hbuf : c0.buf with
      | nil =>
        obtain ⟨got, b2, c2, hrest, hwf2, hreg2, hc2, hsub, hlen⟩ := ih b c0 hwf hreg hc0
        refine ⟨got, b2, c2, ?_, hwf2, hreg2, hc2, ?_, hlen⟩
        · simp only [subscriberRun, hnil hbuf, hrest, Option.toList, List.nil_append]
        · simpa [fannedOut, hbuf] using hsub
      | cons x tl =>
        obtain ⟨hget, hwf1⟩ := WF_set b hwf ch c0 { c0 with buf := tl } hc0 rfl rfl
          (by simp [hbuf])
        obtain ⟨got, b2, c2, hrest, hwf2, hreg2, hc2, hsub, hlen⟩ :=
          ih _ { c0 with buf := tl } hwf1 hreg hget
        refine ⟨x :: got, b2, c2, ?_, hwf2, hreg2, hc2, ?_, hlen⟩
        · simp only [subscriberRun, hcons x tl hbuf, hrest, Option.toList, List.singleton_append]
        · simpa [fannedOut] using hsub

/-- C29. Per-subscriber delivery. For a well-formed broadcaster and a subscriber registered
with the channel `ch` (its queue being `c0` at the start), every interleaving `ops` of
fan-outs with the non-blocking receives of that subscriber ends normally; the packets the
subscriber received, followed by those still queued, are a subsequence of the packets
queued at the start followed by the packets fanned out, in the same relative order and
each at most once; so the received packets are a subsequence of the fanned-out ones when
the queue starts empty; and the queue holds no more than 100 packets at the end of every
such run, hence at every moment. -/
theorem subscriber_subsequence (b : UDSBroadcaster) (ch : Nat) (c0 : Chan Packet)
    (ops : List SubOp) (hwf : b.WF) (hreg : ch ∈ b.listeners)
    (hc0 : b.chans[ch]? = some c0) :
    ∃ got b1 c1, subscriberRun ch b ops = Go.ret (got, b1) ∧
      b1.chans[ch]? = some c1 ∧
      (got ++ c1.buf).Sublist (c0.buf ++ fannedOut ops) ∧
      (c0.buf = [] → got.Sublist (fannedOut ops)) ∧
      c1.buf.length ≤ 100 ∧
      (∀ k, ∃ gotk bk ck, subscriberRun ch b (ops.take k) = Go.ret (gotk, bk) ∧
        bk.chans[ch]? = some ck ∧ ck.buf.length ≤ 100 ∧
        gotk.Sublist (c0.buf ++ fannedOut (ops.take k))) := by
  obtain ⟨got, b1, c1, hrun, -, -, hc1, hsub, hlen⟩ :=
    subscriberRun_spec ch ops b c0 hwf hreg hc0
  refine ⟨got, b1, c1, hrun, hc1, hsub, ?_, hlen, ?_⟩
  · intro h0
    have h := (List.sublist_append_left got c1.buf).trans hsub
    simpa [h0] using h
  · intro k
    obtain ⟨gotk, bk, ck, hrunk, -, -, hck, hsubk, hlenk⟩ :=
      subscriberRun_spec ch (ops.take k) b c0 hwf hreg hc0
    exact ⟨gotk, bk, ck, hrunk, hck, hlenk, (List.sublist_append_left gotk ck.buf).trans hsubk⟩

theorem subscriber_subsequence_witness :
    ∃ got b1 c1,
      subscriberRun 0 (Subscribe NewUDSBroadcaster).2
          [SubOp.fanOut ⟨1, [1]⟩, SubOp.dequeue, SubOp.fanOut ⟨1, [2]⟩] = Go.ret (got, b1) ∧
      b1.chans[0]? = some c1 ∧
      (got ++ c1.buf).Sublist
        (([] : List Packet) ++
          fannedOut [SubOp.fanOut ⟨1, [1]⟩, SubOp.dequeue, SubOp.fanOut ⟨1, [2]⟩]) ∧
      c1.buf.length ≤ 100 := by
  obtain ⟨got, b1, c1, hrun, hc1, hsub, -, hlen, -⟩ :=
    subscriber_subsequence (Subscribe NewUDSBroadcaster).2 0
      { buf := [], cap := 100, closed := false }
      [SubOp.fanOut ⟨1, [1]⟩, SubOp.dequeue, SubOp.fanOut ⟨1, [2]⟩]
      ⟨by decide, by
        intro ch h
        have h0 : ch = 0 := by simpa [Subscribe, NewUDSBroadcaster] using h
        subst h0
        exact ⟨_, rfl, rfl, rfl, by decide⟩⟩
      (by decide) rfl
  exact ⟨got, b1, c1, hrun, hc1, hsub, hlen⟩

end Subscriber

/-! ## A session of `Start` -/

section Session

open protocol infrastructure

theorem encodePacket_eq (p : Packet) :
    encodePacket p = p.Typ :: PutUint32 (p.Payload.length % 4294967296) ++ p.Payload := by
  simp [encodePacket, WritePacket_ok]

/-- `ReadPacket` reads a written packet of admissible length back and stops behind it. -/
theorem ReadPacket_encodePacket (p : Packet) (h1 : 1 ≤ p.Payload.length)
    (h2 : p.Payload.length ≤ 10000000) (tail : List Byte) (fin : Err) :
    ReadPacket ⟨encodePacket p ++ tail, fin⟩
      = ((p.Typ, some p.Payload, none), ⟨tail, fin⟩) := by
  have hmod : p.Payload.length % 4294967296 = p.Payload.length := Nat.mod_eq_of_lt (by omega)
  have hform : encodePacket p ++ tail
      = p.Typ :: PutUint32 p.Payload.length ++ (p.Payload ++ tail) := by
    rw [encodePacket_eq, hmod]; simp
  rw [hform, ReadPacket_encoded p.Typ p.Payload.length (by omega), if_neg (by omega),
    if_neg (by omega), ReadFull_append]

/-- The broadcast loop on the encodings of `pkts` followed by a stream on which `ReadPacket`
fails: the packets are fanned out one after the other, and the loop is left with that
failure. -/
theorem broadcastLoop_spec (pkts : List Packet) (tail : List Byte) (fin : Err)
    (res : Byte × Option (List Byte)) (err : Err) (rd1 : Reader)
    (htail : ReadPacket ⟨tail, fin⟩ = ((res.1, res.2, some err), rd1))
    (hpk : ∀ p ∈ pkts, 1 ≤ p.Payload.length ∧ p.Payload.length ≤ 10000000)
    (fuel : Nat) (hfuel : pkts.length < fuel) (b : UDSBroadcaster) (hwf : b.WF) :
    ∃ b1, runOps b (pkts.map Op.fanOut) = Go.ret b1 ∧ b1.WF ∧
      b1.activeConn = b.activeConn ∧ b1.listeners = b.listeners ∧
      broadcastLoop fuel ⟨encodePackets pkts ++ tail, fin⟩ b
        = some (Go.ret { b := b1, rd := rd1, err := err, fanned := pkts,
                         logged := decide (err ≠ Err.EOF) }) := by
  induction pkts generalizing fuel b with
  | nil =>
    obtain ⟨fuel, rfl⟩ : ∃ n, fuel = n + 1 := ⟨fuel - 1, by simp at hfuel; omega⟩
    refine ⟨b, rfl, hwf, rfl, rfl, ?_⟩
    simp only [encodePackets, List.flatMap_nil, List.nil_append, broadcastLoop, htail]
  | cons p ps ih =>
    obtain ⟨fuel, rfl⟩ : ∃ n, fuel = n + 1 := ⟨fuel - 1, by simp at hfuel; omega⟩
    have hp := hpk p (List.mem_cons_self _ _)
    obtain ⟨b1, hfan, hl, hac, -, hwf1⟩ := fanOut_spec b p hwf
    obtain ⟨b2, hops, hwf2, hac2, hl2, hloop⟩ :=
      ih (fun q hq => hpk q (List.mem_cons_of_mem _ hq)) fuel
        (by simp at hfuel; omega) b1 hwf1
    refine ⟨b2, ?_, hwf2, hac2.trans hac, hl2.trans hl, ?_⟩
    · simp only [List.map_cons, runOps, step, hfan, hops]
    · have hform : encodePackets (p :: ps) ++ tail
          = encodePacket p ++ (encodePackets ps ++ tail) := by
        simp [encodePackets, List.flatMap_cons, List.append_assoc]
      have hpkt : ({ Typ := p.Typ, Payload := (some p.Payload).getD [] } : Packet) = p := rfl
      rw [hform]
      simp only [broadcastLoop, ReadPacket_encodePacket p hp.1 hp.2, hpkt, hfan, hloop]

/-- The fan-out step does not look at the active connection. -/
theorem fanOut_activeConn (b : UDSBroadcaster) (x : Option Conn) (pkt : Packet)
    (b1 : UDSBroadcaster) (h : fanOut b pkt = Go.ret b1) :
    fanOut { b with activeConn := x } pkt = Go.ret { b1 with activeConn := x } := by
  unfold fanOut at h ⊢
  cases hl : fanOutLoop pkt b.listeners b.chans with
  | panic => rw [hl] at h; cases h
  | ret chans1 =>
    rw [hl] at h
    cases h
    simp only [hl]

theorem runOps_fanOut_activeConn (pkts : List Packet) (b : UDSBroadcaster) (x : Option Conn)
    (b1 : UDSBroadcaster) (h : runOps b (pkts.map Op.fanOut) = Go.ret b1) :
    runOps { b with activeConn := x } (pkts.map Op.fanOut)
      = Go.ret { b1 with activeConn := x } := by
  induction pkts generalizing b with
  | nil =>
    simp only [List.map_nil, runOps] at h ⊢
    cases h
    rfl
  | cons p ps ih =>
    simp only [List.map_cons, runOps, step] at h ⊢
    cases hf : fanOut b p with
    | panic => rw [hf] at h; cases h
    | ret b2 =>
      rw [hf] at h
      rw [fanOut_activeConn b x p b2 hf]
      exact ih b2 h

/-- A session of `Start` on the encodings of `pkts` followed by a stream on which
`ReadPacket` fails. -/
theorem session_spec (pkts : List Packet) (tail : List Byte) (fin : Err)
    (res : Byte × Option (List Byte)) (err : Err) (rd1 : Reader)
    (htail : ReadPacket ⟨tail, fin⟩ = ((res.1, res.2, some err), rd1))
    (hpk : ∀ p ∈ pkts, 1 ≤ p.Payload.length ∧ p.Payload.length ≤ 10000000)
    (fuel : Nat) (hfuel : pkts.length < fuel) (b : UDSBroadcaster) (hwf : b.WF)
    (id : Nat) (wr : Writer) :
    ∃ b1, runOps b (pkts.map Op.fanOut) = Go.ret b1 ∧
      session fuel b ⟨id, ⟨encodePackets pkts ++ tail, fin⟩, wr⟩
        = some (Go.ret { b := { b1 with activeConn := none }, fanned := pkts, err := err,
                         closedConn := id, rd := rd1 }) := by
  obtain ⟨b0, hops0, -, -, -, -⟩ :=
    broadcastLoop_spec pkts tail fin res err rd1 htail hpk fuel hfuel b hwf
  obtain ⟨b1, hops, -, -, -, hloop⟩ :=
    broadcastLoop_spec pkts tail fin res err rd1 htail hpk fuel hfuel
      (⟨b.chans, b.listeners, some ⟨id, ⟨encodePackets pkts ++ tail, fin⟩, wr⟩⟩ : UDSBroadcaster)
      hwf
  have hb1 := runOps_fanOut_activeConn pkts b
    (some ⟨id, ⟨encodePackets pkts ++ tail, fin⟩, wr⟩) b0 hops0
  have heq : b1 = { b0 with activeConn := some ⟨id, ⟨encodePackets pkts ++ tail, fin⟩, wr⟩ } := by
    have h := hops.symm.trans hb1
    cases h
    rfl
  refine ⟨b0, hops0, ?_⟩
  simp only [session, hloop, heq, Option.map_some', if_true]

/-- The queues after the fan-out of `pkts`, one packet after the other: a registered queue
has the packets appended in order as far as its capacity goes, every other queue is as it
was. -/
theorem runOps_fanOut_queues (pkts : List Packet) (b : UDSBroadcaster) (hwf : b.WF) :
    ∃ b1, runOps b (pkts.map Op.fanOut) = Go.ret b1 ∧ b1.listeners = b.listeners ∧
      (∀ ch ∈ b.listeners, ∀ c, b.chans[ch]? = some c →
        b1.chans[ch]? = some { c with buf := (c.buf ++ pkts).take 100 }) ∧
      (∀ j, j ∉ b.listeners → b1.chans[j]? = b.chans[j]?) := by
  induction pkts generalizing b with
  | nil =>
    refine ⟨b, rfl, rfl, ?_, fun _ _ => rfl⟩
    intro ch hch c hc
    obtain ⟨c1, hc1, -, -, hlen⟩ := hwf.2 ch hch
    rw [hc] at hc1
    cases hc1
    rw [hc, List.append_nil, List.take_of_length_le hlen]
  | cons p ps ih =>
    obtain ⟨b1, hfan, hl, -, hch, hwf1⟩ := fanOut_spec b p hwf
    obtain ⟨b2, hops, hl2, hq, hun⟩ := ih b1 hwf1
    refine ⟨b2, ?_, hl2.trans hl, ?_, ?_⟩
    · simp only [List.map_cons, runOps, step, hfan, hops]
    · intro ch hreg c hc
      obtain ⟨c1, hc1, -, hcap, hlen⟩ := hwf.2 ch hreg
      rw [hc] at hc1
      cases hc1
      have hb1 : b1.chans[ch]? =
          some (if c.buf.length < c.cap then { c with buf := c.buf ++ [p] } else c) := by
        rw [hch ch, if_pos hreg, hc]; rfl
      rw [hq ch (hl ▸ hreg) _ hb1]
      by_cases hroom : c.buf.length < c.cap
      · simp [hroom]
      · have h100 : c.buf.length = 100 := by omega
        simp only [if_neg hroom]
        rw [List.take_append_of_le_length (by omega),
          List.take_append_of_le_length (by omega)]
    · intro j hj
      rw [hun j (hl ▸ hj), hch j, if_neg hj]

/-- C30. A sentinel ends the broadcasting session. Let the connection `Start` accepted
deliver the encodings of the packets `pkts`, each with a payload of 1 to 10,000,000 bytes,
and let the well-formed broadcaster `b` have fuel for one read more than there are
packets. Whatever follows, if `ReadPacket` fails on it (a zero-length packet, an oversize
header, a truncated packet, the end of the stream), the session ends: exactly `pkts` were
fanned out, once each and in reading order, so that every registered queue holds what it
held followed by `pkts`, as far as its capacity of 100 goes, and nothing else, the set of
subscribers and every other queue being as they were; the active connection is cleared
and the connection is closed. When a zero-length packet follows, it is not fanned out,
nothing behind it is read, and the session ends with `io.EOF`, the broadcaster, the
fanned-out packets and the closed connection being the same as when the peer disconnects
behind the last packet. -/
theorem sentinel_ends_session (pkts : List Packet) (t : Byte) (rest : List Byte) (fin : Err)
    (fuel : Nat) (b : UDSBroadcaster) (id : Nat) (wr : Writer) (hwf : b.WF)
    (hpk : ∀ p ∈ pkts, 1 ≤ p.Payload.length ∧ p.Payload.length ≤ 10000000)
    (hfuel : pkts.length < fuel) :
    ∃ b1, runOps b (pkts.map Op.fanOut) = Go.ret b1 ∧
      session fuel b ⟨id, ⟨encodePackets pkts ++ t :: 0 :: 0 :: 0 :: 0 :: rest, fin⟩, wr⟩
        = some (Go.ret { b := { b1 with activeConn := none }, fanned := pkts,
                         err := Err.EOF, closedConn := id, rd := ⟨rest, fin⟩ }) ∧
      session fuel b ⟨id, ⟨encodePackets pkts, Err.EOF⟩, wr⟩
        = some (Go.ret { b := { b1 with activeConn := none }, fanned := pkts,
                         err := Err.EOF, closedConn := id, rd := ⟨[], Err.EOF⟩ }) ∧
      (∀ (tail : List Byte) (fin2 : Err) (ty : Byte) (pl : Option (List Byte)) (err : Err)
          (rd1 : Reader), ReadPacket ⟨tail, fin2⟩ = ((ty, pl, some err), rd1) →
        session fuel b ⟨id, ⟨encodePackets pkts ++ tail, fin2⟩, wr⟩
          = some (Go.ret { b := { b1 with activeConn := none }, fanned := pkts,
                           err := err, closedConn := id, rd := rd1 })) ∧
      b1.listeners = b.listeners ∧
      (∀ ch ∈ b.listeners, ∀ c, b.chans[ch]? = some c →
        b1.chans[ch]? = some { c with buf := (c.buf ++ pkts).take 100 }) ∧
      (∀ j, j ∉ b.listeners → b1.chans[j]? = b.chans[j]?) := by
  have hgen : ∀ (tail : List Byte) (fin2 : Err) (ty : Byte) (pl : Option (List Byte))
      (err : Err) (rd1 : Reader), ReadPacket ⟨tail, fin2⟩ = ((ty, pl, some err), rd1) →
      ∀ b1, runOps b (pkts.map Op.fanOut) = Go.ret b1 →
      session fuel b ⟨id, ⟨encodePackets pkts ++ tail, fin2⟩, wr⟩
        = some (Go.ret { b := { b1 with activeConn := none }, fanned := pkts,
                         err := err, closedConn := id, rd := rd1 }) := by
    intro tail fin2 ty pl err rd1 htail b1 hb1
    obtain ⟨b2, hops, hses⟩ :=
      session_spec pkts tail fin2 (ty, pl) err rd1 htail hpk fuel hfuel b hwf id wr
    have h := hb1.symm.trans hops
    cases h
    exact hses
  have hsent : ReadPacket ⟨t :: 0 :: 0 :: 0 :: 0 :: rest, fin⟩
      = ((t, none, some Err.EOF), ⟨rest, fin⟩) := by
    rw [ReadPacket_header]
    rfl
  have hdisc : ReadPacket ⟨[], Err.EOF⟩ = ((0, none, some Err.EOF), ⟨[], Err.EOF⟩) := by
    simp [ReadPacket, ReadFull]
  obtain ⟨b1, hops, hl, hq, hun⟩ := runOps_fanOut_queues pkts b hwf
  refine ⟨b1, hops, hgen _ _ _ _ _ _ hsent b1 hops, ?_, ?_, hl, hq, hun⟩
  · have h := hgen _ _ _ _ _ _ hdisc b1 hops
    rwa [List.append_nil] at h
  · intro tail fin2 ty pl err rd1 htail
    exact hgen tail fin2 ty pl err rd1 htail b1 hops

/-- An instance of C30: one subscriber with an empty queue, two packets, a zero-length
packet and one more packet behind it. The queue of the subscriber ends with the two
packets, and the packet behind the sentinel is left unread. -/
theorem sentinel_ends_session_witness :
    ∃ b1 : UDSBroadcaster,
      session 3 (Subscribe NewUDSBroadcaster).2
          ⟨0, ⟨encodePackets [⟨1, [5]⟩, ⟨2, [6, 7]⟩] ++ 3 :: 0 :: 0 :: 0 :: 0 :: [1, 0, 0, 0, 1, 9],
            Err.Other 0⟩, ⟨[], []⟩⟩
        = some (Go.ret { b := { b1 with activeConn := none },
                         fanned := [⟨1, [5]⟩, ⟨2, [6, 7]⟩], err := Err.EOF, closedConn := 0,
                         rd := ⟨[1, 0, 0, 0, 1, 9], Err.Other 0⟩ }) ∧
      b1.listeners = [0] ∧
      b1.chans[0]? = some ⟨[⟨1, [5]⟩, ⟨2, [6, 7]⟩], 100, false⟩ := by
  obtain ⟨b1, -, hses, -, -, hl, hq, -⟩ :=
    sentinel_ends_session [⟨1, [5]⟩, ⟨2, [6, 7]⟩] 3 [1, 0, 0, 0, 1, 9] (Err.Other 0) 3
      (Subscribe NewUDSBroadcaster).2 0 ⟨[], []⟩
      ⟨by decide, by
        intro ch h
        have h0 : ch = 0 := by simpa [Subscribe, NewUDSBroadcaster] using h
        subst h0
        exact ⟨_, rfl, rfl, rfl, by decide⟩⟩
      (by
        intro p hp
        simp only [List.mem_cons, List.mem_singleton, List.not_mem_nil, or_false] at hp
        rcases hp with rfl | rfl <;> exact ⟨by decide, by decide⟩)
      (by decide)
  exact ⟨b1, hses, hl, hq 0 (by decide) ⟨[], 100, false⟩ rfl⟩

end Session

end InfiniteLive
